import Mathlib

/-!
# The per-interface IP pool manager of titus-executor

A shallow embedding of `vpc/allocate/ip_pool_manager.go`.  Every Go method of
`IPPoolManager` becomes a function that takes the state of the world and returns its
Go results together with the state it leaves behind.  The collaborators whose code
is not part of the embedded file (the file-system lock registry, the interface view,
the cloud client, the clock) are state components whose answers are supplied by
oracle functions stored in the world, so that a theorem quantified over worlds
speaks about every behaviour of the environment.
-/

namespace Titus

/-! ## Values -/

/-- Go error values seen by the pool manager: the three package sentinels, the two
`unix` errno values the lock registry hands out, and every other error value
(I/O, cloud), told apart by a code. -/
inductive Err where
  | EWOULDBLOCK
  | lockTimeout
  | errIPRefreshFailed
  | errMaxIPAddressesAllocated
  | errNoFreeIPAddressFound
  | ext (code : Nat)
  deriving DecidableEq, Repr

/-- Lock paths below `ec2wrapper.GetLockPath(mgr.networkInterface)`:
`filepath.Join(lockPath, "ip-config")` and
`filepath.Join(lockPath, "ip-addresses", ip)`. -/
inductive Path where
  | ipConfig
  | ipAddress (ip : String)
  deriving DecidableEq, Repr

/-- The `fslocker.Record` of a lease file: its name and bump time (nanoseconds). -/
structure Record where
  Name : String
  BumpTime : Int
  deriving DecidableEq, Repr

/-- The token `*fslocker.ExclusiveLock` of a held lock. -/
structure ExclusiveLock where
  path : Path
  deriving DecidableEq, Repr

/-- What the rest of the host answers to one lock attempt on a path. -/
inductive LockAnswer where
  | free
  | busy
  | fault (code : Nat)
  deriving DecidableEq, Repr

/-- Calls that leave the process or touch the registry, in the order they happen. -/
inductive Event where
  | lockAttempt (p : Path)
  | unlock (p : Path)
  | remove (p : Path)
  | assignRequest (count : Int)
  | freeRequest (ips : List String)
  deriving DecidableEq, Repr

/-- A Go call either returns its results or panics. -/
inductive Go (α : Type) where
  | ret (a : α)
  | panicked (msg : String)
  deriving DecidableEq, Repr

/-- The state a pool manager runs in: its interface view, the lock registry, the
cloud, the clock, and the log of calls made so far. -/
structure World where
  /-- Snapshot returned by `GetIPv4Addresses()`, primary first. -/
  ipv4 : List String
  /-- What the n-th `Refresh()` reads: an error code or the new IPv4 list. -/
  metadata : Nat → Except Nat (List String)
  /-- Number of `Refresh()` calls made so far. -/
  refreshes : Nat
  /-- Value of `vpc.GetMaxIPv4Addresses(ctx.InstanceType)`. -/
  maxIPv4 : Int
  /-- The field `mgr.ipRefreshSleepInterval`. -/
  ipRefreshSleepInterval : Int
  /-- Lease records present under `ip-addresses/`. -/
  files : List Record
  /-- Locks held through tokens of this process. -/
  held : List Path
  /-- Answer of the rest of the host to the n-th lock attempt. -/
  lockEnv : Nat → Path → LockAnswer
  /-- Number of lock attempts made so far. -/
  lockAttempts : Nat
  /-- Error code, if any, of the n-th `ListFiles` call. -/
  listEnv : Nat → Option Nat
  /-- Number of `ListFiles` calls made so far. -/
  lists : Nat
  /-- Error code, if any, of removing a path. -/
  removeEnv : Path → Option Nat
  /-- Error code, if any, of the n-th cloud request. -/
  cloudEnv : Nat → Option Nat
  /-- Number of cloud requests made so far. -/
  cloudCalls : Nat
  /-- Last clock reading, in nanoseconds. -/
  now : Int
  /-- Time that passes before the n-th clock reading. -/
  elapse : Nat → Nat
  /-- Number of clock readings made so far. -/
  reads : Nat
  /-- Log of calls, oldest first. -/
  trace : List Event

/-! ## Machine integers and time -/

/-- Go `int` on the 64-bit targets of the executor: two's complement wrap-around. -/
def wrapInt (x : Int) : Int := (x + 2 ^ 63) % 2 ^ 64 - 2 ^ 63

/-- Largest `int`. -/
def maxInt : Int := 2 ^ 63 - 1

/-- Smallest `time.Duration`. -/
def minDuration : Int := -(2 ^ 63)

/-- Largest `time.Duration`. -/
def maxDuration : Int := 2 ^ 63 - 1

/-- The constant `time.Second`. -/
def second : Int := 1000000000

/-- The constant `time.Minute`. -/
def minute : Int := 60 * second

/-- The library's `Time.Sub`: the difference, saturated to the range of a
`time.Duration`. -/
def timeSub (t u : Int) : Int := max minDuration (min maxDuration (t - u))

/-- The library's `time.Now()`: time passes, the clock is read. -/
def timeNow (w : World) : Int × World :=
  let t := w.now + (w.elapse w.reads : Int)
  (t, { w with now := t, reads := w.reads + 1 })

/-- The library's `time.Since(t)`, which is `time.Now().Sub(t)`. -/
def timeSince (w : World) (t : Int) : Int × World :=
  let r := timeNow w
  (timeSub r.1 t, r.2)

/-- The library's `time.Sleep(d)`: at least `d` passes when `d` is positive. -/
def timeSleep (w : World) (d : Int) : World :=
  { w with now := w.now + max d 0 }

/-! ## The file-system lock registry -/

/-- Modelled from the spec: `fslocker.ExclusiveLock.Bump` is not among the sources.
It touches the bump time of the lease record the token belongs to. -/
def Bump (w : World) (l : ExclusiveLock) : World :=
  match l.path with
  | .ipConfig => w
  | .ipAddress ip =>
    let r := timeNow w
    let touched := r.2.files.map (fun f => if f.Name = ip then { f with BumpTime := r.1 } else f)
    { r.2 with files := touched }

/-- Modelled from the spec: `fslocker.ExclusiveLock.Unlock` is not among the sources.
It releases the lock and is idempotent. -/
def Unlock (w : World) (l : ExclusiveLock) : World :=
  { w with held := w.held.filter (fun p => p ≠ l.path),
           trace := w.trace ++ [Event.unlock l.path] }

/-- The lease file a successful lock leaves behind: the first acquisition of an
address creates its record. -/
def touchFile (files : List Record) (p : Path) (now : Int) : List Record :=
  match p with
  | .ipConfig => files
  | .ipAddress ip =>
    if files.any (fun f => f.Name = ip) then files else files ++ [⟨ip, now⟩]

/-- The answer of the registry to a lock attempt on `p` made from `w` after `k`
further attempts: a path this process holds is contended, otherwise the rest of
the host decides. -/
def lockAnswer (w : World) (k : Nat) (p : Path) : LockAnswer :=
  if p ∈ w.held then LockAnswer.busy else w.lockEnv (w.lockAttempts + k) p

/-- Modelled from the spec: `fslocker.FSLocker.ExclusiveLock` is not among the
sources.  A zero timeout is a non-blocking attempt that fails with `EWOULDBLOCK`
on contention; a positive timeout blocks that long and then fails.  A path this
process already holds is contended too. -/
def FSLocker.ExclusiveLock (w : World) (p : Path) (timeout : Int) :
    Except Err ExclusiveLock × World :=
  let answer := lockAnswer w 0 p
  let w1 := { w with lockAttempts := w.lockAttempts + 1,
                     trace := w.trace ++ [Event.lockAttempt p] }
  match answer with
  | .fault code => (.error (.ext code), w1)
  | .busy =>
    if timeout = 0 then (.error .EWOULDBLOCK, w1)
    else (.error .lockTimeout, timeSleep w1 timeout)
  | .free => (.ok ⟨p⟩, { w1 with held := p :: w1.held, files := touchFile w1.files p w1.now })

/-- Modelled from the spec: `fslocker.FSLocker.ListFiles` is not among the sources.
It enumerates the lease records with their bump times. -/
def FSLocker.ListFiles (w : World) : Except Err (List Record) × World :=
  let w1 := { w with lists := w.lists + 1 }
  match w.listEnv w.lists with
  | some code => (.error (.ext code), w1)
  | none => (.ok w.files, w1)

/-- Modelled from the spec: `fslocker.FSLocker.RemovePath` is not among the sources.
It deletes a lease record. -/
def FSLocker.RemovePath (w : World) (p : Path) : Option Err × World :=
  match w.removeEnv p with
  | some code => (some (.ext code), w)
  | none =>
    match p with
    | .ipConfig => (none, { w with trace := w.trace ++ [Event.remove p] })
    | .ipAddress ip =>
      (none, { w with files := w.files.filter (fun f => f.Name ≠ ip),
                      trace := w.trace ++ [Event.remove p] })

/-! ## The interface view and the cloud -/

/-- Modelled from the spec: `NetworkInterface.Refresh` is not among the sources.
It re-reads the local metadata source and replaces the snapshot. -/
def Refresh (w : World) : Option Err × World :=
  let w1 := { w with refreshes := w.refreshes + 1 }
  match w.metadata w.refreshes with
  | .error code => (some (.ext code), w1)
  | .ok ips => (none, { w1 with ipv4 := ips })

/-- The cloud call `ec2.AssignPrivateIpAddresses` with the given
`SecondaryPrivateIpAddressCount`. -/
def AssignPrivateIpAddresses (w : World) (count : Int) : Option Err × World :=
  let w1 := { w with cloudCalls := w.cloudCalls + 1,
                     trace := w.trace ++ [Event.assignRequest count] }
  match w.cloudEnv w.cloudCalls with
  | some code => (some (.ext code), w1)
  | none => (none, w1)

/-- Modelled from the spec: `NetworkInterface.FreeIPv4Addresses` is not among the
sources.  It asks the cloud to unassign the given secondary addresses. -/
def FreeIPv4Addresses (w : World) (ips : List String) : Option Err × World :=
  let w1 := { w with cloudCalls := w.cloudCalls + 1,
                     trace := w.trace ++ [Event.freeRequest ips] }
  match w.cloudEnv w.cloudCalls with
  | some code => (some (.ext code), w1)
  | none => (none, w1)

/-! ## The pool manager -/

/-- The method `lockConfiguration`: the `ip-config` lock, with a one-minute timeout. -/
def lockConfiguration (w : World) : Except Err ExclusiveLock × World :=
  let timeout := minute
  FSLocker.ExclusiveLock w Path.ipConfig timeout

/-- Number of times the loop condition of the polling loop of `assignMoreIPs` can be
evaluated: every round sleeps a second, so the condition fails by then. -/
def pollFuel (ipRefreshTimeout : Int) : Nat := (ipRefreshTimeout / second).toNat + 2

/-- The loop `for time.Since(now) < ipRefreshTimeout` of `assignMoreIPs`. -/
def assignPoll (start ipRefreshTimeout : Int) (originalIPSet : List String) :
    Nat → World → Option Err × World
  | 0, w => (some Err.errIPRefreshFailed, w)
  | fuel + 1, w =>
    let r := timeSince w start
    if r.1 < ipRefreshTimeout then
      match Refresh r.2 with
      | (some err, w1) => (some err, w1)
      | (none, w1) =>
        let newIPSet := w1.ipv4
        if (newIPSet.filter (fun ip => ip ∉ originalIPSet)).length > 0 then (none, w1)
        else assignPoll start ipRefreshTimeout originalIPSet fuel (timeSleep w1 second)
    else (some Err.errIPRefreshFailed, r.2)

/-- The `SecondaryPrivateIpAddressCount` that `assignMoreIPs` asks for once it is
below the cap: the batch size, replaced by the room left when the `int` sum of the
address count and the batch size exceeds the cap. -/
def clampBatch (have_ cap batchSize : Int) : Int :=
  if wrapInt (have_ + batchSize) > cap then wrapInt (cap - have_) else batchSize

/-- The method `assignMoreIPs`. -/
def assignMoreIPs (w : World) (batchSize : Int) (ipRefreshTimeout : Int) :
    Option Err × World :=
  if (w.ipv4.length : Int) ≥ w.maxIPv4 then (some Err.errMaxIPAddressesAllocated, w)
  else
    let batchSize := clampBatch w.ipv4.length w.maxIPv4 batchSize
    match AssignPrivateIpAddresses w batchSize with
    | (some err, w1) => (some err, w1)
    | (none, w1) =>
      let originalIPSet := w1.ipv4
      let r := timeNow w1
      assignPoll r.1 ipRefreshTimeout originalIPSet (pollFuel ipRefreshTimeout) r.2

/-- The method `tryAllocate`: a non-blocking lock attempt whose `EWOULDBLOCK` is
turned into a nil lock with a nil error. -/
def tryAllocate (w : World) (ipAddress : String) :
    (Option ExclusiveLock × Option Err) × World :=
  match FSLocker.ExclusiveLock w (Path.ipAddress ipAddress) 0 with
  | (.error err, w1) =>
    if err ≠ Err.EWOULDBLOCK then ((none, some err), w1) else ((none, none), w1)
  | (.ok lock, w1) => ((some lock, none), w1)

/-- The loop of `doAllocate` over the addresses still to try. -/
def doAllocateLoop : List String → World → (String × Option ExclusiveLock × Option Err) × World
  | [], w => (("", none, some Err.errNoFreeIPAddressFound), w)
  | ipAddress :: rest, w =>
    match tryAllocate w ipAddress with
    | ((_, some err), w1) => (("", none, some err), w1)
    | ((some lock, none), w1) => ((ipAddress, some lock, none), Bump w1 lock)
    | ((none, none), w1) => doAllocateLoop rest w1

/-- The method `doAllocate`. -/
def doAllocate (w : World) : (String × Option ExclusiveLock × Option Err) × World :=
  doAllocateLoop w.ipv4 w

/-- The method `allocateIPv4`; the deferred `configLock.Unlock()` runs on every
return after the lock was taken. -/
def allocateIPv4 (w : World) (batchSize : Int) (ipRefreshTimeout : Int) :
    (String × Option ExclusiveLock × Option Err) × World :=
  match lockConfiguration w with
  | (.error err, w1) => (("", none, some err), w1)
  | (.ok configLock, w1) =>
    match Refresh w1 with
    | (some err, w2) => (("", none, some err), Unlock w2 configLock)
    | (none, w2) =>
      match doAllocate w2 with
      | ((ip, lock, err), w3) =>
        let early : Option (String × Option ExclusiveLock × Option Err) :=
          if err = some Err.errNoFreeIPAddressFound then none
          else if err ≠ none then some (ip, lock, err)
          else if lock ≠ none then some (ip, lock, err)
          else none
        match early with
        | some out => (out, Unlock w3 configLock)
        | none =>
          match assignMoreIPs w3 batchSize ipRefreshTimeout with
          | (some err2, w4) => (("", none, some err2), Unlock w4 configLock)
          | (none, w4) =>
            let r := doAllocate w4
            (r.1, Unlock r.2 configLock)

/-- Unlock the given tokens, first to last. -/
def unlockAll (w : World) (locks : List ExclusiveLock) : World :=
  locks.foldl Unlock w

/-- The Go map `recordsDict` of `firstPass`: a later record of a name replaces an
earlier one. -/
def recordsDictOf (records : List Record) : List (String × Record) :=
  records.foldl (fun m record => (record.Name, record) :: m) []

/-- The loop of `firstPass` over the addresses after the primary, with the
deallocation list and the locks collected so far. -/
def firstPassLoop (gracePeriod : Int) (recordsDict : List (String × Record)) :
    List String → World → List String → List ExclusiveLock →
      (List String × List ExclusiveLock × Option Err) × World
  | [], w, deallocationList, locks => ((deallocationList, locks, none), w)
  | ip :: rest, w, deallocationList, locks =>
    match FSLocker.ExclusiveLock w (Path.ipAddress ip) 0 with
    | (.error err, w1) =>
      if err = Err.EWOULDBLOCK then
        firstPassLoop gracePeriod recordsDict rest w1 deallocationList locks
      else ((deallocationList, locks, some err), unlockAll w1 locks)
    | (.ok ipAddrLock, w1) =>
      match recordsDict.lookup ip with
      | none =>
        firstPassLoop gracePeriod recordsDict rest (Unlock w1 ipAddrLock) deallocationList locks
      | some record =>
        let r := timeSince w1 record.BumpTime
        if r.1 < gracePeriod then
          let logged := timeSince r.2 record.BumpTime
          firstPassLoop gracePeriod recordsDict rest (Unlock logged.2 ipAddrLock)
            deallocationList locks
        else
          firstPassLoop gracePeriod recordsDict rest (Bump r.2 ipAddrLock)
            (deallocationList ++ [ip]) (locks ++ [ipAddrLock])

/-- The method `firstPass`.  The slice `GetIPv4Addresses()[1:]` panics on an empty
list. -/
def firstPass (w : World) (gracePeriod : Int) :
    Go (List String × List ExclusiveLock × Option Err) × World :=
  match FSLocker.ListFiles w with
  | (.error err, w1) => (Go.ret ([], [], some err), w1)
  | (.ok records, w1) =>
    let recordsDict := recordsDictOf records
    match w1.ipv4 with
    | [] => (Go.panicked "slice bounds out of range [1:0]", w1)
    | _ :: secondaries =>
      let r := firstPassLoop gracePeriod recordsDict secondaries w1 [] []
      (Go.ret r.1, r.2)

/-- The loop `for i := 0; i < 180; i++` of `ipsFreed`, with the rounds left and the
current `successCount`. -/
def ipsFreedLoop (oldIPList : List String) : Nat → Nat → World → Bool × World
  | 0, _, w => (false, w)
  | rounds + 1, successCount, w =>
    match Refresh w with
    | (some _, w1) =>
      ipsFreedLoop oldIPList rounds successCount (timeSleep w1 w1.ipRefreshSleepInterval)
    | (none, w1) =>
      let allocMap := w1.ipv4
      let missingIPs := (oldIPList.filter (fun oldIP => oldIP ∉ allocMap)).length
      if missingIPs > 0 then
        if successCount + 1 > 3 then (true, w1)
        else
          ipsFreedLoop oldIPList rounds (successCount + 1)
            (timeSleep w1 w1.ipRefreshSleepInterval)
      else ipsFreedLoop oldIPList rounds 0 (timeSleep w1 w1.ipRefreshSleepInterval)

/-- The method `ipsFreed`; the deallocation list is only logged. -/
def ipsFreed (w : World) (oldIPList _deallocationList : List String) : Bool × World :=
  ipsFreedLoop oldIPList 180 0 w

/-- The method `freeIPs`. -/
def freeIPs (w : World) (deallocationList : List String) : Option Err × World :=
  let oldIPList := w.ipv4
  if deallocationList.length = 0 then (none, w)
  else
    match FreeIPv4Addresses w deallocationList with
    | (some err, w1) => (some err, w1)
    | (none, w1) =>
      let r := ipsFreed w1 oldIPList deallocationList
      (none, r.2)

/-- The loop of `doFileCleanup` over the listed records, with the unlocks deferred
so far (last deferred first). -/
def doFileCleanupLoop (recordsNotToDelete : List String) :
    List Record → World → List ExclusiveLock → World × List ExclusiveLock
  | [], w, deferred => (w, deferred)
  | record :: rest, w, deferred =>
    if record.Name ∈ recordsNotToDelete then
      doFileCleanupLoop recordsNotToDelete rest w deferred
    else
      let r := timeSince w record.BumpTime
      if r.1 < 5 * minute then
        let logged := timeSince r.2 record.BumpTime
        doFileCleanupLoop recordsNotToDelete rest logged.2 deferred
      else
        match FSLocker.ExclusiveLock r.2 (Path.ipAddress record.Name) 0 with
        | (.error _, w1) => doFileCleanupLoop recordsNotToDelete rest w1 deferred
        | (.ok lock, w1) =>
          let removed := FSLocker.RemovePath w1 (Path.ipAddress record.Name)
          doFileCleanupLoop recordsNotToDelete rest removed.2 (lock :: deferred)

/-- The Go set `recordsNotToDelete` of `doFileCleanup`. -/
def recordsNotToDeleteOf (deallocationList ipv4 : List String) : List String :=
  ipv4.foldl (fun m ip => ip :: m) (deallocationList.foldl (fun m ip => ip :: m) [])

/-- The method `doFileCleanup`; the deferred unlocks run when it returns. -/
def doFileCleanup (w : World) (deallocationList : List String) : Option Err × World :=
  let recordsNotToDelete := recordsNotToDeleteOf deallocationList w.ipv4
  match FSLocker.ListFiles w with
  | (.error err, w1) => (some err, w1)
  | (.ok records, w1) =>
    let r := doFileCleanupLoop recordsNotToDelete records w1 []
    (none, unlockAll r.1 r.2)

/-- The method `DoGc`.  Deferred calls run last-deferred first on every way out: the
unlocks of the first-pass locks in reverse, then the unlock of the config lock. -/
def DoGc (w : World) (gracePeriod : Int) : Go (Option Err) × World :=
  match lockConfiguration w with
  | (.error err, w1) => (Go.ret (some err), w1)
  | (.ok lock, w1) =>
    match firstPass w1 gracePeriod with
    | (Go.panicked msg, w2) => (Go.panicked msg, Unlock w2 lock)
    | (Go.ret (_, _, some err), w2) => (Go.ret (some err), Unlock w2 lock)
    | (Go.ret (deallocationList, locks, none), w2) =>
      let w3 := Unlock w2 lock
      match freeIPs w3 deallocationList with
      | (some err, w4) => (Go.ret (some err), Unlock (unlockAll w4 locks.reverse) lock)
      | (none, w4) =>
        let r := doFileCleanup w4 deallocationList
        (Go.ret r.1, Unlock (unlockAll r.2 locks.reverse) lock)

/-! ## Worlds used as concrete inputs -/

/-- A quiet host: nothing is held, nothing fails, the clock stands at 1000 s and the
metadata source keeps answering with the given list. -/
def quietWorld (ips : List String) (cap : Int) (files : List Record) : World :=
  { ipv4 := ips, metadata := fun _ => Except.ok ips, refreshes := 0, maxIPv4 := cap,
    ipRefreshSleepInterval := 5 * second, files := files, held := [],
    lockEnv := fun _ _ => LockAnswer.free, lockAttempts := 0,
    listEnv := fun _ => none, lists := 0, removeEnv := fun _ => none,
    cloudEnv := fun _ => none, cloudCalls := 0,
    now := 1000 * second, elapse := fun _ => 0, reads := 0, trace := [] }

/-- The host of scenario S2: a primary and four secondaries on an instance type with
room for five addresses, every lease lock held by a container. -/
def cappedWorld : World :=
  { quietWorld ["10.0.0.1", "10.0.0.2", "10.0.0.3", "10.0.0.4", "10.0.0.5"] 5 [] with
    lockEnv := fun _ p => if p = Path.ipConfig then LockAnswer.free else LockAnswer.busy }

/-- The host of scenario S1: a primary whose lease lock the host itself holds and
two secondaries nobody has leased. -/
def leasingWorld : World :=
  { quietWorld ["10.0.0.1", "10.0.0.2", "10.0.0.3"] 3 [] with
    lockEnv := fun _ p =>
      if p = Path.ipAddress "10.0.0.1" then LockAnswer.busy else LockAnswer.free }

/-- A host on which no lease lock is taken, not even the primary's. -/
def idleWorld : World := quietWorld ["10.0.0.1", "10.0.0.2"] 2 []

/-- A host with only its primary address on an instance type with room for five. -/
def roomyWorld : World := quietWorld ["10.0.0.1"] 5 []

/-! ## The convergence rule of the spec -/

/-- What the attempt that reads entry `k` of the metadata source observes: nothing
when the refresh fails, otherwise whether at least one address of `oldIPList` is
absent from the refreshed list (a positive observation). -/
def observation (metadata : Nat → Except Nat (List String)) (oldIPList : List String)
    (k : Nat) : Option Bool :=
  match metadata k with
  | .error _ => none
  | .ok ips => some (decide (∃ ip ∈ oldIPList, ip ∉ ips))

/-- The observations of `n` refresh attempts that start at entry `start` of the
metadata source, in order. -/
def observations (metadata : Nat → Except Nat (List String)) (oldIPList : List String)
    (start n : Nat) : List Bool :=
  (List.range n).filterMap (fun k => observation metadata oldIPList (start + k))

/-- Four positive observations. -/
def fourPositives : List Bool := [true, true, true, true]

/-- The counter of `ipsFreed` run over a list of observations: whether it gets
past 3. -/
def countsPastThree : Nat → List Bool → Bool
  | _, [] => false
  | c, true :: rest => if c + 1 > 3 then true else countsPastThree (c + 1) rest
  | _, false :: rest => countsPastThree 0 rest

/-- The host of scenario S3 at garbage-collection time: the lease of `10.0.0.2` was
last bumped 1000 s ago and that of `10.0.0.3` 100 s ago, a stale record of
`10.0.0.9` is left from an address no longer on the interface, and the metadata
source shows `10.0.0.2` gone from the first refresh on. -/
def gcWorld : World :=
  { quietWorld ["10.0.0.1", "10.0.0.2", "10.0.0.3"] 3
      [⟨"10.0.0.2", 0⟩, ⟨"10.0.0.3", 900 * second⟩, ⟨"10.0.0.9", 0⟩] with
    metadata := fun _ => Except.ok ["10.0.0.1", "10.0.0.3"] }

/-- The host of scenario S3 with the cloud rejecting every request with error 7. -/
def cloudDownWorld : World := { gcWorld with cloudEnv := fun _ => some 7 }

/-! ## The two worlds a lock attempt can leave -/

/-- The world after a lock attempt on `p` that was not granted. -/
def attempted (w : World) (p : Path) : World :=
  { w with lockAttempts := w.lockAttempts + 1,
           trace := w.trace ++ [Event.lockAttempt p] }

/-- The world after a lock attempt on `p` that was granted. -/
def granted (w : World) (p : Path) : World :=
  { w with lockAttempts := w.lockAttempts + 1,
           trace := w.trace ++ [Event.lockAttempt p],
           held := p :: w.held,
           files := touchFile w.files p w.now }

/-- The world after a `ListFiles` call. -/
def listed (w : World) : World := { w with lists := w.lists + 1 }

/-- The host of scenario S3 with an I/O error on the lease file of `10.0.0.3`. -/
def gcFaultWorld : World :=
  { gcWorld with
    lockEnv := fun _ p =>
      if p = Path.ipAddress "10.0.0.3" then LockAnswer.fault 5 else LockAnswer.free }

/-- The lease file of `ip` exists under `ip-addresses/`. -/
def hasFile (files : List Record) (ip : String) : Prop := ∃ r ∈ files, r.Name = ip

/-- The address lists of the cloud free requests in a log, oldest first. -/
def freeRequests (trace : List Event) : List (List String) :=
  trace.filterMap (fun e =>
    match e with
    | Event.freeRequest ips => some ips
    | _ => none)

/-! ## The allocation algorithm of the spec -/

/-- The expansion step of `allocateIPv4` (its lines after the first `doAllocate`):
`assignMoreIPs`, then `doAllocate` once more, the config lock being released on the
way out. -/
def expandAndRetry (w : World) (configLock : ExclusiveLock) (batchSize : Int)
    (ipRefreshTimeout : Int) : (String × Option ExclusiveLock × Option Err) × World :=
  match assignMoreIPs w batchSize ipRefreshTimeout with
  | (some err, w1) => (("", none, some err), Unlock w1 configLock)
  | (none, w1) =>
    let r := doAllocate w1
    (r.1, Unlock r.2 configLock)

/-- The IPv4 allocation algorithm as the spec words it: take the config lock, refresh
(abort on error), run `doAllocate`; expand the pool and run `doAllocate` once more
exactly when the first run returned `NoFreeAddress`; return any other outcome of the
first run as it is. -/
def allocateIPv4Spec (w : World) (batchSize : Int) (ipRefreshTimeout : Int) :
    (String × Option ExclusiveLock × Option Err) × World :=
  match lockConfiguration w with
  | (.error err, w1) => (("", none, some err), w1)
  | (.ok configLock, w1) =>
    match Refresh w1 with
    | (some err, w2) => (("", none, some err), Unlock w2 configLock)
    | (none, w2) =>
      let first := doAllocate w2
      if first.1.2.2 = some Err.errNoFreeIPAddressFound then
        expandAndRetry first.2 configLock batchSize ipRefreshTimeout
      else (first.1, Unlock first.2 configLock)

/-- The counts of the cloud assign requests in a log, oldest first. -/
def assignRequests (trace : List Event) : List Int :=
  trace.filterMap (fun e =>
    match e with
    | Event.assignRequest count => some count
    | _ => none)

/-- The length of the IPv4 list the next `Refresh` of `w` installs, 0 when it
fails. -/
def refreshedLength (w : World) : Nat :=
  match w.metadata w.refreshes with
  | .ok ips => ips.length
  | .error _ => 0

/-- The third call of scenario S1: both addresses of the interface are leased, the
instance type has room for five, and from the second refresh on the metadata source
shows a new address `10.0.0.4`. -/
def expandingWorld : World :=
  { quietWorld ["10.0.0.1", "10.0.0.2"] 5 [] with
    metadata := fun n =>
      if n = 0 then Except.ok ["10.0.0.1", "10.0.0.2"]
      else Except.ok ["10.0.0.1", "10.0.0.2", "10.0.0.4"],
    lockEnv := fun _ p =>
      if p = Path.ipAddress "10.0.0.1" ∨ p = Path.ipAddress "10.0.0.2" then LockAnswer.busy
      else LockAnswer.free }

/-- A host whose interface view lists no IPv4 address at all. -/
def emptyWorld : World := quietWorld [] 3 []

/-- A host whose interface view lists no IPv4 address and whose lease directory
cannot be listed (error 3). -/
def emptyUnlistableWorld : World := { quietWorld [] 3 [] with listEnv := fun _ => some 3 }

/-! ## The cloud session cache (`vpc/service/ec2wrapper/ec2.go`) -/

/-- The struct `arn.ARN`. -/
structure ARN where
  Partition : String
  Service : String
  Region : String
  AccountID : String
  Resource : String
  deriving DecidableEq, Repr

/-- Modelled from the spec: `arn.ARN.String` is not among the sources.  It writes the
ARN as `arn:partition:service:region:account:resource`. -/
def ARN.String (a : ARN) : String :=
  "arn:" ++ a.Partition ++ ":" ++ a.Service ++ ":" ++ a.Region ++ ":" ++ a.AccountID
    ++ ":" ++ a.Resource

/-- The struct `Key`. -/
structure Key where
  AccountID : String
  Region : String
  deriving DecidableEq, Repr

/-- The fields of `sts.GetCallerIdentityOutput` the session manager reads; both are
string pointers. -/
structure CallerIdentity where
  Account : Option String
  Arn : Option String
  deriving DecidableEq, Repr

/-- The function `aws.StringValue`: the string a pointer points to, empty for nil. -/
def StringValue (s : Option String) : String :=
  match s with
  | some v => v
  | none => ""

/-- The segments of a character list between occurrences of the separator. -/
def splitChars (sep : Char) : List Char → List (List Char)
  | [] => [[]]
  | c :: cs =>
    if c = sep then [] :: splitChars sep cs
    else
      match splitChars sep cs with
      | [] => [[c]]
      | segment :: rest => (c :: segment) :: rest

/-- The library's `strings.Split(s, sep)` for a separator of one character: the
substrings of `s` between the separators, `[s]` when there is none. -/
def Split (s : String) (sep : Char) : List String :=
  (splitChars sep s.data).map String.mk

/-- What a call leaves in an `EC2Session`: the region of its config and, when its
credentials come from `stscreds.NewCredentials`, the role ARN they assume. -/
structure EC2Session where
  region : Option String
  roleARN : Option String
  deriving DecidableEq, Repr

/-- The `EC2SessionManager` with the services it talks to: the cached caller identity,
the session map, the answer of STS for the base session, the function `arn.Parse`
(not among the sources, so a parameter), the errors of `session.NewSession` by call
number and of the identity check made with assumed credentials by role ARN, and the
log of the ARNs built for `stscreds.NewCredentials`. -/
structure EC2SessionManager where
  callerIdentity : Option CallerIdentity
  sessions : List (Key × EC2Session)
  stsEnv : Except Nat CallerIdentity
  arnParse : String → Except Nat ARN
  newSessionEnv : Nat → Option Nat
  newSessions : Nat
  assumedEnv : String → Option Nat
  builtARNs : List ARN

/-- The method `getCallerIdentity`: the cached identity, or one STS call whose answer
is cached. -/
def getCallerIdentity (m : EC2SessionManager) :
    Except Err CallerIdentity × EC2SessionManager :=
  match m.callerIdentity with
  | some ret => (.ok ret, m)
  | none =>
    match m.stsEnv with
    | .error code => (.error (Err.ext code), m)
    | .ok output => (.ok output, { m with callerIdentity := some output })

/-- The call `session.NewSession`. -/
def NewSession (m : EC2SessionManager) : Option Err × EC2SessionManager :=
  let m1 := { m with newSessions := m.newSessions + 1 }
  match m.newSessionEnv m.newSessions with
  | some code => (some (Err.ext code), m1)
  | none => (none, m1)

/-- The method `GetSessionFromAccountAndRegion`, run on its own.  The index `[1]`
into the segments of the caller's resource panics when there is no second segment. -/
def GetSessionFromAccountAndRegion (m : EC2SessionManager) (sessionKey : Key) :
    Go (Except Err EC2Session) × EC2SessionManager :=
  match m.sessions.lookup sessionKey with
  | some instanceSession => (Go.ret (.ok instanceSession), m)
  | none =>
    match getCallerIdentity m with
    | (.error err, m1) => (Go.ret (.error err), m1)
    | (.ok myIdentity, m1) =>
      let region := if sessionKey.Region ≠ "" then some sessionKey.Region else none
      match NewSession m1 with
      | (some err, m2) => (Go.ret (.error err), m2)
      | (none, m2) =>
        if StringValue myIdentity.Account ≠ sessionKey.AccountID then
          match m2.arnParse (StringValue myIdentity.Arn) with
          | .error code => (Go.ret (.error (Err.ext code)), m2)
          | .ok currentARN =>
            match (Split currentARN.Resource '/')[1]? with
            | none => (Go.panicked "index out of range [1]", m2)
            | some segment =>
              let newArn : ARN :=
                { Partition := "aws", Service := "iam", Region := "",
                  AccountID := sessionKey.AccountID, Resource := "role/" ++ segment }
              let m3 := { m2 with builtARNs := m2.builtARNs ++ [newArn] }
              match NewSession m3 with
              | (some err, m4) => (Go.ret (.error err), m4)
              | (none, m4) =>
                match m4.assumedEnv newArn.String with
                | some code => (Go.ret (.error (Err.ext code)), m4)
                | none =>
                  let instanceSession : EC2Session :=
                    { region := region, roleARN := some newArn.String }
                  (Go.ret (.ok instanceSession),
                    { m4 with sessions := (sessionKey, instanceSession) :: m4.sessions })
        else
          let instanceSession : EC2Session := { region := region, roleARN := none }
          (Go.ret (.ok instanceSession),
            { m2 with sessions := (sessionKey, instanceSession) :: m2.sessions })

/-- A session manager on a host that runs under the role `titus-role` of account
`111111111111`; `arn.Parse` is given on the one ARN it is asked about. -/
def roleManager : EC2SessionManager :=
  { callerIdentity := none, sessions := [],
    stsEnv := Except.ok ⟨some "111111111111",
      some "arn:aws:sts::111111111111:assumed-role/titus-role/i-0abc"⟩,
    arnParse := fun s =>
      if s = "arn:aws:sts::111111111111:assumed-role/titus-role/i-0abc" then
        Except.ok ⟨"aws", "sts", "", "111111111111", "assumed-role/titus-role/i-0abc"⟩
      else Except.error 1,
    newSessionEnv := fun _ => none, newSessions := 0, assumedEnv := fun _ => none,
    builtARNs := [] }

/-- A session manager on a host that runs with the root credentials of account
`111111111111`: the resource of its ARN has no `/`. -/
def rootManager : EC2SessionManager :=
  { roleManager with
    stsEnv := Except.ok ⟨some "111111111111", some "arn:aws:iam::111111111111:root"⟩,
    arnParse := fun s =>
      if s = "arn:aws:iam::111111111111:root" then
        Except.ok ⟨"aws", "iam", "", "111111111111", "root"⟩
      else Except.error 1 }

/-- A session manager whose caller identity carries a string `arn.Parse` rejects. -/
def unparsedManager : EC2SessionManager :=
  { roleManager with
    stsEnv := Except.ok ⟨some "111111111111", some "not-an-arn"⟩,
    arnParse := fun _ => Except.error 1 }

/-! ## The records `doFileCleanup` examines -/

/-- The world in which the loop of `doFileCleanup` comes to the record at position `i`
of the listed records: the one it has reached after the records before it. -/
def examinedAt (recordsNotToDelete : List String) (records : List Record) (w : World)
    (i : Nat) : World :=
  (doFileCleanupLoop recordsNotToDelete (records.take i) w []).1

/-- The age `time.Since(record.BumpTime)` that `doFileCleanup`, called in `w`, measures
when it comes to the record at position `i` of its listing. -/
def measuredAge (w : World) (deallocationList : List String) (i : Nat) (record : Record) :
    Int :=
  (timeSince (examinedAt (recordsNotToDeleteOf deallocationList w.ipv4) w.files (listed w) i)
    record.BumpTime).1

/-- The answer of the registry to the non-blocking lock attempt that `doFileCleanup`,
called in `w`, makes for the record at position `i` of its listing once it has
measured the age of that record. -/
def cleanupLockAnswer (w : World) (deallocationList : List String) (i : Nat)
    (record : Record) : LockAnswer :=
  lockAnswer
    (timeSince (examinedAt (recordsNotToDeleteOf deallocationList w.ipv4) w.files (listed w) i)
      record.BumpTime).2
    0 (Path.ipAddress record.Name)

/-- A host at file-cleanup time, its clock at 1000 s: only the primary is on the
interface; the lease record of `10.0.0.7` was bumped 100 s ago, those of `10.0.0.8`
and `10.0.0.9` 1000 s ago, and a container still holds the lock of `10.0.0.8`. -/
def staleWorld : World :=
  { quietWorld ["10.0.0.1"] 3
      [⟨"10.0.0.7", 900 * second⟩, ⟨"10.0.0.8", 0⟩, ⟨"10.0.0.9", 0⟩] with
    lockEnv := fun _ p =>
      if p = Path.ipAddress "10.0.0.8" then LockAnswer.busy else LockAnswer.free }

/-! ## Theorems -/

/-! ### The lock registry, case by case -/

theorem lockAnswer_step (w : World) (p q : Path) (k : Nat) :
    lockAnswer { w with lockAttempts := w.lockAttempts + 1,
                        trace := w.trace ++ [Event.lockAttempt q] } k p
      = lockAnswer w (k + 1) p := by
  simp [lockAnswer, Nat.add_comm, Nat.add_left_comm]

theorem ExclusiveLock_busy (w : World) (p : Path)
    (h : lockAnswer w 0 p = LockAnswer.busy) :
    FSLocker.ExclusiveLock w p 0 = (Except.error Err.EWOULDBLOCK,
      { w with lockAttempts := w.lockAttempts + 1,
               trace := w.trace ++ [Event.lockAttempt p] }) := by
  simp [FSLocker.ExclusiveLock, h]

theorem ExclusiveLock_fault (w : World) (p : Path) (t : Int) (code : Nat)
    (h : lockAnswer w 0 p = LockAnswer.fault code) :
    FSLocker.ExclusiveLock w p t = (Except.error (Err.ext code),
      { w with lockAttempts := w.lockAttempts + 1,
               trace := w.trace ++ [Event.lockAttempt p] }) := by
  simp [FSLocker.ExclusiveLock, h]

theorem ExclusiveLock_free (w : World) (p : Path) (t : Int)
    (h : lockAnswer w 0 p = LockAnswer.free) :
    FSLocker.ExclusiveLock w p t = (Except.ok ⟨p⟩,
      { w with lockAttempts := w.lockAttempts + 1,
               trace := w.trace ++ [Event.lockAttempt p],
               held := p :: w.held,
               files := touchFile w.files p w.now }) := by
  simp [FSLocker.ExclusiveLock, h]

/-! ### `doAllocate` -/

/-- When every attempt is contended the loop of `doAllocate` ends with
`errNoFreeIPAddressFound`, having only counted and logged its attempts. -/
theorem doAllocateLoop_all_busy (l : List String) (w : World)
    (h : ∀ j ip, l[j]? = some ip → lockAnswer w j (Path.ipAddress ip) = LockAnswer.busy) :
    doAllocateLoop l w = (("", none, some Err.errNoFreeIPAddressFound),
      { w with lockAttempts := w.lockAttempts + l.length,
               trace := w.trace ++ l.map (fun ip => Event.lockAttempt (Path.ipAddress ip)) }) := by
  induction l generalizing w with
  | nil => simp [doAllocateLoop]
  | cons ip rest ih =>
    have h0 := h 0 ip (by simp)
    rw [doAllocateLoop, tryAllocate, ExclusiveLock_busy w _ h0]
    simp only [ne_eq, not_true_eq_false, if_false]
    rw [ih]
    · simp [Nat.add_assoc, Nat.add_comm 1]
    · intro j ipj hj
      rw [lockAnswer_step]
      exact h (j + 1) ipj (by simpa using hj)

/-! ### Claim C1 -/

/-- C1 (amended): when the config lock is granted, `Refresh` succeeds, the refreshed
IPv4 count is at or above the instance type's maximum and every address's lease lock
is contended, `allocateIPv4` fails with `errMaxIPAddressesAllocated`: the error of
`assignMoreIPs` is returned as it is. -/
theorem allocateIPv4_at_cap (w : World) (batchSize ipRefreshTimeout : Int) (ips : List String)
    (hcfg : lockAnswer w 0 Path.ipConfig = LockAnswer.free)
    (href : w.metadata w.refreshes = Except.ok ips)
    (hcap : (ips.length : Int) ≥ w.maxIPv4)
    (hbusy : ∀ ip ∈ ips, ∀ k, lockAnswer w k (Path.ipAddress ip) = LockAnswer.busy) :
    (allocateIPv4 w batchSize ipRefreshTimeout).1
      = ("", none, some Err.errMaxIPAddressesAllocated) := by
  rw [allocateIPv4, lockConfiguration, ExclusiveLock_free w _ _ hcfg]
  simp only [Refresh, href, doAllocate]
  rw [doAllocateLoop_all_busy]
  · simp [assignMoreIPs, hcap]
  · intro j ip hj
    have hmem : ip ∈ ips := List.getElem?_mem hj
    have hb := hbusy ip hmem (j + 1)
    simp only [lockAnswer] at hb ⊢
    by_cases hh : Path.ipAddress ip ∈ w.held
    · simp [hh]
    · simp only [hh, if_false] at hb
      simp [hh, Nat.add_assoc, Nat.add_comm 1, hb]

/-- The amended C1 at the host of scenario S2. -/
theorem allocateIPv4_at_cap_witness :
    (allocateIPv4 cappedWorld 1 (5 * second)).1
      = ("", none, some Err.errMaxIPAddressesAllocated) :=
  allocateIPv4_at_cap cappedWorld 1 (5 * second)
    ["10.0.0.1", "10.0.0.2", "10.0.0.3", "10.0.0.4", "10.0.0.5"]
    (by decide) (by rfl) (by decide) (by
      intro ip _ k
      simp [lockAnswer, cappedWorld, quietWorld])

/-- C1 as stated fails at the host of scenario S2: the address count is at the
maximum and every lease lock is contended, yet the error of `allocateIPv4` is
`errMaxIPAddressesAllocated` and not `errNoFreeIPAddressFound`. -/
theorem allocateIPv4_at_cap_not_NoFreeAddress :
    ((cappedWorld.ipv4.length : Int) ≥ cappedWorld.maxIPv4
      ∧ ∀ ip ∈ cappedWorld.ipv4, ∀ k,
          lockAnswer cappedWorld k (Path.ipAddress ip) = LockAnswer.busy)
    ∧ (allocateIPv4 cappedWorld 1 (5 * second)).1.2.2 ≠ some Err.errNoFreeIPAddressFound
    ∧ (allocateIPv4 cappedWorld 1 (5 * second)).1.2.2
        = some Err.errMaxIPAddressesAllocated := by
  refine ⟨⟨by decide, ?_⟩, by decide, by decide⟩
  intro ip _ k
  simp [lockAnswer, cappedWorld, quietWorld]

@[simp] theorem Bump_held (w : World) (l : ExclusiveLock) : (Bump w l).held = w.held := by
  unfold Bump; split <;> rfl

@[simp] theorem Bump_ipv4 (w : World) (l : ExclusiveLock) : (Bump w l).ipv4 = w.ipv4 := by
  unfold Bump; split <;> rfl

@[simp] theorem Bump_lockEnv (w : World) (l : ExclusiveLock) :
    (Bump w l).lockEnv = w.lockEnv := by
  unfold Bump; split <;> rfl

@[simp] theorem Bump_trace (w : World) (l : ExclusiveLock) : (Bump w l).trace = w.trace := by
  unfold Bump; split <;> rfl

theorem doAllocateLoop_first_free (l : List String) (w : World) (i : Nat) (ip : String)
    (hi : l[i]? = some ip)
    (hbefore : ∀ j ipj, j < i → l[j]? = some ipj →
      lockAnswer w j (Path.ipAddress ipj) = LockAnswer.busy)
    (hfree : lockAnswer w i (Path.ipAddress ip) = LockAnswer.free) :
    (doAllocateLoop l w).1 = (ip, some ⟨Path.ipAddress ip⟩, none) := by
  induction l generalizing w i with
  | nil => simp at hi
  | cons a rest ih =>
    cases i with
    | zero =>
      simp only [List.getElem?_cons_zero, Option.some.injEq] at hi
      subst hi
      rw [doAllocateLoop, tryAllocate, ExclusiveLock_free w _ _ hfree]
    | succ i =>
      have h0 := hbefore 0 a (Nat.succ_pos i) (by simp)
      rw [doAllocateLoop, tryAllocate, ExclusiveLock_busy w _ h0]
      simp only [ne_eq, not_true_eq_false, if_false]
      refine ih _ i (by simpa using hi) ?_ ?_
      · intro j ipj hj hget
        rw [lockAnswer_step]
        exact hbefore (j + 1) ipj (Nat.succ_lt_succ hj) (by simpa using hget)
      · rw [lockAnswer_step]; exact hfree

theorem doAllocateLoop_first_fault (l : List String) (w : World) (i : Nat) (ip : String)
    (code : Nat) (hi : l[i]? = some ip)
    (hbefore : ∀ j ipj, j < i → l[j]? = some ipj →
      lockAnswer w j (Path.ipAddress ipj) = LockAnswer.busy)
    (hfault : lockAnswer w i (Path.ipAddress ip) = LockAnswer.fault code) :
    (doAllocateLoop l w).1 = ("", none, some (Err.ext code))
      ∧ (doAllocateLoop l w).2.held = w.held := by
  induction l generalizing w i with
  | nil => simp at hi
  | cons a rest ih =>
    cases i with
    | zero =>
      simp only [List.getElem?_cons_zero, Option.some.injEq] at hi
      subst hi
      rw [doAllocateLoop, tryAllocate, ExclusiveLock_fault w _ _ _ hfault]
      simp
    | succ i =>
      have h0 := hbefore 0 a (Nat.succ_pos i) (by simp)
      rw [doAllocateLoop, tryAllocate, ExclusiveLock_busy w _ h0]
      simp only [ne_eq, not_true_eq_false, if_false]
      refine ih _ i (by simpa using hi) ?_ ?_
      · intro j ipj hj hget
        rw [lockAnswer_step]
        exact hbefore (j + 1) ipj (Nat.succ_lt_succ hj) (by simpa using hget)
      · rw [lockAnswer_step]; exact hfault

theorem doAllocateLoop_success (l : List String) (w : World) (ip : String)
    (lock : ExclusiveLock) (h : (doAllocateLoop l w).1 = (ip, some lock, none)) :
    ∃ i, l[i]? = some ip ∧ lock = ⟨Path.ipAddress ip⟩
      ∧ lockAnswer w i (Path.ipAddress ip) = LockAnswer.free
      ∧ ∀ j ipj, j < i → l[j]? = some ipj →
          lockAnswer w j (Path.ipAddress ipj) = LockAnswer.busy := by
  induction l generalizing w with
  | nil => simp [doAllocateLoop] at h
  | cons a rest ih =>
    rcases hans : lockAnswer w 0 (Path.ipAddress a) with _ | _ | code
    · rw [doAllocateLoop, tryAllocate, ExclusiveLock_free w _ _ hans] at h
      simp only [Prod.mk.injEq, Option.some.injEq, and_true] at h
      obtain ⟨rfl, rfl⟩ := h
      exact ⟨0, by simp, rfl, hans, by intro j _ hj; omega⟩
    · rw [doAllocateLoop, tryAllocate, ExclusiveLock_busy w _ hans] at h
      simp only [ne_eq, not_true_eq_false, if_false] at h
      obtain ⟨i, hi, hl, hf, hb⟩ := ih _ h
      rw [lockAnswer_step] at hf
      refine ⟨i + 1, by simpa using hi, hl, hf, ?_⟩
      intro j ipj hj hget
      cases j with
      | zero =>
        simp only [List.getElem?_cons_zero, Option.some.injEq] at hget
        subst hget; exact hans
      | succ j =>
        have := hb j ipj (by omega) (by simpa using hget)
        rwa [lockAnswer_step] at this
    · rw [doAllocateLoop, tryAllocate, ExclusiveLock_fault w _ _ _ hans] at h
      simp at h

/-! ### Claim C6 -/

/-- C6: `doAllocate` is first-fit in interface order.  A success returns the address
at an index whose lock attempt was granted, every earlier attempt having been
contended, and that index wins whenever it exists; a lock attempt failing with
another error before any success makes `doAllocate` return that error with no lock,
nothing being held in addition; when every attempt is contended the result is
`errNoFreeIPAddressFound`. -/
theorem doAllocate_first_fit (w : World) :
    (∀ ip lock, (doAllocate w).1 = (ip, some lock, none) →
      ∃ i, w.ipv4[i]? = some ip ∧ lock = ⟨Path.ipAddress ip⟩
        ∧ lockAnswer w i (Path.ipAddress ip) = LockAnswer.free
        ∧ ∀ j ipj, j < i → w.ipv4[j]? = some ipj →
            lockAnswer w j (Path.ipAddress ipj) = LockAnswer.busy)
    ∧ (∀ i ip, w.ipv4[i]? = some ip →
        (∀ j ipj, j < i → w.ipv4[j]? = some ipj →
          lockAnswer w j (Path.ipAddress ipj) = LockAnswer.busy) →
        lockAnswer w i (Path.ipAddress ip) = LockAnswer.free →
        (doAllocate w).1 = (ip, some ⟨Path.ipAddress ip⟩, none))
    ∧ (∀ i ip code, w.ipv4[i]? = some ip →
        (∀ j ipj, j < i → w.ipv4[j]? = some ipj →
          lockAnswer w j (Path.ipAddress ipj) = LockAnswer.busy) →
        lockAnswer w i (Path.ipAddress ip) = LockAnswer.fault code →
        (doAllocate w).1 = ("", none, some (Err.ext code))
          ∧ (doAllocate w).2.held = w.held)
    ∧ ((∀ j ipj, w.ipv4[j]? = some ipj →
          lockAnswer w j (Path.ipAddress ipj) = LockAnswer.busy) →
        (doAllocate w).1 = ("", none, some Err.errNoFreeIPAddressFound)) := by
  refine ⟨?_, ?_, ?_, ?_⟩
  · intro ip lock h
    exact doAllocateLoop_success w.ipv4 w ip lock h
  · intro i ip hi hb hf
    exact doAllocateLoop_first_free w.ipv4 w i ip hi hb hf
  · intro i ip code hi hb hf
    exact doAllocateLoop_first_fault w.ipv4 w i ip code hi hb hf
  · intro h
    rw [doAllocate, doAllocateLoop_all_busy w.ipv4 w h]

/-- C6 at the host of scenario S1: the primary is contended, so the first
secondary is handed out. -/
theorem doAllocate_first_fit_witness :
    (doAllocate leasingWorld).1
      = ("10.0.0.2", some ⟨Path.ipAddress "10.0.0.2"⟩, none) :=
  (doAllocate_first_fit leasingWorld).2.1 1 "10.0.0.2" (by rfl)
    (by
      intro j ipj hj hget
      have hj0 : j = 0 := by omega
      subst hj0
      simp only [leasingWorld, quietWorld, List.getElem?_cons_zero, Option.some.injEq] at hget
      subst hget
      decide)
    (by decide)

/-! ### What the operations leave alone -/

@[simp] theorem Unlock_lockEnv (w : World) (l : ExclusiveLock) :
    (Unlock w l).lockEnv = w.lockEnv := rfl

@[simp] theorem Unlock_ipv4 (w : World) (l : ExclusiveLock) :
    (Unlock w l).ipv4 = w.ipv4 := rfl

@[simp] theorem timeSleep_lockEnv (w : World) (d : Int) :
    (timeSleep w d).lockEnv = w.lockEnv := rfl

theorem ExclusiveLock_lockEnv (w : World) (p : Path) (t : Int) :
    (FSLocker.ExclusiveLock w p t).2.lockEnv = w.lockEnv := by
  rcases h : lockAnswer w 0 p with _ | _ | c <;> simp only [FSLocker.ExclusiveLock, h]
  split <;> rfl

theorem ExclusiveLock_ipv4 (w : World) (p : Path) (t : Int) :
    (FSLocker.ExclusiveLock w p t).2.ipv4 = w.ipv4 := by
  rcases h : lockAnswer w 0 p with _ | _ | c <;> simp only [FSLocker.ExclusiveLock, h]
  split <;> rfl

theorem Refresh_lockEnv (w : World) : (Refresh w).2.lockEnv = w.lockEnv := by
  unfold Refresh; split <;> rfl

theorem tryAllocate_lockEnv (w : World) (ip : String) :
    (tryAllocate w ip).2.lockEnv = w.lockEnv := by
  have h := ExclusiveLock_lockEnv w (Path.ipAddress ip) 0
  unfold tryAllocate
  split
  · split <;> simp_all
  · simp_all

theorem tryAllocate_ipv4 (w : World) (ip : String) :
    (tryAllocate w ip).2.ipv4 = w.ipv4 := by
  have h := ExclusiveLock_ipv4 w (Path.ipAddress ip) 0
  unfold tryAllocate
  split
  · split <;> simp_all
  · simp_all

theorem doAllocateLoop_lockEnv (l : List String) (w : World) :
    (doAllocateLoop l w).2.lockEnv = w.lockEnv := by
  induction l generalizing w with
  | nil => rfl
  | cons a rest ih =>
    have h := tryAllocate_lockEnv w a
    unfold doAllocateLoop
    split
    · simp_all
    · simp_all
    · rw [ih]; simp_all

theorem doAllocateLoop_ipv4 (l : List String) (w : World) :
    (doAllocateLoop l w).2.ipv4 = w.ipv4 := by
  induction l generalizing w with
  | nil => rfl
  | cons a rest ih =>
    have h := tryAllocate_ipv4 w a
    unfold doAllocateLoop
    split
    · simp_all
    · simp_all
    · rw [ih]; simp_all

theorem assignPoll_lockEnv (start timeout : Int) (orig : List String) (fuel : Nat)
    (w : World) : (assignPoll start timeout orig fuel w).2.lockEnv = w.lockEnv := by
  induction fuel generalizing w with
  | zero => rfl
  | succ n ih =>
    unfold assignPoll
    simp only
    split
    · have h := Refresh_lockEnv (timeSince w start).2
      split
      · simp_all [timeSince, timeNow]
      · split
        · simp_all [timeSince, timeNow]
        · rw [ih]; simp_all [timeSince, timeNow]
    · rfl

theorem assignMoreIPs_lockEnv (w : World) (b t : Int) :
    (assignMoreIPs w b t).2.lockEnv = w.lockEnv := by
  unfold assignMoreIPs
  split
  · rfl
  · cases h : w.cloudEnv w.cloudCalls with
    | some code => simp [AssignPrivateIpAddresses, h]
    | none => simp [AssignPrivateIpAddresses, h, assignPoll_lockEnv, timeNow]

/-! ### `assignMoreIPs` -/

theorem wrapInt_of_range (x : Int) (hlo : -(2 ^ 63) ≤ x) (hhi : x ≤ maxInt) :
    wrapInt x = x := by
  unfold wrapInt
  unfold maxInt at hhi
  rw [Int.emod_eq_of_lt (by omega) (by omega)]
  omega

/-- Without `int` overflow the requested count is the batch size clamped to the room
left, and the request stays within the cap. -/
theorem clampBatch_in_range (have_ cap batchSize : Int) (h0 : 0 ≤ have_)
    (hlt : have_ < cap) (hcap : cap ≤ maxInt) (hb : -(2 ^ 63) ≤ batchSize)
    (hsum : have_ + batchSize ≤ maxInt) :
    clampBatch have_ cap batchSize = min batchSize (cap - have_)
      ∧ have_ + clampBatch have_ cap batchSize ≤ cap := by
  unfold clampBatch
  rw [wrapInt_of_range (have_ + batchSize) (by omega) hsum,
    wrapInt_of_range (cap - have_) (by omega) (by omega)]
  split
  · rw [min_eq_right (by omega)]; omega
  · rw [min_eq_left (by omega)]; omega

theorem Refresh_trace (w : World) : (Refresh w).2.trace = w.trace := by
  unfold Refresh; split <;> rfl

theorem assignPoll_trace (start timeout : Int) (orig : List String) (fuel : Nat)
    (w : World) : (assignPoll start timeout orig fuel w).2.trace = w.trace := by
  induction fuel generalizing w with
  | zero => rfl
  | succ n ih =>
    unfold assignPoll
    simp only
    split
    · have h := Refresh_trace (timeSince w start).2
      split
      · simp_all [timeSince, timeNow]
      · split
        · simp_all [timeSince, timeNow]
        · rw [ih]; simp_all [timeSince, timeNow, timeSleep]
    · rfl

theorem Refresh_cloudCalls (w : World) : (Refresh w).2.cloudCalls = w.cloudCalls := by
  unfold Refresh; split <;> rfl

theorem assignPoll_cloudCalls (start timeout : Int) (orig : List String) (fuel : Nat)
    (w : World) : (assignPoll start timeout orig fuel w).2.cloudCalls = w.cloudCalls := by
  induction fuel generalizing w with
  | zero => rfl
  | succ n ih =>
    unfold assignPoll
    simp only
    split
    · have h := Refresh_cloudCalls (timeSince w start).2
      split
      · simp_all [timeSince, timeNow]
      · split
        · simp_all [timeSince, timeNow]
        · rw [ih]; simp_all [timeSince, timeNow, timeSleep]
    · rfl

/-- At or above the cap `assignMoreIPs` returns `errMaxIPAddressesAllocated` and
leaves the world as it was: no cloud request, no refresh. -/
theorem assignMoreIPs_at_cap (w : World) (batchSize ipRefreshTimeout : Int)
    (h : (w.ipv4.length : Int) ≥ w.maxIPv4) :
    assignMoreIPs w batchSize ipRefreshTimeout
      = (some Err.errMaxIPAddressesAllocated, w) := by
  simp [assignMoreIPs, h]

/-- Below the cap `assignMoreIPs` issues exactly one cloud request, for
`clampBatch` addresses. -/
theorem assignMoreIPs_below_cap (w : World) (batchSize ipRefreshTimeout : Int)
    (h : (w.ipv4.length : Int) < w.maxIPv4) :
    (assignMoreIPs w batchSize ipRefreshTimeout).2.trace
      = w.trace ++ [Event.assignRequest (clampBatch w.ipv4.length w.maxIPv4 batchSize)]
    ∧ (assignMoreIPs w batchSize ipRefreshTimeout).2.cloudCalls = w.cloudCalls + 1 := by
  have hn : ¬ ((w.ipv4.length : Int) ≥ w.maxIPv4) := by omega
  unfold assignMoreIPs
  rw [if_neg hn]
  cases hc : w.cloudEnv w.cloudCalls with
  | some code => simp [AssignPrivateIpAddresses, hc]
  | none =>
    simp only [AssignPrivateIpAddresses, hc, assignPoll_trace, assignPoll_cloudCalls, timeNow,
      and_self]

/-! ### Claim C7 -/

/-- C7 (failing input): on a host with one address and a cap of five, a batch size of
`maxInt` makes the `int` sum of count and batch size wrap around, the clamp is
skipped, and the cloud is asked for `maxInt` addresses: not `min(batchSize, cap -
have) = 4`, and count plus request exceeds the cap. -/
theorem assignMoreIPs_overflow :
    (assignMoreIPs roomyWorld maxInt (2 * second)).2.trace
      = [Event.assignRequest maxInt]
    ∧ min maxInt (roomyWorld.maxIPv4 - (roomyWorld.ipv4.length : Int)) = 4
    ∧ (roomyWorld.ipv4.length : Int) + maxInt > roomyWorld.maxIPv4 := by
  decide

/-! ### `ipsFreed` -/

theorem fourPositives_infix_cons (b : Bool) (rest : List Bool) :
    fourPositives <:+: b :: rest ↔ fourPositives <+: b :: rest ∨ fourPositives <:+: rest :=
  List.infix_cons_iff

theorem countsPastThree_iff (c : Nat) (hc : c ≤ 3) (obs : List Bool) :
    countsPastThree c obs = true
      ↔ (List.replicate (4 - c) true <+: obs ∨ fourPositives <:+: obs) := by
  induction obs generalizing c with
  | nil =>
    have : 4 - c = (3 - c) + 1 := by omega
    simp [countsPastThree, fourPositives, this, List.replicate_succ]
  | cons b rest ih =>
    cases b with
    | false =>
      have : 4 - c = (3 - c) + 1 := by omega
      rw [countsPastThree, ih 0 (by omega), fourPositives_infix_cons]
      simp only [this, List.replicate_succ, List.prefix_cons_inj, fourPositives]
      constructor
      · rintro (h | h)
        · exact Or.inr (Or.inr h.isInfix)
        · exact Or.inr (Or.inr h)
      · rintro (h | h | h)
        · have := h.head (by simp)
          simp at this
        · have := h.head (by simp)
          simp at this
        · exact Or.inr h
    | true =>
      rw [countsPastThree]
      by_cases h3 : c + 1 > 3
      · have hc3 : c = 3 := by omega
        subst hc3
        simp [List.replicate_succ, List.prefix_cons_inj]
      · simp only [h3, if_false]
        rw [ih (c + 1) (by omega), fourPositives_infix_cons]
        have e1 : 4 - c = (4 - (c + 1)) + 1 := by omega
        rw [e1, List.replicate_succ, List.prefix_cons_inj]
        constructor
        · rintro (h | h)
          · exact Or.inl h
          · exact Or.inr (Or.inr h)
        · rintro (h | h | h)
          · exact Or.inl h
          · left
            simp only [fourPositives, List.prefix_cons_inj] at h
            refine List.IsPrefix.trans ?_ h
            have : [true, true, true] = List.replicate 3 true := rfl
            rw [this]
            refine ⟨List.replicate (3 - (4 - (c + 1))) true, ?_⟩
            rw [← List.replicate_add]
            congr 1
            omega
          · exact Or.inr h
theorem observations_succ (metadata : Nat → Except Nat (List String)) (old : List String)
    (s n : Nat) :
    observations metadata old s (n + 1)
      = (observation metadata old s).toList ++ observations metadata old (s + 1) n := by
  unfold observations
  rw [List.range_succ_eq_map, List.filterMap_cons, List.filterMap_map]
  have hf : ((fun k => observation metadata old (s + k)) ∘ Nat.succ)
      = fun k => observation metadata old (s + 1 + k) := by
    funext k
    simp [Function.comp, Nat.add_assoc, Nat.add_comm 1]
  rw [hf]
  cases h : observation metadata old (s + 0) <;> simp_all

theorem missing_pos_iff (old ips : List String) :
    (old.filter (fun oldIP => oldIP ∉ ips)).length > 0 ↔ ∃ ip ∈ old, ip ∉ ips := by
  rw [gt_iff_lt, List.length_pos_iff_exists_mem]
  simp [List.mem_filter]

theorem ipsFreedLoop_spec (old : List String) (n c : Nat) (w : World) (hc : c ≤ 3) :
    (ipsFreedLoop old n c w).1
        = countsPastThree c (observations w.metadata old w.refreshes n)
    ∧ (ipsFreedLoop old n c w).2.refreshes ≤ w.refreshes + n
    ∧ ((ipsFreedLoop old n c w).1 = false →
        (ipsFreedLoop old n c w).2.refreshes = w.refreshes + n)
    ∧ ((ipsFreedLoop old n c w).1 = true →
        ∃ m, (ipsFreedLoop old n c w).2.refreshes = w.refreshes + m ∧ m ≤ n
          ∧ fourPositives <:+ List.replicate c true
              ++ observations w.metadata old w.refreshes m) := by
  induction n generalizing c w with
  | zero => simp [ipsFreedLoop, observations, countsPastThree]
  | succ n ih =>
    rw [observations_succ]
    cases hm : w.metadata w.refreshes with
    | error code =>
      have hR : Refresh w = (some (Err.ext code), { w with refreshes := w.refreshes + 1 }) := by
        simp [Refresh, hm]
      rw [ipsFreedLoop, hR]
      simp only [observation, hm, Option.toList, List.nil_append]
      obtain ⟨h1, h2, h3, h4⟩ := ih c (timeSleep { w with refreshes := w.refreshes + 1 }
        w.ipRefreshSleepInterval) hc
      simp only [timeSleep] at h1 h2 h3 h4 ⊢
      refine ⟨h1, by omega, fun hf => by rw [h3 hf]; omega, fun ht => ?_⟩
      obtain ⟨m, hm1, hm2, hm3⟩ := h4 ht
      refine ⟨m + 1, by rw [hm1]; omega, by omega, ?_⟩
      rw [observations_succ]
      simpa [observation, hm] using hm3
    | ok ips =>
      have hR : Refresh w = (none, { w with refreshes := w.refreshes + 1, ipv4 := ips }) := by
        simp [Refresh, hm]
      rw [ipsFreedLoop, hR]
      simp only [observation, hm, Option.toList, List.singleton_append]
      by_cases hpos : ∃ ip ∈ old, ip ∉ ips
      · have hlen := (missing_pos_iff old ips).mpr hpos
        simp only [hlen, if_true, hpos, decide_True]
        by_cases h3 : c + 1 > 3
        · simp only [h3, if_true, countsPastThree]
          refine ⟨trivial, by omega, by simp, fun _ => ⟨1, rfl, by omega, ?_⟩⟩
          have hc3 : c = 3 := by omega
          subst hc3
          rw [observations_succ]
          simp [observation, hm, hpos, observations, fourPositives, List.replicate_succ]
        · simp only [h3, if_false, countsPastThree]
          obtain ⟨h1, h2, h3', h4⟩ := ih (c + 1)
            (timeSleep { w with refreshes := w.refreshes + 1, ipv4 := ips }
              w.ipRefreshSleepInterval) (by omega)
          simp only [timeSleep] at h1 h2 h3' h4 ⊢
          refine ⟨h1, by omega, fun hf => by rw [h3' hf]; omega, fun ht => ?_⟩
          obtain ⟨m, hm1, hm2, hm3⟩ := h4 ht
          refine ⟨m + 1, by rw [hm1]; omega, by omega, ?_⟩
          rw [observations_succ]
          simp only [observation, hm, hpos, decide_True, Option.toList, List.singleton_append]
          rw [List.replicate_succ'] at hm3
          simpa using hm3
      · have hlen : ¬ (old.filter (fun oldIP => oldIP ∉ ips)).length > 0 :=
          fun h => hpos ((missing_pos_iff old ips).mp h)
        simp only [hlen, if_false, hpos, decide_False, countsPastThree]
        obtain ⟨h1, h2, h3', h4⟩ := ih 0
          (timeSleep { w with refreshes := w.refreshes + 1, ipv4 := ips }
            w.ipRefreshSleepInterval) (by omega)
        simp only [timeSleep] at h1 h2 h3' h4 ⊢
        refine ⟨h1, by omega, fun hf => by rw [h3' hf]; omega, fun ht => ?_⟩
        obtain ⟨m, hm1, hm2, hm3⟩ := h4 ht
        refine ⟨m + 1, by rw [hm1]; omega, by omega, ?_⟩
        rw [observations_succ]
        simp only [observation, hm, hpos, decide_False, Option.toList, List.singleton_append]
        simp only [List.replicate_zero, List.nil_append] at hm3
        exact hm3.trans ((List.suffix_cons _ _).trans (List.suffix_append _ _))

/-! ### Claim C8 -/

/-- C8: `ipsFreed` makes at most 180 refresh attempts; it returns true exactly when
the observations of the 180 attempts (the successful refreshes, positive when an old
address is missing) contain four positives in a row, in which case it returns at the
attempt that completes them; otherwise it returns false after the 180th attempt. -/
theorem ipsFreed_four_consecutive (w : World) (oldIPList deallocationList : List String) :
    (ipsFreed w oldIPList deallocationList).2.refreshes ≤ w.refreshes + 180
    ∧ ((ipsFreed w oldIPList deallocationList).1 = true
        ↔ fourPositives <:+: observations w.metadata oldIPList w.refreshes 180)
    ∧ ((ipsFreed w oldIPList deallocationList).1 = true →
        ∃ m, m ≤ 180
          ∧ (ipsFreed w oldIPList deallocationList).2.refreshes = w.refreshes + m
          ∧ fourPositives <:+ observations w.metadata oldIPList w.refreshes m)
    ∧ ((ipsFreed w oldIPList deallocationList).1 = false →
        (ipsFreed w oldIPList deallocationList).2.refreshes = w.refreshes + 180) := by
  obtain ⟨h1, h2, h3, h4⟩ := ipsFreedLoop_spec oldIPList 180 0 w (by omega)
  refine ⟨h2, ?_, ?_, h3⟩
  · unfold ipsFreed
    rw [h1, countsPastThree_iff 0 (by omega)]
    constructor
    · rintro (h | h)
      · exact h.isInfix
      · exact h
    · exact Or.inr
  · intro ht
    obtain ⟨m, hm1, hm2, hm3⟩ := h4 ht
    exact ⟨m, hm2, hm1, by simpa using hm3⟩

/-- C8 on the host of scenario S3: the first four refreshes are positive, so
`ipsFreed` returns true at the fourth attempt. -/
theorem ipsFreed_four_consecutive_witness :
    ∃ m, m ≤ 180
      ∧ (ipsFreed gcWorld ["10.0.0.1", "10.0.0.2", "10.0.0.3"] ["10.0.0.2"]).2.refreshes
          = gcWorld.refreshes + m
      ∧ fourPositives <:+ observations gcWorld.metadata
          ["10.0.0.1", "10.0.0.2", "10.0.0.3"] gcWorld.refreshes m :=
  (ipsFreed_four_consecutive gcWorld ["10.0.0.1", "10.0.0.2", "10.0.0.3"]
    ["10.0.0.2"]).2.2.1 (by decide)

/-! ### Claim C9 -/

/-- C9: `freeIPs` returns an error exactly when the deallocation list is non-empty
and the cloud call `FreeIPv4Addresses` fails, and then it is that error; a cloud call
that succeeds gives success even when `ipsFreed` reports no convergence; an empty
deallocation list gives success with the world untouched (no cloud call, no
refresh). -/
theorem freeIPs_error_iff (w : World) (deallocationList : List String) :
    (∀ e, (freeIPs w deallocationList).1 = some e
        ↔ deallocationList ≠ [] ∧ (FreeIPv4Addresses w deallocationList).1 = some e)
    ∧ (deallocationList ≠ [] → (FreeIPv4Addresses w deallocationList).1 = none →
        (ipsFreed (FreeIPv4Addresses w deallocationList).2 w.ipv4 deallocationList).1 = false →
        (freeIPs w deallocationList).1 = none)
    ∧ freeIPs w [] = (none, w) := by
  refine ⟨?_, ?_, by simp [freeIPs]⟩
  · intro e
    by_cases hdl : deallocationList = []
    · subst hdl; simp [freeIPs]
    · have hlen : ¬ deallocationList.length = 0 := by simpa using hdl
      unfold freeIPs
      simp only [hlen, if_false]
      cases hc : w.cloudEnv w.cloudCalls with
      | some code => simp [FreeIPv4Addresses, hc, hdl]
      | none => simp [FreeIPv4Addresses, hc, hdl]
  · intro hdl hfree _
    have hlen : ¬ deallocationList.length = 0 := by simpa using hdl
    unfold freeIPs
    simp only [hlen, if_false]
    cases hc : w.cloudEnv w.cloudCalls with
    | some code => simp [FreeIPv4Addresses, hc] at hfree
    | none => simp [FreeIPv4Addresses, hc]

/-- C9 on a host whose cloud rejects the request: `freeIPs` returns the cloud's
error. -/
theorem freeIPs_error_iff_witness :
    (freeIPs cloudDownWorld ["10.0.0.2"]).1 = some (Err.ext 7) :=
  ((freeIPs_error_iff cloudDownWorld ["10.0.0.2"]).1 (Err.ext 7)).mpr
    ⟨by decide, by decide⟩

/-! ### `firstPass`, one address at a time -/

theorem firstPassLoop_busy (g : Int) (d : List (String × Record)) (ip : String)
    (rest : List String) (w : World) (dl : List String) (locks : List ExclusiveLock)
    (h : lockAnswer w 0 (Path.ipAddress ip) = LockAnswer.busy) :
    firstPassLoop g d (ip :: rest) w dl locks
      = firstPassLoop g d rest (attempted w (Path.ipAddress ip)) dl locks := by
  rw [firstPassLoop, ExclusiveLock_busy w _ h]
  simp [attempted]

theorem firstPassLoop_fault (g : Int) (d : List (String × Record)) (ip : String)
    (rest : List String) (w : World) (dl : List String) (locks : List ExclusiveLock)
    (code : Nat) (h : lockAnswer w 0 (Path.ipAddress ip) = LockAnswer.fault code) :
    firstPassLoop g d (ip :: rest) w dl locks
      = ((dl, locks, some (Err.ext code)),
          unlockAll (attempted w (Path.ipAddress ip)) locks) := by
  rw [firstPassLoop, ExclusiveLock_fault w _ _ _ h]
  simp [attempted]

theorem firstPassLoop_unknown (g : Int) (d : List (String × Record)) (ip : String)
    (rest : List String) (w : World) (dl : List String) (locks : List ExclusiveLock)
    (h : lockAnswer w 0 (Path.ipAddress ip) = LockAnswer.free)
    (hd : d.lookup ip = none) :
    firstPassLoop g d (ip :: rest) w dl locks
      = firstPassLoop g d rest
          (Unlock (granted w (Path.ipAddress ip)) ⟨Path.ipAddress ip⟩) dl locks := by
  rw [firstPassLoop, ExclusiveLock_free w _ _ h]
  simp [granted, hd]

theorem firstPassLoop_warm (g : Int) (d : List (String × Record)) (ip : String)
    (rest : List String) (w : World) (dl : List String) (locks : List ExclusiveLock)
    (record : Record)
    (h : lockAnswer w 0 (Path.ipAddress ip) = LockAnswer.free)
    (hd : d.lookup ip = some record)
    (hw : (timeSince (granted w (Path.ipAddress ip)) record.BumpTime).1 < g) :
    firstPassLoop g d (ip :: rest) w dl locks
      = firstPassLoop g d rest
          (Unlock (timeSince (timeSince (granted w (Path.ipAddress ip))
            record.BumpTime).2 record.BumpTime).2 ⟨Path.ipAddress ip⟩) dl locks := by
  rw [firstPassLoop, ExclusiveLock_free w _ _ h]
  simp only [hd]
  rw [if_pos (by simpa [granted] using hw)]
  rfl

theorem firstPassLoop_cold (g : Int) (d : List (String × Record)) (ip : String)
    (rest : List String) (w : World) (dl : List String) (locks : List ExclusiveLock)
    (record : Record)
    (h : lockAnswer w 0 (Path.ipAddress ip) = LockAnswer.free)
    (hd : d.lookup ip = some record)
    (hw : ¬ (timeSince (granted w (Path.ipAddress ip)) record.BumpTime).1 < g) :
    firstPassLoop g d (ip :: rest) w dl locks
      = firstPassLoop g d rest
          (Bump (timeSince (granted w (Path.ipAddress ip)) record.BumpTime).2
            ⟨Path.ipAddress ip⟩) (dl ++ [ip]) (locks ++ [⟨Path.ipAddress ip⟩]) := by
  rw [firstPassLoop, ExclusiveLock_free w _ _ h]
  simp only [hd]
  rw [if_neg (by simpa [granted] using hw)]
  rfl

theorem firstPass_listError (w : World) (g : Int) (code : Nat)
    (hl : w.listEnv w.lists = some code) :
    firstPass w g = (Go.ret ([], [], some (Err.ext code)), listed w) := by
  simp [firstPass, FSLocker.ListFiles, hl, listed]

theorem firstPass_empty (w : World) (g : Int) (hl : w.listEnv w.lists = none)
    (hv : w.ipv4 = []) :
    firstPass w g = (Go.panicked "slice bounds out of range [1:0]", listed w) := by
  simp [firstPass, FSLocker.ListFiles, hl, listed, hv]

theorem firstPass_loop (w : World) (g : Int) (a : String) (rest : List String)
    (hl : w.listEnv w.lists = none) (hv : w.ipv4 = a :: rest) :
    firstPass w g
      = (Go.ret (firstPassLoop g (recordsDictOf w.files) rest (listed w) [] []).1,
          (firstPassLoop g (recordsDictOf w.files) rest (listed w) [] []).2) := by
  unfold firstPass
  simp only [FSLocker.ListFiles, hl]
  have : ({ w with lists := w.lists + 1 } : World).ipv4 = a :: rest := hv
  split
  · rename_i h; rw [this] at h; simp at h
  · rename_i b r h
    rw [this] at h
    simp only [List.cons.injEq] at h
    rw [← h.2]
    rfl
theorem timeSub_exact (t u g : Int) (h : g ≤ timeSub t u) (hg : minDuration < g) :
    g ≤ t - u := by
  unfold timeSub at h
  rcases le_max_iff.mp h with h1 | h1
  · omega
  · exact le_trans h1 (min_le_right _ _)

theorem recordsDict_foldl_lookup (records : List Record) (m : List (String × Record))
    (ip : String) (r : Record)
    (h : (records.foldl (fun m record => (record.Name, record) :: m) m).lookup ip = some r) :
    (r ∈ records ∧ r.Name = ip) ∨ m.lookup ip = some r := by
  induction records generalizing m with
  | nil => exact Or.inr h
  | cons a rest ih =>
    rw [List.foldl_cons] at h
    rcases ih _ h with h1 | h1
    · exact Or.inl ⟨List.mem_cons_of_mem _ h1.1, h1.2⟩
    · rw [List.lookup_cons] at h1
      by_cases hn : ip = a.Name
      · simp only [hn, beq_self_eq_true, Option.some.injEq] at h1
        subst h1
        exact Or.inl ⟨List.mem_cons_self _ _, hn.symm⟩
      · have hb : (ip == a.Name) = false := by simpa using hn
        rw [hb] at h1
        exact Or.inr h1

theorem recordsDictOf_lookup (records : List Record) (ip : String) (r : Record)
    (h : (recordsDictOf records).lookup ip = some r) : r ∈ records ∧ r.Name = ip := by
  rcases recordsDict_foldl_lookup records [] ip r h with h1 | h1
  · exact h1
  · simp at h1

@[simp] theorem Unlock_now (w : World) (l : ExclusiveLock) : (Unlock w l).now = w.now := rfl

theorem unlockAll_now (locks : List ExclusiveLock) (w : World) :
    (unlockAll w locks).now = w.now := by
  induction locks generalizing w with
  | nil => rfl
  | cons a rest ih => rw [unlockAll, List.foldl_cons, ← unlockAll, ih]; rfl

theorem Bump_now_le (w : World) (l : ExclusiveLock) : w.now ≤ (Bump w l).now := by
  unfold Bump
  split
  · exact le_refl _
  · simp only [timeNow]
    omega

theorem timeSince_now_le (w : World) (t : Int) : w.now ≤ (timeSince w t).2.now := by
  simp only [timeSince, timeNow]
  omega

theorem timeSince_fst (w : World) (t : Int) :
    (timeSince w t).1 = timeSub (timeSince w t).2.now t := rfl

/-- Every address the loop of `firstPass` adds to the deallocation list has an entry
in `recordsDict` whose age, at a clock reading taken during the loop, is at least the
grace period; the clock does not run backwards. -/
theorem firstPassLoop_grace (g : Int) (d : List (String × Record)) (l : List String)
    (w : World) (dl : List String) (locks : List ExclusiveLock) :
    w.now ≤ (firstPassLoop g d l w dl locks).2.now
    ∧ ∀ ip ∈ (firstPassLoop g d l w dl locks).1.1, ip ∈ dl ∨
        ∃ r, d.lookup ip = some r ∧ ∃ t, w.now ≤ t
          ∧ t ≤ (firstPassLoop g d l w dl locks).2.now ∧ g ≤ timeSub t r.BumpTime := by
  induction l generalizing w dl locks with
  | nil =>
    simp only [firstPassLoop, le_refl, true_and]
    exact fun ip hip => Or.inl hip
  | cons ip rest ih =>
    rcases hans : lockAnswer w 0 (Path.ipAddress ip) with _ | _ | code
    · cases hd : d.lookup ip with
      | none =>
        rw [firstPassLoop_unknown g d ip rest w dl locks hans hd]
        exact ih _ dl locks
      | some record =>
        by_cases hw : (timeSince (granted w (Path.ipAddress ip)) record.BumpTime).1 < g
        · rw [firstPassLoop_warm g d ip rest w dl locks record hans hd hw]
          obtain ⟨h1, h2⟩ := ih (Unlock (timeSince (timeSince (granted w (Path.ipAddress ip))
            record.BumpTime).2 record.BumpTime).2 ⟨Path.ipAddress ip⟩) dl locks
          have hstep : w.now ≤ (Unlock (timeSince (timeSince (granted w (Path.ipAddress ip))
              record.BumpTime).2 record.BumpTime).2 ⟨Path.ipAddress ip⟩).now := by
            simp only [Unlock_now]
            exact le_trans (le_trans (le_refl _) (timeSince_now_le (granted w _) _))
              (timeSince_now_le _ _)
          refine ⟨le_trans hstep h1, fun ip' hip' => ?_⟩
          rcases h2 ip' hip' with h3 | ⟨r, hr, t, ht1, ht2, ht3⟩
          · exact Or.inl h3
          · exact Or.inr ⟨r, hr, t, le_trans hstep ht1, ht2, ht3⟩
        · rw [firstPassLoop_cold g d ip rest w dl locks record hans hd hw]
          obtain ⟨h1, h2⟩ := ih (Bump (timeSince (granted w (Path.ipAddress ip))
            record.BumpTime).2 ⟨Path.ipAddress ip⟩) (dl ++ [ip])
            (locks ++ [⟨Path.ipAddress ip⟩])
          have hread : w.now ≤ (timeSince (granted w (Path.ipAddress ip))
              record.BumpTime).2.now := timeSince_now_le (granted w _) _
          have hstep := le_trans hread (Bump_now_le (timeSince (granted w (Path.ipAddress ip))
              record.BumpTime).2 ⟨Path.ipAddress ip⟩)
          refine ⟨le_trans hstep h1, fun ip' hip' => ?_⟩
          rcases h2 ip' hip' with h3 | ⟨r, hr, t, ht1, ht2, ht3⟩
          · rcases List.mem_append.mp h3 with h4 | h4
            · exact Or.inl h4
            · have heq : ip' = ip := by simpa using h4
              subst heq
              refine Or.inr ⟨record, hd, _, hread, le_trans (Bump_now_le _ _) h1, ?_⟩
              rw [← timeSince_fst]
              exact not_lt.mp hw
          · exact Or.inr ⟨r, hr, t, le_trans hstep ht1, ht2, ht3⟩
    · rw [firstPassLoop_busy g d ip rest w dl locks hans]
      exact ih _ dl locks
    · rw [firstPassLoop_fault g d ip rest w dl locks code hans]
      simp only [unlockAll_now, attempted, le_refl, true_and]
      exact fun ip hip => Or.inl hip

/-! ### Claim C4 -/

/-- C4: every address in the deallocation list returned by `firstPass` has a lease
record in the listing taken at the start of the pass whose age `time.Since(bumpTime)`,
at a clock reading taken during the pass, is at least the grace period; for a grace
period above the smallest duration the exact difference `now - bumpTime` is at least
the grace period too. -/
theorem firstPass_grace (w : World) (gracePeriod : Int) (dl : List String)
    (locks : List ExclusiveLock) (err : Option Err)
    (h : (firstPass w gracePeriod).1 = Go.ret (dl, locks, err)) :
    ∀ ip ∈ dl, ∃ r ∈ w.files, r.Name = ip ∧ ∃ t, w.now ≤ t
      ∧ t ≤ (firstPass w gracePeriod).2.now
      ∧ gracePeriod ≤ timeSub t r.BumpTime
      ∧ (minDuration < gracePeriod → gracePeriod ≤ t - r.BumpTime) := by
  intro ip hip
  cases hl : w.listEnv w.lists with
  | some code =>
    rw [firstPass_listError w gracePeriod code hl] at h
    simp only [Go.ret.injEq, Prod.mk.injEq] at h
    rw [← h.1] at hip
    simp at hip
  | none =>
    cases hv : w.ipv4 with
    | nil =>
      rw [firstPass_empty w gracePeriod hl hv] at h
      simp at h
    | cons a rest =>
      rw [firstPass_loop w gracePeriod a rest hl hv] at h ⊢
      simp only [Go.ret.injEq] at h
      obtain ⟨_, h2⟩ := firstPassLoop_grace gracePeriod (recordsDictOf w.files) rest
        (listed w) [] []
      rw [h] at h2
      rcases h2 ip hip with h3 | ⟨r, hr, t, ht1, ht2, ht3⟩
      · simp at h3
      · obtain ⟨hmem, hname⟩ := recordsDictOf_lookup w.files ip r hr
        exact ⟨r, hmem, hname, t, ht1, ht2, ht3, timeSub_exact t r.BumpTime gracePeriod ht3⟩

/-- C4 at the host of scenario S3 with a grace period of 600 s: only `10.0.0.2`, idle
for 1000 s, is selected. -/
theorem firstPass_grace_witness :
    ∃ r ∈ gcWorld.files, r.Name = "10.0.0.2" ∧ ∃ t, gcWorld.now ≤ t
      ∧ t ≤ (firstPass gcWorld (600 * second)).2.now
      ∧ 600 * second ≤ timeSub t r.BumpTime
      ∧ (minDuration < 600 * second → 600 * second ≤ t - r.BumpTime) :=
  firstPass_grace gcWorld (600 * second) ["10.0.0.2"] [⟨Path.ipAddress "10.0.0.2"⟩] none
    (by decide) "10.0.0.2" (by decide)

/-! ### What `firstPass` selects and which locks it tries -/

@[simp] theorem Unlock_trace (w : World) (l : ExclusiveLock) :
    (Unlock w l).trace = w.trace ++ [Event.unlock l.path] := rfl

@[simp] theorem timeSince_trace (w : World) (t : Int) :
    (timeSince w t).2.trace = w.trace := rfl

@[simp] theorem granted_trace (w : World) (p : Path) :
    (granted w p).trace = w.trace ++ [Event.lockAttempt p] := rfl

@[simp] theorem attempted_trace (w : World) (p : Path) :
    (attempted w p).trace = w.trace ++ [Event.lockAttempt p] := rfl

theorem unlockAll_trace (locks : List ExclusiveLock) (w : World) :
    (unlockAll w locks).trace = w.trace ++ locks.map (fun l => Event.unlock l.path) := by
  induction locks generalizing w with
  | nil => simp [unlockAll]
  | cons a rest ih =>
    rw [unlockAll, List.foldl_cons, ← unlockAll, ih]
    simp

theorem firstPassLoop_selection (g : Int) (d : List (String × Record)) (l : List String)
    (w : World) (dl : List String) (locks : List ExclusiveLock) :
    (∃ sel, (firstPassLoop g d l w dl locks).1.1 = dl ++ sel ∧ ∀ ip ∈ sel, ip ∈ l)
    ∧ ∃ E, (firstPassLoop g d l w dl locks).2.trace = w.trace ++ E
        ∧ ∀ p, Event.lockAttempt p ∈ E → ∃ ip ∈ l, p = Path.ipAddress ip := by
  induction l generalizing w dl locks with
  | nil => exact ⟨⟨[], by simp [firstPassLoop]⟩, ⟨[], by simp [firstPassLoop]⟩⟩
  | cons ip rest ih =>
    rcases hans : lockAnswer w 0 (Path.ipAddress ip) with _ | _ | code
    · cases hd : d.lookup ip with
      | none =>
        rw [firstPassLoop_unknown g d ip rest w dl locks hans hd]
        obtain ⟨⟨sel, hs1, hs2⟩, ⟨E, hE1, hE2⟩⟩ := ih
          (Unlock (granted w (Path.ipAddress ip)) ⟨Path.ipAddress ip⟩) dl locks
        refine ⟨⟨sel, hs1, fun x hx => List.mem_cons_of_mem _ (hs2 x hx)⟩,
          ⟨[Event.lockAttempt (Path.ipAddress ip), Event.unlock (Path.ipAddress ip)] ++ E,
            by rw [hE1]; simp, ?_⟩⟩
        intro p hp
        simp only [List.cons_append, List.nil_append, List.mem_cons, Event.lockAttempt.injEq,
          reduceCtorEq, false_or] at hp
        rcases hp with hp | hp
        · exact ⟨ip, List.mem_cons_self _ _, hp⟩
        · obtain ⟨x, hx, hpx⟩ := hE2 p hp
          exact ⟨x, List.mem_cons_of_mem _ hx, hpx⟩
      | some record =>
        by_cases hw : (timeSince (granted w (Path.ipAddress ip)) record.BumpTime).1 < g
        · rw [firstPassLoop_warm g d ip rest w dl locks record hans hd hw]
          obtain ⟨⟨sel, hs1, hs2⟩, ⟨E, hE1, hE2⟩⟩ := ih
            (Unlock (timeSince (timeSince (granted w (Path.ipAddress ip))
              record.BumpTime).2 record.BumpTime).2 ⟨Path.ipAddress ip⟩) dl locks
          refine ⟨⟨sel, hs1, fun x hx => List.mem_cons_of_mem _ (hs2 x hx)⟩,
            ⟨[Event.lockAttempt (Path.ipAddress ip), Event.unlock (Path.ipAddress ip)] ++ E,
              by rw [hE1]; simp, ?_⟩⟩
          intro p hp
          simp only [List.cons_append, List.nil_append, List.mem_cons, Event.lockAttempt.injEq,
            reduceCtorEq, false_or] at hp
          rcases hp with hp | hp
          · exact ⟨ip, List.mem_cons_self _ _, hp⟩
          · obtain ⟨x, hx, hpx⟩ := hE2 p hp
            exact ⟨x, List.mem_cons_of_mem _ hx, hpx⟩
        · rw [firstPassLoop_cold g d ip rest w dl locks record hans hd hw]
          obtain ⟨⟨sel, hs1, hs2⟩, ⟨E, hE1, hE2⟩⟩ := ih
            (Bump (timeSince (granted w (Path.ipAddress ip)) record.BumpTime).2
              ⟨Path.ipAddress ip⟩) (dl ++ [ip]) (locks ++ [⟨Path.ipAddress ip⟩])
          refine ⟨⟨ip :: sel, by rw [hs1]; simp, ?_⟩,
            ⟨[Event.lockAttempt (Path.ipAddress ip)] ++ E, by rw [hE1]; simp, ?_⟩⟩
          · intro x hx
            rcases List.mem_cons.mp hx with hx | hx
            · exact hx ▸ List.mem_cons_self _ _
            · exact List.mem_cons_of_mem _ (hs2 x hx)
          · intro p hp
            simp only [List.cons_append, List.nil_append, List.mem_cons,
              Event.lockAttempt.injEq] at hp
            rcases hp with hp | hp
            · exact ⟨ip, List.mem_cons_self _ _, hp⟩
            · obtain ⟨x, hx, hpx⟩ := hE2 p hp
              exact ⟨x, List.mem_cons_of_mem _ hx, hpx⟩
    · rw [firstPassLoop_busy g d ip rest w dl locks hans]
      obtain ⟨⟨sel, hs1, hs2⟩, ⟨E, hE1, hE2⟩⟩ := ih (attempted w (Path.ipAddress ip)) dl locks
      refine ⟨⟨sel, hs1, fun x hx => List.mem_cons_of_mem _ (hs2 x hx)⟩,
        ⟨[Event.lockAttempt (Path.ipAddress ip)] ++ E, by rw [hE1]; simp, ?_⟩⟩
      intro p hp
      simp only [List.cons_append, List.nil_append, List.mem_cons,
        Event.lockAttempt.injEq] at hp
      rcases hp with hp | hp
      · exact ⟨ip, List.mem_cons_self _ _, hp⟩
      · obtain ⟨x, hx, hpx⟩ := hE2 p hp
        exact ⟨x, List.mem_cons_of_mem _ hx, hpx⟩
    · rw [firstPassLoop_fault g d ip rest w dl locks code hans]
      refine ⟨⟨[], by simp⟩, ⟨[Event.lockAttempt (Path.ipAddress ip)]
        ++ locks.map (fun l => Event.unlock l.path), by simp [unlockAll_trace], ?_⟩⟩
      intro p hp
      simp only [List.cons_append, List.nil_append, List.mem_cons, Event.lockAttempt.injEq,
        List.mem_map, reduceCtorEq, and_false, exists_false, or_false] at hp
      exact ⟨ip, List.mem_cons_self _ _, hp⟩

/-! ### Claim C5 -/

/-- C5: on an interface with a non-empty IPv4 list `firstPass` returns, every address
of its deallocation list sits at a position `≥ 1` of the list, every lock it tries
is the lease lock of an address at a position `≥ 1`, and when the list has no
duplicates the primary is neither tried nor selected. -/
theorem firstPass_skips_primary (w : World) (gracePeriod : Int) (hne : w.ipv4 ≠ []) :
    ∃ dl locks err, (firstPass w gracePeriod).1 = Go.ret (dl, locks, err)
      ∧ (∀ ip ∈ dl, ∃ i, 1 ≤ i ∧ w.ipv4[i]? = some ip)
      ∧ (∀ p, Event.lockAttempt p ∈ (firstPass w gracePeriod).2.trace.drop w.trace.length →
          ∃ i ip, 1 ≤ i ∧ w.ipv4[i]? = some ip ∧ p = Path.ipAddress ip)
      ∧ (w.ipv4.Nodup → ∀ primary, w.ipv4[0]? = some primary →
          primary ∉ dl
          ∧ Event.lockAttempt (Path.ipAddress primary)
              ∉ (firstPass w gracePeriod).2.trace.drop w.trace.length) := by
  cases hl : w.listEnv w.lists with
  | some code =>
    rw [firstPass_listError w gracePeriod code hl]
    exact ⟨[], [], _, rfl, by simp, by simp [listed], by simp [listed]⟩
  | none =>
    cases hv : w.ipv4 with
    | nil => exact absurd hv hne
    | cons a rest =>
      rw [firstPass_loop w gracePeriod a rest hl hv]
      obtain ⟨⟨sel, hs1, hs2⟩, ⟨E, hE1, hE2⟩⟩ := firstPassLoop_selection gracePeriod
        (recordsDictOf w.files) rest (listed w) [] []
      have hpos : ∀ ip ∈ rest, ∃ i, 1 ≤ i ∧ (a :: rest)[i]? = some ip := by
        intro ip hip
        obtain ⟨j, hj⟩ := List.mem_iff_getElem?.mp hip
        exact ⟨j + 1, by omega, by simpa using hj⟩
      have hdrop : (firstPassLoop gracePeriod (recordsDictOf w.files) rest
          (listed w) [] []).2.trace.drop w.trace.length = E := by
        rw [hE1]
        show List.drop w.trace.length (w.trace ++ E) = E
        simp
      simp only [hdrop]
      simp only [List.nil_append] at hs1
      refine ⟨_, _, _, rfl, ?_, ?_, ?_⟩
      · intro ip hip
        rw [hs1] at hip
        exact hpos ip (hs2 ip hip)
      · intro p hp
        obtain ⟨ip, hip, hpip⟩ := hE2 p hp
        obtain ⟨i, hi1, hi2⟩ := hpos ip hip
        exact ⟨i, ip, hi1, hi2, hpip⟩
      · intro hnd primary hprim
        simp only [List.getElem?_cons_zero, Option.some.injEq] at hprim
        subst hprim
        have hnot : a ∉ rest := (List.nodup_cons.mp hnd).1
        refine ⟨fun hmem => hnot (hs2 a (hs1 ▸ hmem)), fun hmem => ?_⟩
        obtain ⟨ip, hip, hpip⟩ := hE2 _ hmem
        simp only [Path.ipAddress.injEq] at hpip
        exact hnot (hpip ▸ hip)

/-- C5 at the host of scenario S3. -/
theorem firstPass_skips_primary_witness :
    ∃ dl locks err, (firstPass gcWorld (600 * second)).1 = Go.ret (dl, locks, err)
      ∧ (∀ ip ∈ dl, ∃ i, 1 ≤ i ∧ gcWorld.ipv4[i]? = some ip)
      ∧ (∀ p, Event.lockAttempt p
            ∈ (firstPass gcWorld (600 * second)).2.trace.drop gcWorld.trace.length →
          ∃ i ip, 1 ≤ i ∧ gcWorld.ipv4[i]? = some ip ∧ p = Path.ipAddress ip)
      ∧ (gcWorld.ipv4.Nodup → ∀ primary, gcWorld.ipv4[0]? = some primary →
          primary ∉ dl
          ∧ Event.lockAttempt (Path.ipAddress primary)
              ∉ (firstPass gcWorld (600 * second)).2.trace.drop gcWorld.trace.length) :=
  firstPass_skips_primary gcWorld (600 * second) (by decide)

/-! ### Locks held across garbage collection -/

/-- A lock that is granted was not held by this process. -/
theorem lockAnswer_free_not_held (w : World) (k : Nat) (p : Path)
    (h : lockAnswer w k p = LockAnswer.free) : p ∉ w.held := by
  intro hmem
  simp [lockAnswer, hmem] at h

theorem filter_ne_of_not_mem (H : List Path) (p : Path) (h : p ∉ H) :
    H.filter (fun q => decide (q ≠ p)) = H := by
  rw [List.filter_eq_self]
  intro q hq
  simpa using fun hqp : q = p => h (hqp ▸ hq)

theorem filter_not_mem_snoc (H ps : List Path) (p : Path) (h : p ∉ H) :
    (p :: H).filter (fun q => decide (q ∉ ps ++ [p]))
      = H.filter (fun q => decide (q ∉ ps)) := by
  rw [List.filter_cons_of_neg (by simp)]
  apply List.filter_congr
  intro q hq
  have : q ≠ p := fun hqp => h (hqp ▸ hq)
  simp [this]

theorem filter_not_mem_cons (H ps : List Path) (p : Path) (h : p ∉ H) :
    (p :: H).filter (fun q => decide (q ∉ p :: ps))
      = H.filter (fun q => decide (q ∉ ps)) := by
  rw [List.filter_cons_of_neg (by simp)]
  apply List.filter_congr
  intro q hq
  have : q ≠ p := fun hqp => h (hqp ▸ hq)
  simp [this]

@[simp] theorem Unlock_held (w : World) (l : ExclusiveLock) :
    (Unlock w l).held = w.held.filter (fun q => decide (q ≠ l.path)) := rfl

theorem granted_unlock_held (w : World) (p : Path) (h : p ∉ w.held) :
    (p :: w.held).filter (fun q => decide (q ≠ p)) = w.held := by
  rw [List.filter_cons_of_neg (by simp), filter_ne_of_not_mem _ _ h]

theorem unlockAll_held (locks : List ExclusiveLock) (w : World) :
    (unlockAll w locks).held
      = w.held.filter (fun q => decide (q ∉ locks.map ExclusiveLock.path)) := by
  induction locks generalizing w with
  | nil => simp [unlockAll]
  | cons a rest ih =>
    rw [unlockAll, List.foldl_cons, ← unlockAll, ih, Unlock_held, List.filter_filter]
    apply List.filter_congr
    intro q _
    by_cases h1 : q = a.path <;> by_cases h2 : q ∈ rest.map ExclusiveLock.path <;>
      simp [h1, h2]

theorem firstPassLoop_held (g : Int) (d : List (String × Record)) (l : List String)
    (w : World) (dl : List String) (locks : List ExclusiveLock) :
    (firstPassLoop g d l w dl locks).2.held.filter
        (fun q => decide (q ∉ (firstPassLoop g d l w dl locks).1.2.1.map ExclusiveLock.path))
      = w.held.filter (fun q => decide (q ∉ locks.map ExclusiveLock.path))
    ∧ ((firstPassLoop g d l w dl locks).1.2.2 ≠ none →
        (firstPassLoop g d l w dl locks).2.held
          = w.held.filter (fun q => decide (q ∉ locks.map ExclusiveLock.path))) := by
  induction l generalizing w dl locks with
  | nil => simp [firstPassLoop]
  | cons ip rest ih =>
    rcases hans : lockAnswer w 0 (Path.ipAddress ip) with _ | _ | code
    · have hnot := lockAnswer_free_not_held w 0 _ hans
      cases hd : d.lookup ip with
      | none =>
        rw [firstPassLoop_unknown g d ip rest w dl locks hans hd]
        have hh : (Unlock (granted w (Path.ipAddress ip)) ⟨Path.ipAddress ip⟩).held
            = w.held := granted_unlock_held w _ hnot
        have := ih (Unlock (granted w (Path.ipAddress ip)) ⟨Path.ipAddress ip⟩) dl locks
        rwa [hh] at this
      | some record =>
        by_cases hw : (timeSince (granted w (Path.ipAddress ip)) record.BumpTime).1 < g
        · rw [firstPassLoop_warm g d ip rest w dl locks record hans hd hw]
          have hh : (Unlock (timeSince (timeSince (granted w (Path.ipAddress ip))
              record.BumpTime).2 record.BumpTime).2 ⟨Path.ipAddress ip⟩).held = w.held :=
            granted_unlock_held w _ hnot
          have := ih (Unlock (timeSince (timeSince (granted w (Path.ipAddress ip))
              record.BumpTime).2 record.BumpTime).2 ⟨Path.ipAddress ip⟩) dl locks
          rwa [hh] at this
        · rw [firstPassLoop_cold g d ip rest w dl locks record hans hd hw]
          have hh : (Bump (timeSince (granted w (Path.ipAddress ip)) record.BumpTime).2
              ⟨Path.ipAddress ip⟩).held = Path.ipAddress ip :: w.held := by
            simp [granted, timeSince, timeNow]
          have := ih (Bump (timeSince (granted w (Path.ipAddress ip)) record.BumpTime).2
              ⟨Path.ipAddress ip⟩) (dl ++ [ip]) (locks ++ [⟨Path.ipAddress ip⟩])
          rw [hh, List.map_append, List.map_singleton,
            filter_not_mem_snoc _ _ _ hnot] at this
          exact this
    · rw [firstPassLoop_busy g d ip rest w dl locks hans]
      exact ih (attempted w (Path.ipAddress ip)) dl locks
    · rw [firstPassLoop_fault g d ip rest w dl locks code hans]
      have hh : (attempted w (Path.ipAddress ip)).held = w.held := rfl
      refine ⟨?_, fun _ => ?_⟩
      · simp only [unlockAll_held, List.filter_filter, Bool.and_self, hh]
      · simp only [unlockAll_held, hh]

/-! ### `doFileCleanup`, one record at a time -/

theorem doFileCleanupLoop_keep (nd : List String) (record : Record) (rest : List Record)
    (w : World) (deferred : List ExclusiveLock) (h : record.Name ∈ nd) :
    doFileCleanupLoop nd (record :: rest) w deferred
      = doFileCleanupLoop nd rest w deferred := by
  rw [doFileCleanupLoop, if_pos h]

theorem doFileCleanupLoop_recent (nd : List String) (record : Record) (rest : List Record)
    (w : World) (deferred : List ExclusiveLock) (h : record.Name ∉ nd)
    (hr : (timeSince w record.BumpTime).1 < 5 * minute) :
    doFileCleanupLoop nd (record :: rest) w deferred
      = doFileCleanupLoop nd rest
          (timeSince (timeSince w record.BumpTime).2 record.BumpTime).2 deferred := by
  rw [doFileCleanupLoop, if_neg h]
  simp only [hr, if_true]

theorem doFileCleanupLoop_busy (nd : List String) (record : Record) (rest : List Record)
    (w : World) (deferred : List ExclusiveLock) (h : record.Name ∉ nd)
    (hr : ¬ (timeSince w record.BumpTime).1 < 5 * minute)
    (hans : lockAnswer (timeSince w record.BumpTime).2 0 (Path.ipAddress record.Name)
      = LockAnswer.busy) :
    doFileCleanupLoop nd (record :: rest) w deferred
      = doFileCleanupLoop nd rest
          (attempted (timeSince w record.BumpTime).2 (Path.ipAddress record.Name))
          deferred := by
  rw [doFileCleanupLoop, if_neg h]
  simp only [hr, if_false]
  rw [ExclusiveLock_busy _ _ hans]
  rfl

theorem doFileCleanupLoop_fault (nd : List String) (record : Record) (rest : List Record)
    (w : World) (deferred : List ExclusiveLock) (code : Nat) (h : record.Name ∉ nd)
    (hr : ¬ (timeSince w record.BumpTime).1 < 5 * minute)
    (hans : lockAnswer (timeSince w record.BumpTime).2 0 (Path.ipAddress record.Name)
      = LockAnswer.fault code) :
    doFileCleanupLoop nd (record :: rest) w deferred
      = doFileCleanupLoop nd rest
          (attempted (timeSince w record.BumpTime).2 (Path.ipAddress record.Name))
          deferred := by
  rw [doFileCleanupLoop, if_neg h]
  simp only [hr, if_false]
  rw [ExclusiveLock_fault _ _ _ _ hans]
  rfl

theorem doFileCleanupLoop_free (nd : List String) (record : Record) (rest : List Record)
    (w : World) (deferred : List ExclusiveLock) (h : record.Name ∉ nd)
    (hr : ¬ (timeSince w record.BumpTime).1 < 5 * minute)
    (hans : lockAnswer (timeSince w record.BumpTime).2 0 (Path.ipAddress record.Name)
      = LockAnswer.free) :
    doFileCleanupLoop nd (record :: rest) w deferred
      = doFileCleanupLoop nd rest
          (FSLocker.RemovePath
            (granted (timeSince w record.BumpTime).2 (Path.ipAddress record.Name))
            (Path.ipAddress record.Name)).2
          (⟨Path.ipAddress record.Name⟩ :: deferred) := by
  rw [doFileCleanupLoop, if_neg h]
  simp only [hr, if_false]
  rw [ExclusiveLock_free _ _ _ hans]
  rfl

theorem RemovePath_held (w : World) (p : Path) :
    (FSLocker.RemovePath w p).2.held = w.held := by
  unfold FSLocker.RemovePath
  cases w.removeEnv p with
  | some code => rfl
  | none => cases p <;> rfl

theorem doFileCleanupLoop_held (nd : List String) (records : List Record) (w : World)
    (deferred : List ExclusiveLock) :
    (doFileCleanupLoop nd records w deferred).1.held.filter
        (fun q => decide (q ∉ (doFileCleanupLoop nd records w deferred).2.map
          ExclusiveLock.path))
      = w.held.filter (fun q => decide (q ∉ deferred.map ExclusiveLock.path)) := by
  induction records generalizing w deferred with
  | nil => simp [doFileCleanupLoop]
  | cons record rest ih =>
    by_cases h : record.Name ∈ nd
    · rw [doFileCleanupLoop_keep nd record rest w deferred h]
      exact ih w deferred
    · by_cases hr : (timeSince w record.BumpTime).1 < 5 * minute
      · rw [doFileCleanupLoop_recent nd record rest w deferred h hr]
        exact ih _ deferred
      · rcases hans : lockAnswer (timeSince w record.BumpTime).2 0
          (Path.ipAddress record.Name) with _ | _ | code
        · rw [doFileCleanupLoop_free nd record rest w deferred h hr hans]
          have hnot : Path.ipAddress record.Name ∉ w.held :=
            lockAnswer_free_not_held _ 0 _ hans
          have := ih (FSLocker.RemovePath
            (granted (timeSince w record.BumpTime).2 (Path.ipAddress record.Name))
            (Path.ipAddress record.Name)).2 (⟨Path.ipAddress record.Name⟩ :: deferred)
          rw [this, RemovePath_held]
          exact filter_not_mem_cons w.held _ _ hnot
        · rw [doFileCleanupLoop_busy nd record rest w deferred h hr hans]
          exact ih _ deferred
        · rw [doFileCleanupLoop_fault nd record rest w deferred code h hr hans]
          exact ih _ deferred

theorem doFileCleanup_held (w : World) (dl : List String) :
    (doFileCleanup w dl).2.held = w.held := by
  unfold doFileCleanup
  cases hl : w.listEnv w.lists with
  | some code => simp [FSLocker.ListFiles, hl]
  | none =>
    simp only [FSLocker.ListFiles, hl, unlockAll_held]
    rw [doFileCleanupLoop_held]
    simp

theorem Refresh_held (w : World) : (Refresh w).2.held = w.held := by
  unfold Refresh; split <;> rfl

theorem ipsFreedLoop_held (old : List String) (n c : Nat) (w : World) :
    (ipsFreedLoop old n c w).2.held = w.held := by
  induction n generalizing c w with
  | zero => rfl
  | succ n ih =>
    have hR := Refresh_held w
    unfold ipsFreedLoop
    split
    · rename_i w1 heq
      rw [ih]; rw [heq] at hR; exact hR
    · rename_i w1 heq
      rw [heq] at hR
      simp only
      split
      · split
        · exact hR
        · rw [ih]; exact hR
      · rw [ih]; exact hR

theorem freeIPs_held (w : World) (dl : List String) : (freeIPs w dl).2.held = w.held := by
  unfold freeIPs
  simp only
  split
  · rfl
  · cases hc : w.cloudEnv w.cloudCalls with
    | some code => simp [FreeIPv4Addresses, hc]
    | none => simp [FreeIPv4Addresses, hc, ipsFreed, ipsFreedLoop_held]

theorem lockConfiguration_free (w : World)
    (h : lockAnswer w 0 Path.ipConfig = LockAnswer.free) :
    lockConfiguration w = (Except.ok ⟨Path.ipConfig⟩, granted w Path.ipConfig) := by
  rw [lockConfiguration, ExclusiveLock_free w _ _ h]
  rfl

theorem lockConfiguration_busy (w : World)
    (h : lockAnswer w 0 Path.ipConfig = LockAnswer.busy) :
    lockConfiguration w
      = (Except.error Err.lockTimeout, timeSleep (attempted w Path.ipConfig) minute) := by
  simp [lockConfiguration, FSLocker.ExclusiveLock, h, minute, second, attempted]

theorem lockConfiguration_fault (w : World) (code : Nat)
    (h : lockAnswer w 0 Path.ipConfig = LockAnswer.fault code) :
    lockConfiguration w = (Except.error (Err.ext code), attempted w Path.ipConfig) := by
  rw [lockConfiguration, ExclusiveLock_fault w _ _ _ h]
  rfl

theorem filter_filter_release (H : List Path) (locks : List ExclusiveLock) (p : Path) :
    (((H.filter (fun q => decide (q ≠ p))).filter
        (fun q => decide (q ∉ locks.reverse.map ExclusiveLock.path))).filter
        (fun q => decide (q ≠ p)))
      = (H.filter (fun q => decide (q ∉ locks.map ExclusiveLock.path))).filter
          (fun q => decide (q ≠ p)) := by
  simp only [List.filter_filter]
  apply List.filter_congr
  intro q _
  by_cases h1 : q = p <;> by_cases h2 : q ∈ locks.map ExclusiveLock.path <;>
    simp [h1, h2]

/-- Whatever way `DoGc` ends, the locks held afterwards are those held before. -/
theorem DoGc_held (w : World) (g : Int) : (DoGc w g).2.held = w.held := by
  unfold DoGc
  rcases hans : lockAnswer w 0 Path.ipConfig with _ | _ | code
  · have hnot := lockAnswer_free_not_held w 0 _ hans
    rw [lockConfiguration_free w hans]
    simp only
    cases hl : (granted w Path.ipConfig).listEnv (granted w Path.ipConfig).lists with
    | some c =>
      rw [firstPass_listError _ g c hl]
      exact granted_unlock_held w _ hnot
    | none =>
      cases hv : (granted w Path.ipConfig).ipv4 with
      | nil =>
        rw [firstPass_empty _ g hl hv]
        exact granted_unlock_held w _ hnot
      | cons a rest =>
        rw [firstPass_loop _ g a rest hl hv]
        have hheld := firstPassLoop_held g (recordsDictOf (granted w Path.ipConfig).files)
          rest (listed (granted w Path.ipConfig)) [] []
        rcases hfp : firstPassLoop g (recordsDictOf (granted w Path.ipConfig).files)
          rest (listed (granted w Path.ipConfig)) [] [] with ⟨⟨dl, locks, err⟩, w2⟩
        rw [hfp] at hheld
        simp only [List.map_nil, List.not_mem_nil, not_false_eq_true, decide_True,
          List.filter_true] at hheld
        have hg : (listed (granted w Path.ipConfig)).held = Path.ipConfig :: w.held := rfl
        rw [hg] at hheld
        cases err with
        | some e =>
          simp only [Unlock_held]
          rw [hheld.2 (by simp)]
          exact granted_unlock_held w _ hnot
        | none =>
          simp only
          rcases hfree : freeIPs (Unlock w2 ⟨Path.ipConfig⟩) dl with ⟨_ | e, w4⟩
          · have h4 : w4.held = w2.held.filter (fun q => decide (q ≠ Path.ipConfig)) := by
              have := freeIPs_held (Unlock w2 ⟨Path.ipConfig⟩) dl
              rw [hfree] at this
              exact this
            simp only [Unlock_held, unlockAll_held, doFileCleanup_held, h4]
            rw [filter_filter_release, hheld.1]
            exact granted_unlock_held w _ hnot
          · have h4 : w4.held = w2.held.filter (fun q => decide (q ≠ Path.ipConfig)) := by
              have := freeIPs_held (Unlock w2 ⟨Path.ipConfig⟩) dl
              rw [hfree] at this
              exact this
            simp only [Unlock_held, unlockAll_held, h4]
            rw [filter_filter_release, hheld.1]
            exact granted_unlock_held w _ hnot
  · rw [lockConfiguration_busy w hans]
    rfl
  · rw [lockConfiguration_fault w code hans]
    rfl

/-- When `firstPass` returns an error it has released every lock it took. -/
theorem firstPass_error_held (w : World) (g : Int) (dl : List String)
    (locks : List ExclusiveLock) (e : Err)
    (h : (firstPass w g).1 = Go.ret (dl, locks, some e)) :
    (firstPass w g).2.held = w.held := by
  cases hl : w.listEnv w.lists with
  | some c =>
    rw [firstPass_listError w g c hl]
    rfl
  | none =>
    cases hv : w.ipv4 with
    | nil =>
      rw [firstPass_empty w g hl hv]
      rfl
    | cons a rest =>
      rw [firstPass_loop w g a rest hl hv] at h ⊢
      simp only [Go.ret.injEq] at h
      have hheld := (firstPassLoop_held g (recordsDictOf w.files) rest (listed w) [] []).2
      rw [h] at hheld
      simpa [listed] using hheld (by simp)

/-! ### Claim C10 -/

/-- C10: whichever way `DoGc` ends (success, config-lock failure, first-pass error,
cloud free error, cleanup listing error, even the panic on an empty list), the locks
this process holds afterwards are exactly those it held before: the config lock,
every per-address lock of the first pass and every lock of the file cleanup have been
released.  In particular a `firstPass` that returns an error has itself released
every lock it took. -/
theorem DoGc_releases_locks (w : World) (gracePeriod : Int) :
    (DoGc w gracePeriod).2.held = w.held
    ∧ ∀ dl locks e, (firstPass w gracePeriod).1 = Go.ret (dl, locks, some e) →
        (firstPass w gracePeriod).2.held = w.held :=
  ⟨DoGc_held w gracePeriod, firstPass_error_held w gracePeriod⟩

/-- C10 on a host where the first pass selects `10.0.0.2` and then hits an I/O error
on `10.0.0.3`: the lock on `10.0.0.2` has been released when `firstPass` returns. -/
theorem DoGc_releases_locks_witness :
    (firstPass gcFaultWorld (600 * second)).2.held = gcFaultWorld.held :=
  (DoGc_releases_locks gcFaultWorld (600 * second)).2 ["10.0.0.2"]
    [⟨Path.ipAddress "10.0.0.2"⟩] (Err.ext 5) (by decide)

/-! ### Lease files across garbage collection -/

theorem hasFile_touchFile (files : List Record) (p : Path) (now : Int) (ip : String)
    (h : hasFile files ip) : hasFile (touchFile files p now) ip := by
  obtain ⟨r, hr, hn⟩ := h
  unfold touchFile
  split
  · exact ⟨r, hr, hn⟩
  · split
    · exact ⟨r, hr, hn⟩
    · exact ⟨r, List.mem_append_left _ hr, hn⟩

theorem hasFile_Bump (w : World) (l : ExclusiveLock) (ip : String)
    (h : hasFile w.files ip) : hasFile (Bump w l).files ip := by
  obtain ⟨r, hr, hn⟩ := h
  unfold Bump
  split
  · exact ⟨r, hr, hn⟩
  · rename_i name _
    simp only [timeNow]
    by_cases hname : r.Name = name
    · exact ⟨{ r with BumpTime := w.now + (w.elapse w.reads : Int) },
        List.mem_map.mpr ⟨r, hr, by simp [hname]⟩, hn⟩
    · exact ⟨r, List.mem_map.mpr ⟨r, hr, by simp [hname]⟩, hn⟩

theorem hasFile_RemovePath (w : World) (name ip : String) (hne : ip ≠ name)
    (h : hasFile w.files ip) :
    hasFile (FSLocker.RemovePath w (Path.ipAddress name)).2.files ip := by
  obtain ⟨r, hr, hn⟩ := h
  unfold FSLocker.RemovePath
  cases w.removeEnv (Path.ipAddress name) with
  | some code => exact ⟨r, hr, hn⟩
  | none =>
    refine ⟨r, ?_, hn⟩
    simp only [List.mem_filter]
    exact ⟨hr, by simpa [hn] using hne⟩

@[simp] theorem Unlock_files (w : World) (l : ExclusiveLock) :
    (Unlock w l).files = w.files := rfl

theorem unlockAll_files (locks : List ExclusiveLock) (w : World) :
    (unlockAll w locks).files = w.files := by
  induction locks generalizing w with
  | nil => rfl
  | cons a rest ih => rw [unlockAll, List.foldl_cons, ← unlockAll, ih]; rfl

theorem firstPassLoop_files (g : Int) (d : List (String × Record)) (l : List String)
    (w : World) (dl : List String) (locks : List ExclusiveLock) (x : String)
    (h : hasFile w.files x) : hasFile (firstPassLoop g d l w dl locks).2.files x := by
  induction l generalizing w dl locks with
  | nil => exact h
  | cons ip rest ih =>
    rcases hans : lockAnswer w 0 (Path.ipAddress ip) with _ | _ | code
    · have hg : hasFile (granted w (Path.ipAddress ip)).files x := by
        show hasFile (touchFile w.files (Path.ipAddress ip) w.now) x
        exact hasFile_touchFile w.files _ w.now x h
      cases hd : d.lookup ip with
      | none =>
        rw [firstPassLoop_unknown g d ip rest w dl locks hans hd]
        exact ih _ dl locks hg
      | some record =>
        by_cases hw : (timeSince (granted w (Path.ipAddress ip)) record.BumpTime).1 < g
        · rw [firstPassLoop_warm g d ip rest w dl locks record hans hd hw]
          exact ih _ dl locks hg
        · rw [firstPassLoop_cold g d ip rest w dl locks record hans hd hw]
          exact ih _ _ _ (hasFile_Bump _ _ x hg)
    · rw [firstPassLoop_busy g d ip rest w dl locks hans]
      exact ih _ dl locks h
    · rw [firstPassLoop_fault g d ip rest w dl locks code hans]
      simp only [unlockAll_files]
      exact h

theorem doFileCleanupLoop_files (nd : List String) (records : List Record) (w : World)
    (deferred : List ExclusiveLock) (x : String) (hx : x ∈ nd) (h : hasFile w.files x) :
    hasFile (doFileCleanupLoop nd records w deferred).1.files x := by
  induction records generalizing w deferred with
  | nil => exact h
  | cons record rest ih =>
    by_cases hk : record.Name ∈ nd
    · rw [doFileCleanupLoop_keep nd record rest w deferred hk]
      exact ih w deferred h
    · by_cases hr : (timeSince w record.BumpTime).1 < 5 * minute
      · rw [doFileCleanupLoop_recent nd record rest w deferred hk hr]
        exact ih _ deferred h
      · rcases hans : lockAnswer (timeSince w record.BumpTime).2 0
          (Path.ipAddress record.Name) with _ | _ | code
        · rw [doFileCleanupLoop_free nd record rest w deferred hk hr hans]
          refine ih _ _ (hasFile_RemovePath _ _ x (fun heq => hk (heq ▸ hx)) ?_)
          show hasFile (touchFile w.files (Path.ipAddress record.Name)
            (timeSince w record.BumpTime).2.now) x
          exact hasFile_touchFile w.files _ _ x h
        · rw [doFileCleanupLoop_busy nd record rest w deferred hk hr hans]
          exact ih _ deferred h
        · rw [doFileCleanupLoop_fault nd record rest w deferred code hk hr hans]
          exact ih _ deferred h

theorem mem_foldl_cons (l m : List String) (x : String) :
    x ∈ l.foldl (fun m ip => ip :: m) m ↔ x ∈ l ∨ x ∈ m := by
  induction l generalizing m with
  | nil => simp
  | cons a rest ih =>
    rw [List.foldl_cons, ih]
    simp only [List.mem_cons]
    tauto

theorem mem_recordsNotToDeleteOf (dl ipv4 : List String) (x : String) :
    x ∈ recordsNotToDeleteOf dl ipv4 ↔ x ∈ dl ∨ x ∈ ipv4 := by
  unfold recordsNotToDeleteOf
  rw [mem_foldl_cons, mem_foldl_cons]
  simp only [List.not_mem_nil, or_false]
  tauto

theorem doFileCleanup_files (w : World) (dl : List String) (x : String) (hx : x ∈ dl)
    (h : hasFile w.files x) : hasFile (doFileCleanup w dl).2.files x := by
  unfold doFileCleanup
  cases hl : w.listEnv w.lists with
  | some code => simpa [FSLocker.ListFiles, hl] using h
  | none =>
    simp only [FSLocker.ListFiles, hl, unlockAll_files]
    exact doFileCleanupLoop_files _ _ _ _ x
      ((mem_recordsNotToDeleteOf dl w.ipv4 x).mpr (Or.inl hx)) h

theorem Refresh_files (w : World) : (Refresh w).2.files = w.files := by
  unfold Refresh; split <;> rfl

theorem ipsFreedLoop_frame (old : List String) (n c : Nat) (w : World) :
    (ipsFreedLoop old n c w).2.files = w.files
      ∧ (ipsFreedLoop old n c w).2.trace = w.trace := by
  induction n generalizing c w with
  | zero => exact ⟨rfl, rfl⟩
  | succ n ih =>
    have hR := Refresh_files w
    have hT := Refresh_trace w
    unfold ipsFreedLoop
    split
    · rename_i w1 heq
      rw [heq] at hR hT
      rw [(ih _ _).1, (ih _ _).2]; exact ⟨hR, hT⟩
    · rename_i w1 heq
      rw [heq] at hR hT
      simp only
      split
      · split
        · exact ⟨hR, hT⟩
        · rw [(ih _ _).1, (ih _ _).2]; exact ⟨hR, hT⟩
      · rw [(ih _ _).1, (ih _ _).2]; exact ⟨hR, hT⟩

theorem freeIPs_frame (w : World) (dl : List String) :
    (freeIPs w dl).2.files = w.files
      ∧ (freeIPs w dl).2.trace
          = if dl = [] then w.trace else w.trace ++ [Event.freeRequest dl] := by
  by_cases hdl : dl = []
  · subst hdl; simp [freeIPs]
  · have hlen : ¬ dl.length = 0 := by simpa using hdl
    unfold freeIPs
    simp only [hlen, if_false, hdl]
    cases hc : w.cloudEnv w.cloudCalls with
    | some code => simp [FreeIPv4Addresses, hc]
    | none =>
      simp only [FreeIPv4Addresses, hc, ipsFreed]
      rw [(ipsFreedLoop_frame _ _ _ _).1, (ipsFreedLoop_frame _ _ _ _).2]
      exact ⟨rfl, rfl⟩

theorem freeRequests_append (a b : List Event) :
    freeRequests (a ++ b) = freeRequests a ++ freeRequests b := by
  simp [freeRequests, List.filterMap_append]

@[simp] theorem freeRequests_lockAttempt (t : List Event) (p : Path) :
    freeRequests (t ++ [Event.lockAttempt p]) = freeRequests t := by
  simp [freeRequests, List.filterMap_append]

@[simp] theorem freeRequests_unlock (t : List Event) (p : Path) :
    freeRequests (t ++ [Event.unlock p]) = freeRequests t := by
  simp [freeRequests, List.filterMap_append]

@[simp] theorem freeRequests_remove (t : List Event) (p : Path) :
    freeRequests (t ++ [Event.remove p]) = freeRequests t := by
  simp [freeRequests, List.filterMap_append]

@[simp] theorem freeRequests_freeRequest (t : List Event) (ips : List String) :
    freeRequests (t ++ [Event.freeRequest ips]) = freeRequests t ++ [ips] := by
  simp [freeRequests, List.filterMap_append]

theorem unlockAll_freeRequests (locks : List ExclusiveLock) (w : World) :
    freeRequests (unlockAll w locks).trace = freeRequests w.trace := by
  induction locks generalizing w with
  | nil => rfl
  | cons a rest ih =>
    rw [unlockAll, List.foldl_cons, ← unlockAll, ih]
    simp

theorem firstPassLoop_freeRequests (g : Int) (d : List (String × Record)) (l : List String)
    (w : World) (dl : List String) (locks : List ExclusiveLock) :
    freeRequests (firstPassLoop g d l w dl locks).2.trace = freeRequests w.trace := by
  induction l generalizing w dl locks with
  | nil => rfl
  | cons ip rest ih =>
    rcases hans : lockAnswer w 0 (Path.ipAddress ip) with _ | _ | code
    · cases hd : d.lookup ip with
      | none =>
        rw [firstPassLoop_unknown g d ip rest w dl locks hans hd, ih]
        simp only [Unlock_trace, granted_trace, freeRequests_unlock, freeRequests_lockAttempt]
      | some record =>
        by_cases hw : (timeSince (granted w (Path.ipAddress ip)) record.BumpTime).1 < g
        · rw [firstPassLoop_warm g d ip rest w dl locks record hans hd hw, ih]
          simp only [Unlock_trace, granted_trace, timeSince_trace, freeRequests_unlock,
            freeRequests_lockAttempt]
        · rw [firstPassLoop_cold g d ip rest w dl locks record hans hd hw, ih]
          simp
    · rw [firstPassLoop_busy g d ip rest w dl locks hans, ih]
      simp
    · rw [firstPassLoop_fault g d ip rest w dl locks code hans, unlockAll_freeRequests]
      simp

theorem RemovePath_freeRequests (w : World) (p : Path) :
    freeRequests (FSLocker.RemovePath w p).2.trace = freeRequests w.trace := by
  unfold FSLocker.RemovePath
  cases w.removeEnv p with
  | some code => rfl
  | none => cases p <;> simp

theorem doFileCleanupLoop_freeRequests (nd : List String) (records : List Record)
    (w : World) (deferred : List ExclusiveLock) :
    freeRequests (doFileCleanupLoop nd records w deferred).1.trace
      = freeRequests w.trace := by
  induction records generalizing w deferred with
  | nil => rfl
  | cons record rest ih =>
    by_cases hk : record.Name ∈ nd
    · rw [doFileCleanupLoop_keep nd record rest w deferred hk, ih]
    · by_cases hr : (timeSince w record.BumpTime).1 < 5 * minute
      · rw [doFileCleanupLoop_recent nd record rest w deferred hk hr, ih]
        simp
      · rcases hans : lockAnswer (timeSince w record.BumpTime).2 0
          (Path.ipAddress record.Name) with _ | _ | code
        · rw [doFileCleanupLoop_free nd record rest w deferred hk hr hans, ih,
            RemovePath_freeRequests]
          simp
        · rw [doFileCleanupLoop_busy nd record rest w deferred hk hr hans, ih]
          simp
        · rw [doFileCleanupLoop_fault nd record rest w deferred code hk hr hans, ih]
          simp

theorem doFileCleanup_freeRequests (w : World) (dl : List String) :
    freeRequests (doFileCleanup w dl).2.trace = freeRequests w.trace := by
  unfold doFileCleanup
  cases hl : w.listEnv w.lists with
  | some code => simp [FSLocker.ListFiles, hl]
  | none =>
    simp only [FSLocker.ListFiles, hl, unlockAll_freeRequests,
      doFileCleanupLoop_freeRequests]

theorem freeIPs_freeRequests (w : World) (dl : List String) :
    freeRequests (freeIPs w dl).2.trace
      = if dl = [] then freeRequests w.trace else freeRequests w.trace ++ [dl] := by
  rw [(freeIPs_frame w dl).2]
  split <;> simp

theorem list_ne_append_singleton (l : List (List String)) (x : List String) :
    l ≠ l ++ [x] := by
  intro h
  have := congrArg List.length h
  simp at this

/-! ### Claim C3 -/

/-- C3 (amended): when a `DoGc` call sends the cloud the free request for a
deallocation list, the lease file of every address of that list is still in the
`ip-addresses` directory when the call returns: `doFileCleanup` skips the names of the
deallocation list, so their removal is left to a later pass. -/
theorem DoGc_keeps_lease_file (w : World) (gracePeriod : Int) (dl : List String)
    (hreq : freeRequests (DoGc w gracePeriod).2.trace = freeRequests w.trace ++ [dl]) :
    ∀ ip ∈ dl, hasFile (DoGc w gracePeriod).2.files ip := by
  revert hreq
  unfold DoGc
  rcases hans : lockAnswer w 0 Path.ipConfig with _ | _ | code
  · rw [lockConfiguration_free w hans]
    simp only
    have hfr1 : freeRequests (listed (granted w Path.ipConfig)).trace
        = freeRequests w.trace := by
      show freeRequests (w.trace ++ [Event.lockAttempt Path.ipConfig]) = _
      simp
    cases hl : (granted w Path.ipConfig).listEnv (granted w Path.ipConfig).lists with
    | some c =>
      rw [firstPass_listError _ gracePeriod c hl]
      intro hreq
      simp only [Unlock_trace, freeRequests_unlock, hfr1] at hreq
      exact absurd hreq (list_ne_append_singleton _ _)
    | none =>
      cases hv : (granted w Path.ipConfig).ipv4 with
      | nil =>
        rw [firstPass_empty _ gracePeriod hl hv]
        intro hreq
        simp only [Unlock_trace, freeRequests_unlock, hfr1] at hreq
        exact absurd hreq (list_ne_append_singleton _ _)
      | cons a rest =>
        rw [firstPass_loop _ gracePeriod a rest hl hv]
        have hfr2 := firstPassLoop_freeRequests gracePeriod
          (recordsDictOf (granted w Path.ipConfig).files) rest
          (listed (granted w Path.ipConfig)) [] []
        have hsel := (firstPassLoop_grace gracePeriod
          (recordsDictOf (granted w Path.ipConfig).files) rest
          (listed (granted w Path.ipConfig)) [] []).2
        have hfiles := firstPassLoop_files gracePeriod
          (recordsDictOf (granted w Path.ipConfig).files) rest
          (listed (granted w Path.ipConfig)) [] []
        rcases hfp : firstPassLoop gracePeriod (recordsDictOf (granted w Path.ipConfig).files)
          rest (listed (granted w Path.ipConfig)) [] [] with ⟨⟨dl1, locks, err⟩, w2⟩
        rw [hfp] at hfr2 hsel hfiles
        simp only at hfr2 hsel hfiles
        rw [hfr1] at hfr2
        cases err with
        | some e =>
          intro hreq
          simp only [Unlock_trace, freeRequests_unlock, hfr2] at hreq
          exact absurd hreq (list_ne_append_singleton _ _)
        | none =>
          simp only
          have hfr4 := freeIPs_freeRequests (Unlock w2 ⟨Path.ipConfig⟩) dl1
          have hf4 := (freeIPs_frame (Unlock w2 ⟨Path.ipConfig⟩) dl1).1
          simp only [Unlock_trace, freeRequests_unlock, hfr2, Unlock_files] at hfr4 hf4
          have hkept : ∀ ip ∈ dl1, hasFile w2.files ip := by
            intro ip hip
            rcases hsel ip hip with h0 | ⟨r, hr, _⟩
            · simp at h0
            · obtain ⟨hmem, hname⟩ := recordsDictOf_lookup _ ip r hr
              exact hfiles ip ⟨r, hmem, hname⟩
          rcases hfree : freeIPs (Unlock w2 ⟨Path.ipConfig⟩) dl1 with ⟨_ | e, w4⟩
          · rw [hfree] at hfr4 hf4
            simp only at hfr4 hf4
            intro hreq ip hip
            simp only [Unlock_trace, freeRequests_unlock, unlockAll_freeRequests,
              doFileCleanup_freeRequests, hfr4] at hreq
            have hdl : dl1 = dl := by
              split at hreq
              · exact absurd hreq (list_ne_append_singleton _ _)
              · simpa using hreq
            subst hdl
            simp only [Unlock_files, unlockAll_files]
            exact doFileCleanup_files w4 dl1 ip hip (hf4 ▸ hkept ip hip)
          · rw [hfree] at hfr4 hf4
            simp only at hfr4 hf4
            intro hreq ip hip
            simp only [Unlock_trace, freeRequests_unlock, unlockAll_freeRequests,
              hfr4] at hreq
            have hdl : dl1 = dl := by
              split at hreq
              · exact absurd hreq (list_ne_append_singleton _ _)
              · simpa using hreq
            subst hdl
            simp only [Unlock_files, unlockAll_files]
            exact hf4 ▸ hkept ip hip
  · rw [lockConfiguration_busy w hans]
    intro hreq
    have : freeRequests (timeSleep (attempted w Path.ipConfig) minute).trace
        = freeRequests w.trace := by
      show freeRequests (w.trace ++ [Event.lockAttempt Path.ipConfig]) = _
      simp
    rw [this] at hreq
    exact absurd hreq (list_ne_append_singleton _ _)
  · rw [lockConfiguration_fault w code hans]
    intro hreq
    have : freeRequests (attempted w Path.ipConfig).trace = freeRequests w.trace := by
      show freeRequests (w.trace ++ [Event.lockAttempt Path.ipConfig]) = _
      simp
    rw [this] at hreq
    exact absurd hreq (list_ne_append_singleton _ _)

/-- The amended C3 at the host of scenario S3: the free request for `10.0.0.2` is
sent and the lease file of `10.0.0.2` is still there afterwards. -/
theorem DoGc_keeps_lease_file_witness :
    hasFile (DoGc gcWorld (600 * second)).2.files "10.0.0.2" :=
  DoGc_keeps_lease_file gcWorld (600 * second) ["10.0.0.2"] (by decide) "10.0.0.2"
    (by decide)

/-- C3 as stated fails at the host of scenario S3: `DoGc` succeeds, the cloud is asked
to free `10.0.0.2`, the stale record of `10.0.0.9` is removed, but the lease file of
`10.0.0.2` is not removed and is still listed when the call returns. -/
theorem DoGc_leaves_deallocated_lease :
    (DoGc gcWorld (600 * second)).1 = Go.ret none
    ∧ Event.freeRequest ["10.0.0.2"] ∈ (DoGc gcWorld (600 * second)).2.trace
    ∧ Event.remove (Path.ipAddress "10.0.0.2") ∉ (DoGc gcWorld (600 * second)).2.trace
    ∧ (DoGc gcWorld (600 * second)).2.files.map Record.Name = ["10.0.0.2", "10.0.0.3"] := by
  decide

/-! ### The polling loop never runs out of rounds -/

theorem timeSub_lt (t u timeout : Int) (hto : timeout ≤ maxDuration)
    (h : timeSub t u < timeout) : t - u < timeout := by
  unfold timeSub at h
  by_contra hge
  have h1 : timeout ≤ min maxDuration (t - u) := le_min hto (not_lt.mp hge)
  exact absurd (lt_of_le_of_lt (le_trans h1 (le_max_right _ _)) h) (lt_irrefl _)

/-- Rounds beyond the bound change nothing: once the time left until the timeout is
at most `n` seconds, `n + 1` evaluations of the loop condition are enough. -/
theorem assignPoll_rounds (start timeout : Int) (orig : List String)
    (hto : timeout ≤ maxDuration) (n : Nat) :
    ∀ (w : World) (k : Nat), timeout - (w.now - start) ≤ (n : Int) * second →
      assignPoll start timeout orig (n + 1 + k) w
        = assignPoll start timeout orig (n + 1) w := by
  induction n with
  | zero =>
    intro w k hleft
    have hnot : ¬ (timeSince w start).1 < timeout := by
      intro hlt
      have := timeSub_lt _ _ _ hto hlt
      simp only [timeNow] at this
      have he : (0 : Int) ≤ (w.elapse w.reads : Int) := Int.ofNat_nonneg _
      omega
    have e : 0 + 1 + k = k + 1 := by omega
    rw [e, assignPoll, assignPoll]
    simp only [hnot, if_false]
  | succ m ih =>
    intro w k hleft
    have e : m + 1 + 1 + k = (m + 1 + k) + 1 := by omega
    rw [e, assignPoll, assignPoll]
    simp only
    split
    · split
      · rfl
      · split
        · rfl
        · rename_i w1 hR _
          apply ih
          have hnow : w1.now = w.now + (w.elapse w.reads : Int) := by
            have : (Refresh (timeSince w start).2).2.now = (timeSince w start).2.now := by
              unfold Refresh; split <;> rfl
            rw [hR] at this
            exact this
          have he : (0 : Int) ≤ (w.elapse w.reads : Int) := Int.ofNat_nonneg _
          simp only [timeSleep, hnow, second] at hleft ⊢
          push_cast at hleft
          omega
    · rfl

/-- The fuel of the polling loop of `assignMoreIPs` is never used up: any larger
number of rounds gives the same result and the same world. -/
theorem assignPoll_pollFuel (timeout : Int) (orig : List String)
    (hto : timeout ≤ maxDuration) (w : World) (k : Nat) :
    assignPoll w.now timeout orig (pollFuel timeout + k) w
      = assignPoll w.now timeout orig (pollFuel timeout) w := by
  unfold pollFuel
  apply assignPoll_rounds w.now timeout orig hto ((timeout / second).toNat + 1) w k
  have h1 : timeout / second ≤ ((timeout / second).toNat : Int) := Int.self_le_toNat _
  have h2 : timeout < (timeout / second + 1) * second := by
    have := Int.lt_ediv_add_one_mul_self timeout (show (0 : Int) < second by decide)
    exact this
  push_cast
  nlinarith [show (0 : Int) < second by decide]

/-! ### When `allocateIPv4` expands the pool -/

/-- A run of `doAllocate` either hands out an address together with its lock or
fails with an error and no lock. -/
theorem doAllocateLoop_shape (l : List String) (w : World) :
    (∃ ip, (doAllocateLoop l w).1 = (ip, some ⟨Path.ipAddress ip⟩, none))
      ∨ ∃ e, (doAllocateLoop l w).1 = ("", none, some e) := by
  induction l generalizing w with
  | nil => exact Or.inr ⟨_, rfl⟩
  | cons a rest ih =>
    rcases hans : lockAnswer w 0 (Path.ipAddress a) with _ | _ | code
    · left
      rw [doAllocateLoop, tryAllocate, ExclusiveLock_free w _ _ hans]
      exact ⟨a, rfl⟩
    · rw [doAllocateLoop, tryAllocate, ExclusiveLock_busy w _ hans]
      simp only [ne_eq, not_true_eq_false, if_false]
      exact ih _
    · right
      rw [doAllocateLoop, tryAllocate, ExclusiveLock_fault w _ _ _ hans]
      exact ⟨_, rfl⟩

theorem allocateIPv4_refines (w : World) (b t : Int) :
    allocateIPv4 w b t = allocateIPv4Spec w b t := by
  unfold allocateIPv4 allocateIPv4Spec
  split
  · rfl
  · split
    · rfl
    · rename_i cfg w1 _ _ w2 _
      rcases doAllocateLoop_shape w2.ipv4 w2 with ⟨ip, h⟩ | ⟨e, h⟩
      · have hd : doAllocate w2 = ((ip, some ⟨Path.ipAddress ip⟩, none), (doAllocate w2).2) :=
          Prod.ext h rfl
        rw [hd]
        simp
      · have hd : doAllocate w2 = (("", none, some e), (doAllocate w2).2) :=
          Prod.ext h rfl
        rw [hd]
        by_cases he : e = Err.errNoFreeIPAddressFound
        · subst he
          simp [expandAndRetry]
        · simp [he]

@[simp] theorem assignRequests_lockAttempt (t : List Event) (p : Path) :
    assignRequests (t ++ [Event.lockAttempt p]) = assignRequests t := by
  simp [assignRequests, List.filterMap_append]

@[simp] theorem assignRequests_unlock (t : List Event) (p : Path) :
    assignRequests (t ++ [Event.unlock p]) = assignRequests t := by
  simp [assignRequests, List.filterMap_append]

theorem Refresh_ok (w : World) (ips : List String)
    (h : w.metadata w.refreshes = Except.ok ips) :
    Refresh w = (none, { w with refreshes := w.refreshes + 1, ipv4 := ips }) := by
  simp [Refresh, h]

theorem Refresh_error (w : World) (code : Nat)
    (h : w.metadata w.refreshes = Except.error code) :
    Refresh w = (some (Err.ext code), { w with refreshes := w.refreshes + 1 }) := by
  simp [Refresh, h]

@[simp] theorem Bump_lockAttempts (w : World) (l : ExclusiveLock) :
    (Bump w l).lockAttempts = w.lockAttempts := by
  unfold Bump; split <;> rfl

theorem doAllocateLoop_counts (l : List String) (w : World) :
    assignRequests (doAllocateLoop l w).2.trace = assignRequests w.trace
      ∧ (doAllocateLoop l w).2.lockAttempts ≤ w.lockAttempts + l.length := by
  induction l generalizing w with
  | nil => exact ⟨rfl, Nat.le_refl _⟩
  | cons a rest ih =>
    rcases hans : lockAnswer w 0 (Path.ipAddress a) with _ | _ | code
    · rw [doAllocateLoop, tryAllocate, ExclusiveLock_free w _ _ hans]
      refine ⟨by simp, ?_⟩
      show (Bump (granted w (Path.ipAddress a)) ⟨Path.ipAddress a⟩).lockAttempts
        ≤ w.lockAttempts + (a :: rest).length
      rw [Bump_lockAttempts]
      simp only [granted, List.length_cons]
      omega
    · rw [doAllocateLoop, tryAllocate, ExclusiveLock_busy w _ hans]
      simp only [ne_eq, not_true_eq_false, if_false]
      obtain ⟨h1, h2⟩ := ih (attempted w (Path.ipAddress a))
      simp only [attempted] at h1 h2
      refine ⟨by rw [h1]; simp, ?_⟩
      simp only [List.length_cons] at h2 ⊢
      omega
    · rw [doAllocateLoop, tryAllocate, ExclusiveLock_fault w _ _ _ hans]
      simp only [ne_eq, reduceCtorEq, not_false_eq_true, if_true, List.length_cons]
      refine ⟨by simp, ?_⟩
      omega

theorem Refresh_lockAttempts (w : World) : (Refresh w).2.lockAttempts = w.lockAttempts := by
  unfold Refresh; split <;> rfl

theorem assignPoll_lockAttempts (start timeout : Int) (orig : List String) (fuel : Nat)
    (w : World) : (assignPoll start timeout orig fuel w).2.lockAttempts = w.lockAttempts := by
  induction fuel generalizing w with
  | zero => rfl
  | succ n ih =>
    unfold assignPoll
    simp only
    split
    · have h := Refresh_lockAttempts (timeSince w start).2
      split
      · simp_all [timeSince, timeNow]
      · split
        · simp_all [timeSince, timeNow]
        · rw [ih]; simp_all [timeSince, timeNow, timeSleep]
    · rfl

theorem assignMoreIPs_lockAttempts (w : World) (b t : Int) :
    (assignMoreIPs w b t).2.lockAttempts = w.lockAttempts := by
  unfold assignMoreIPs
  split
  · rfl
  · cases h : w.cloudEnv w.cloudCalls with
    | some code => simp [AssignPrivateIpAddresses, h]
    | none => simp [AssignPrivateIpAddresses, h, assignPoll_lockAttempts, timeNow]

theorem expandAndRetry_lockAttempts (w : World) (cfg : ExclusiveLock) (b t : Int) :
    (expandAndRetry w cfg b t).2.lockAttempts
      ≤ w.lockAttempts + (expandAndRetry w cfg b t).2.ipv4.length := by
  have h1 := assignMoreIPs_lockAttempts w b t
  unfold expandAndRetry
  split
  · rename_i e w1 heq
    rw [heq] at h1
    simp only at h1
    show w1.lockAttempts ≤ _
    omega
  · rename_i w1 heq
    rw [heq] at h1
    simp only at h1
    have h2 := (doAllocateLoop_counts w1.ipv4 w1).2
    show (doAllocate w1).2.lockAttempts ≤ w.lockAttempts + (doAllocate w1).2.ipv4.length
    rw [doAllocate, doAllocateLoop_ipv4]
    omega

theorem Refresh_none_length (w w2 : World) (h : Refresh w = (none, w2)) :
    w2.ipv4.length = refreshedLength w := by
  cases hm : w.metadata w.refreshes with
  | error c => rw [Refresh_error w c hm] at h; simp at h
  | ok ips =>
    rw [Refresh_ok w ips hm] at h
    simp only [Prod.mk.injEq, true_and] at h
    rw [← h]
    simp [refreshedLength, hm]

theorem allocateIPv4Spec_counts (w : World) (b t : Int) :
    (assignRequests (allocateIPv4Spec w b t).2.trace ≠ assignRequests w.trace →
      ∃ cfg w1 w2, lockConfiguration w = (Except.ok cfg, w1) ∧ Refresh w1 = (none, w2)
        ∧ (doAllocate w2).1.2.2 = some Err.errNoFreeIPAddressFound)
    ∧ (allocateIPv4Spec w b t).2.lockAttempts
        ≤ w.lockAttempts + 1 + refreshedLength w + (allocateIPv4Spec w b t).2.ipv4.length := by
  unfold allocateIPv4Spec
  rcases hans : lockAnswer w 0 Path.ipConfig with _ | _ | code
  · rw [lockConfiguration_free w hans]
    simp only
    have hT := Refresh_trace (granted w Path.ipConfig)
    have hL := Refresh_lockAttempts (granted w Path.ipConfig)
    rcases hR : Refresh (granted w Path.ipConfig) with ⟨_ | e, w2⟩
    · rw [hR] at hT hL
      simp only [granted_trace] at hT
      simp only at hL
      have hlen : w2.ipv4.length = refreshedLength w :=
        Refresh_none_length (granted w Path.ipConfig) w2 hR
      obtain ⟨hc1, hc2⟩ := doAllocateLoop_counts w2.ipv4 w2
      rw [← doAllocate] at hc1 hc2
      have hg : (granted w Path.ipConfig).lockAttempts = w.lockAttempts + 1 := rfl
      simp only
      split
      · rename_i hno
        refine ⟨fun _ => ⟨_, _, _, rfl, hR, hno⟩, ?_⟩
        have := expandAndRetry_lockAttempts (doAllocate w2).2 ⟨Path.ipConfig⟩ b t
        omega
      · refine ⟨fun h => absurd ?_ h, ?_⟩
        · simp only [Unlock_trace, assignRequests_unlock, hc1, hT, assignRequests_lockAttempt]
        · show (doAllocate w2).2.lockAttempts ≤ _
          omega
    · rw [hR] at hT hL
      simp only [granted_trace] at hT
      simp only at hL
      have hg : (granted w Path.ipConfig).lockAttempts = w.lockAttempts + 1 := rfl
      refine ⟨fun h => absurd ?_ h, ?_⟩
      · simp only [Unlock_trace, assignRequests_unlock, hT, assignRequests_lockAttempt]
      · show w2.lockAttempts ≤ _
        omega
  · rw [lockConfiguration_busy w hans]
    refine ⟨fun h => absurd ?_ h, ?_⟩
    · show assignRequests (w.trace ++ [Event.lockAttempt Path.ipConfig]) = _
      simp only [assignRequests_lockAttempt]
    · show w.lockAttempts + 1 ≤ _
      omega
  · rw [lockConfiguration_fault w code hans]
    refine ⟨fun h => absurd ?_ h, ?_⟩
    · show assignRequests (w.trace ++ [Event.lockAttempt Path.ipConfig]) = _
      simp only [assignRequests_lockAttempt]
    · show w.lockAttempts + 1 ≤ _
      omega

/-! ### Claim C11 -/

/-- C11: `allocateIPv4` is the algorithm of the spec: after the config lock and
`Refresh` succeeded it expands the pool (`assignMoreIPs`, then `doAllocate` once
more) exactly when the first `doAllocate` returned `errNoFreeIPAddressFound`; a
successful first `doAllocate` is returned with its address and lock, and any other
error is returned as it is, in both cases without expansion.  A cloud assign request
is only ever sent on the expansion path, and the call makes at most one lock attempt
for the config lock, one per address of the refreshed list (first `doAllocate`) and
one per address of the final list (second `doAllocate`): `doAllocate` runs at most
twice. -/
theorem allocateIPv4_expansion (w : World) (batchSize ipRefreshTimeout : Int) :
    allocateIPv4 w batchSize ipRefreshTimeout = allocateIPv4Spec w batchSize ipRefreshTimeout
    ∧ (∀ cfg w1 w2, lockConfiguration w = (Except.ok cfg, w1) → Refresh w1 = (none, w2) →
        ((doAllocate w2).1.2.2 = some Err.errNoFreeIPAddressFound →
            allocateIPv4 w batchSize ipRefreshTimeout
              = expandAndRetry (doAllocate w2).2 cfg batchSize ipRefreshTimeout)
        ∧ (∀ ip lock, (doAllocate w2).1 = (ip, some lock, none) →
            allocateIPv4 w batchSize ipRefreshTimeout
              = ((ip, some lock, none), Unlock (doAllocate w2).2 cfg))
        ∧ (∀ e, (doAllocate w2).1.2.2 = some e → e ≠ Err.errNoFreeIPAddressFound →
            allocateIPv4 w batchSize ipRefreshTimeout
              = (("", none, some e), Unlock (doAllocate w2).2 cfg)))
    ∧ (assignRequests (allocateIPv4 w batchSize ipRefreshTimeout).2.trace
          ≠ assignRequests w.trace →
        ∃ cfg w1 w2, lockConfiguration w = (Except.ok cfg, w1) ∧ Refresh w1 = (none, w2)
          ∧ (doAllocate w2).1.2.2 = some Err.errNoFreeIPAddressFound)
    ∧ (allocateIPv4 w batchSize ipRefreshTimeout).2.lockAttempts
        ≤ w.lockAttempts + 1 + refreshedLength w
          + (allocateIPv4 w batchSize ipRefreshTimeout).2.ipv4.length := by
  have href := allocateIPv4_refines w batchSize ipRefreshTimeout
  refine ⟨href, ?_, ?_, ?_⟩
  · intro cfg w1 w2 hcfg hR
    rw [href]
    unfold allocateIPv4Spec
    rw [hcfg]
    simp only [hR]
    refine ⟨fun h => by rw [if_pos h], fun ip lock h => ?_, fun e h hne => ?_⟩
    · rw [if_neg (by rw [h]; simp), h]
    · have hshape : (doAllocate w2).1 = ("", none, some e) := by
        rcases doAllocateLoop_shape w2.ipv4 w2 with ⟨ip, h1⟩ | ⟨e1, h1⟩
        · rw [doAllocate, h1] at h; simp at h
        · rw [doAllocate, h1] at h
          simp only [Option.some.injEq] at h
          rw [doAllocate, h1, h]
      rw [if_neg (by rw [h]; simpa using hne), hshape]
  · rw [href]
    exact (allocateIPv4Spec_counts w batchSize ipRefreshTimeout).1
  · rw [href]
    exact (allocateIPv4Spec_counts w batchSize ipRefreshTimeout).2

/-- C11 at the third call of scenario S1: an assign request was sent, so the config
lock and the refresh succeeded and the first `doAllocate` found no free address. -/
theorem allocateIPv4_expansion_witness :
    ∃ cfg w1 w2, lockConfiguration expandingWorld = (Except.ok cfg, w1)
      ∧ Refresh w1 = (none, w2)
      ∧ (doAllocate w2).1.2.2 = some Err.errNoFreeIPAddressFound :=
  (allocateIPv4_expansion expandingWorld 4 (5 * second)).2.2.1 (by decide)

/-! ### Claim C15 -/

/-- With at least one address on the interface `DoGc` returns: it does not panic. -/
theorem DoGc_returns (w : World) (g : Int) (hne : w.ipv4 ≠ []) :
    ∃ r, (DoGc w g).1 = Go.ret r := by
  unfold DoGc
  rcases hans : lockAnswer w 0 Path.ipConfig with _ | _ | code
  · rw [lockConfiguration_free w hans]
    simp only
    cases hl : (granted w Path.ipConfig).listEnv (granted w Path.ipConfig).lists with
    | some c =>
      rw [firstPass_listError _ g c hl]
      exact ⟨_, rfl⟩
    | none =>
      cases hv : (granted w Path.ipConfig).ipv4 with
      | nil => exact absurd hv hne
      | cons a rest =>
        rw [firstPass_loop _ g a rest hl hv]
        rcases hfp : firstPassLoop g (recordsDictOf (granted w Path.ipConfig).files)
          rest (listed (granted w Path.ipConfig)) [] [] with ⟨⟨dl, locks, err⟩, w2⟩
        cases err with
        | some e => exact ⟨_, rfl⟩
        | none =>
          simp only
          rcases hfree : freeIPs (Unlock w2 ⟨Path.ipConfig⟩) dl with ⟨_ | e, w4⟩
          · exact ⟨_, rfl⟩
          · exact ⟨_, rfl⟩
  · rw [lockConfiguration_busy w hans]
    exact ⟨_, rfl⟩
  · rw [lockConfiguration_fault w code hans]
    exact ⟨_, rfl⟩

/-- With at least one address on the interface `firstPass` returns: the slice is in
range. -/
theorem firstPass_returns (w : World) (g : Int) (hne : w.ipv4 ≠ []) :
    ∃ out, (firstPass w g).1 = Go.ret out := by
  cases hl : w.listEnv w.lists with
  | some c =>
    rw [firstPass_listError w g c hl]
    exact ⟨_, rfl⟩
  | none =>
    cases hv : w.ipv4 with
    | nil => exact absurd hv hne
    | cons a rest =>
      rw [firstPass_loop w g a rest hl hv]
      exact ⟨_, rfl⟩

/-- C15 (amended): `firstPass` slices the IPv4 list from index 1 without a length
check.  With at least one address the slice is in range and `firstPass` and `DoGc`
return.  With an empty list the slice is out of range: once the lease listing has
succeeded `firstPass` panics, and so does `DoGc` once it also holds the config lock.
A failing listing is returned as an error before the slice is evaluated. -/
theorem firstPass_slice (w : World) (gracePeriod : Int) :
    (w.ipv4 ≠ [] → (∃ out, (firstPass w gracePeriod).1 = Go.ret out)
        ∧ ∃ r, (DoGc w gracePeriod).1 = Go.ret r)
    ∧ (w.ipv4 = [] → w.listEnv w.lists = none →
        (∃ msg, (firstPass w gracePeriod).1 = Go.panicked msg)
        ∧ (lockAnswer w 0 Path.ipConfig = LockAnswer.free →
            ∃ msg, (DoGc w gracePeriod).1 = Go.panicked msg))
    ∧ (∀ code, w.listEnv w.lists = some code →
        (firstPass w gracePeriod).1 = Go.ret ([], [], some (Err.ext code))) := by
  refine ⟨fun hne => ⟨?_, DoGc_returns w gracePeriod hne⟩, fun hv hl => ⟨?_, fun hans => ?_⟩,
    fun code hl => ?_⟩
  · exact firstPass_returns w gracePeriod hne
  · rw [firstPass_empty w gracePeriod hl hv]
    exact ⟨_, rfl⟩
  · unfold DoGc
    rw [lockConfiguration_free w hans]
    simp only
    rw [firstPass_empty (granted w Path.ipConfig) gracePeriod hl hv]
    exact ⟨_, rfl⟩
  · rw [firstPass_listError w gracePeriod code hl]

/-- The amended C15 on a host with no address and a listable lease directory:
`firstPass` panics on the slice. -/
theorem firstPass_slice_witness :
    ∃ msg, (firstPass emptyWorld (600 * second)).1 = Go.panicked msg :=
  ((firstPass_slice emptyWorld (600 * second)).2.1 (by decide) (by decide)).1

/-- C15 as stated fails on a host with no address whose lease directory cannot be
listed: `firstPass` and `DoGc` return the listing error, they do not panic. -/
theorem firstPass_empty_list_returns_error :
    emptyUnlistableWorld.ipv4 = []
    ∧ (firstPass emptyUnlistableWorld (600 * second)).1
        = Go.ret ([], [], some (Err.ext 3))
    ∧ (DoGc emptyUnlistableWorld (600 * second)).1 = Go.ret (some (Err.ext 3)) := by
  decide

/-! ### What `doFileCleanup` removes -/

theorem RemovePath_frame (w : World) (p : Path) :
    (FSLocker.RemovePath w p).2.now = w.now
      ∧ (FSLocker.RemovePath w p).2.lockEnv = w.lockEnv := by
  unfold FSLocker.RemovePath
  cases w.removeEnv p with
  | some code => exact ⟨rfl, rfl⟩
  | none => cases p <;> exact ⟨rfl, rfl⟩


theorem doFileCleanup_error (w : World) (dl : List String) (e : Err) :
    (doFileCleanup w dl).1 = some e
      ↔ ∃ code, w.listEnv w.lists = some code ∧ e = Err.ext code := by
  unfold doFileCleanup
  cases hl : w.listEnv w.lists with
  | some code => simp [FSLocker.ListFiles, hl, eq_comm]
  | none => simp [FSLocker.ListFiles, hl]

/-! ### The role ARN of `GetSessionFromAccountAndRegion` -/

theorem roleARN_string (account segment : String) :
    ARN.String ⟨"aws", "iam", "", account, "role/" ++ segment⟩
      = "arn:aws:iam::" ++ account ++ ":role/" ++ segment := by
  simp only [ARN.String, String.append_assoc]
  rfl

theorem getCallerIdentity_frame (m : EC2SessionManager) :
    (getCallerIdentity m).2.arnParse = m.arnParse
      ∧ (getCallerIdentity m).2.builtARNs = m.builtARNs := by
  unfold getCallerIdentity
  cases m.callerIdentity with
  | some ret => exact ⟨rfl, rfl⟩
  | none =>
    cases m.stsEnv with
    | error code => exact ⟨rfl, rfl⟩
    | ok output => exact ⟨rfl, rfl⟩

theorem NewSession_frame (m : EC2SessionManager) :
    (NewSession m).2.arnParse = m.arnParse
      ∧ (NewSession m).2.builtARNs = m.builtARNs
      ∧ (NewSession m).2.assumedEnv = m.assumedEnv
      ∧ (NewSession m).2.sessions = m.sessions := by
  unfold NewSession
  cases m.newSessionEnv m.newSessions with
  | some code => exact ⟨rfl, rfl, rfl, rfl⟩
  | none => exact ⟨rfl, rfl, rfl, rfl⟩

/-! ### Claim C13 -/

/-- C13 (amended): on a cache miss, once the caller identity and the base session
were obtained: when the requested account differs from the caller's, `arn.Parse`
accepts the caller's ARN and its resource has a second `/`-separated segment, the
role ARN built for the assumed credentials has partition `aws`, service `iam`, empty
region, the requested account and resource `role/` followed by that segment, that is
`arn:aws:iam::<target>:role/<segment>`, and a session that is returned carries it;
when `arn.Parse` rejects the caller's ARN its error is returned and no role ARN is
built; when the requested account is the caller's no role ARN is built. -/
theorem GetSession_role_arn (m : EC2SessionManager) (sessionKey : Key)
    (myIdentity : CallerIdentity) (m1 : EC2SessionManager)
    (hmiss : m.sessions.lookup sessionKey = none)
    (hid : getCallerIdentity m = (Except.ok myIdentity, m1))
    (hsession : (NewSession m1).1 = none) :
    (StringValue myIdentity.Account ≠ sessionKey.AccountID →
      ∀ currentARN segment,
        m.arnParse (StringValue myIdentity.Arn) = Except.ok currentARN →
        (Split currentARN.Resource '/')[1]? = some segment →
        (GetSessionFromAccountAndRegion m sessionKey).2.builtARNs
            = m.builtARNs ++ [⟨"aws", "iam", "", sessionKey.AccountID, "role/" ++ segment⟩]
          ∧ ARN.String ⟨"aws", "iam", "", sessionKey.AccountID, "role/" ++ segment⟩
              = "arn:aws:iam::" ++ sessionKey.AccountID ++ ":role/" ++ segment
          ∧ ∀ s, (GetSessionFromAccountAndRegion m sessionKey).1 = Go.ret (Except.ok s) →
              s.roleARN
                = some ("arn:aws:iam::" ++ sessionKey.AccountID ++ ":role/" ++ segment))
    ∧ (StringValue myIdentity.Account ≠ sessionKey.AccountID →
      ∀ code, m.arnParse (StringValue myIdentity.Arn) = Except.error code →
        (GetSessionFromAccountAndRegion m sessionKey).1
            = Go.ret (Except.error (Err.ext code))
          ∧ (GetSessionFromAccountAndRegion m sessionKey).2.builtARNs = m.builtARNs)
    ∧ (StringValue myIdentity.Account = sessionKey.AccountID →
        (GetSessionFromAccountAndRegion m sessionKey).2.builtARNs = m.builtARNs
          ∧ ∃ s, (GetSessionFromAccountAndRegion m sessionKey).1 = Go.ret (Except.ok s)
              ∧ s.roleARN = none) := by
  have hf1 := getCallerIdentity_frame m
  rw [hid] at hf1
  simp only at hf1
  have hf2 := NewSession_frame m1
  rcases hN : NewSession m1 with ⟨_ | e, m2⟩
  · rw [hN] at hf2
    simp only at hf2
    have hparse2 : m2.arnParse = m.arnParse := by rw [hf2.1, hf1.1]
    have hbuilt2 : m2.builtARNs = m.builtARNs := by rw [hf2.2.1, hf1.2]
    refine ⟨fun hacct currentARN segment hparse hseg => ?_, fun hacct code hparse => ?_,
      fun hacct => ?_⟩
    · have hparse' : m2.arnParse (StringValue myIdentity.Arn) = Except.ok currentARN := by
        rw [hparse2]; exact hparse
      unfold GetSessionFromAccountAndRegion
      rw [hmiss, hid]
      simp only [hN, hacct, ne_eq, not_false_eq_true, if_true, hparse', hseg]
      have hf3 := NewSession_frame
        { m2 with builtARNs := m2.builtARNs
            ++ [⟨"aws", "iam", "", sessionKey.AccountID, "role/" ++ segment⟩] }
      rcases hN3 : NewSession
        { m2 with builtARNs := m2.builtARNs
            ++ [⟨"aws", "iam", "", sessionKey.AccountID, "role/" ++ segment⟩] }
        with ⟨_ | e3, m4⟩
      · rw [hN3] at hf3
        simp only at hf3
        cases ha : m4.assumedEnv (ARN.String
          ⟨"aws", "iam", "", sessionKey.AccountID, "role/" ++ segment⟩) with
        | some code =>
          simp only [ha]
          exact ⟨by rw [hf3.2.1, hbuilt2], roleARN_string _ _, by simp⟩
        | none =>
          simp only [ha]
          refine ⟨by rw [hf3.2.1, hbuilt2], roleARN_string _ _, ?_⟩
          intro s hs
          simp only [Go.ret.injEq, Except.ok.injEq] at hs
          rw [← hs, roleARN_string]
      · rw [hN3] at hf3
        simp only at hf3
        exact ⟨by rw [hf3.2.1, hbuilt2], roleARN_string _ _, by simp⟩
    · have hparse' : m2.arnParse (StringValue myIdentity.Arn) = Except.error code := by
        rw [hparse2]; exact hparse
      unfold GetSessionFromAccountAndRegion
      rw [hmiss, hid]
      simp only [hN, hacct, ne_eq, not_false_eq_true, if_true, hparse']
      exact ⟨trivial, hbuilt2⟩
    · unfold GetSessionFromAccountAndRegion
      rw [hmiss, hid]
      simp only [hN, hacct, ne_eq, not_true_eq_false, if_false]
      exact ⟨hbuilt2, _, rfl, rfl⟩
  · rw [hN] at hsession
    simp at hsession

/-- The amended C13 on a host running under the role `titus-role` of account
`111111111111` that asks for a session in account `222222222222`. -/
theorem GetSession_role_arn_witness :
    (GetSessionFromAccountAndRegion roleManager ⟨"222222222222", "us-east-1"⟩).2.builtARNs
        = roleManager.builtARNs ++ [⟨"aws", "iam", "", "222222222222", "role/" ++ "titus-role"⟩]
      ∧ ARN.String ⟨"aws", "iam", "", "222222222222", "role/" ++ "titus-role"⟩
          = "arn:aws:iam::" ++ "222222222222" ++ ":role/" ++ "titus-role"
      ∧ ∀ s, (GetSessionFromAccountAndRegion roleManager ⟨"222222222222", "us-east-1"⟩).1
            = Go.ret (Except.ok s) →
          s.roleARN = some ("arn:aws:iam::" ++ "222222222222" ++ ":role/" ++ "titus-role") :=
  (GetSession_role_arn roleManager ⟨"222222222222", "us-east-1"⟩
    ⟨some "111111111111", some "arn:aws:sts::111111111111:assumed-role/titus-role/i-0abc"⟩
    (getCallerIdentity roleManager).2 (by decide) rfl (by decide)).1 (by decide)
    ⟨"aws", "sts", "", "111111111111", "assumed-role/titus-role/i-0abc"⟩ "titus-role"
    rfl (by decide)

/-- C13 as stated fails for two callers that ask for a session in another account:
with the root ARN `arn:aws:iam::111111111111:root`, whose resource has no second
segment, the call panics on the index and no role ARN is built; with a caller ARN
that `arn.Parse` rejects the call returns the parse error and no role ARN is
built. -/
theorem GetSession_no_role_arn :
    (GetSessionFromAccountAndRegion rootManager ⟨"222222222222", "us-east-1"⟩).1
        = Go.panicked "index out of range [1]"
    ∧ (GetSessionFromAccountAndRegion rootManager ⟨"222222222222", "us-east-1"⟩).2.builtARNs
        = []
    ∧ (GetSessionFromAccountAndRegion unparsedManager ⟨"222222222222", "us-east-1"⟩).1
        = Go.ret (Except.error (Err.ext 1))
    ∧ (GetSessionFromAccountAndRegion unparsedManager
        ⟨"222222222222", "us-east-1"⟩).2.builtARNs = [] :=
  ⟨rfl, by decide, rfl, by decide⟩

/-! ### `doFileCleanup`, record by record -/

theorem RemovePath_counts (w : World) (p : Path) :
    (FSLocker.RemovePath w p).2.lockAttempts = w.lockAttempts
      ∧ (FSLocker.RemovePath w p).2.removeEnv = w.removeEnv := by
  unfold FSLocker.RemovePath
  cases w.removeEnv p with
  | some code => exact ⟨rfl, rfl⟩
  | none => cases p <;> exact ⟨rfl, rfl⟩

theorem RemovePath_failed (w : World) (p : Path) (code : Nat)
    (h : w.removeEnv p = some code) : (FSLocker.RemovePath w p).2.files = w.files := by
  simp [FSLocker.RemovePath, h]

theorem unlockAll_lockAttempts (locks : List ExclusiveLock) (w : World) :
    (unlockAll w locks).lockAttempts = w.lockAttempts := by
  induction locks generalizing w with
  | nil => rfl
  | cons a rest ih => rw [unlockAll, List.foldl_cons, ← unlockAll, ih]; rfl

/-- One round of the loop of `doFileCleanup`: the loop goes on from a world `w'` in
which the clock and the attempt counter have not gone back and the locks held before
are still held.  A record that is not protected has had its age measured by then, and
one that is also old enough has had its lock tried.  A lease file present before the
round and absent after it is that of the record of the round: the record is not
protected, its measured age is at least 5 minutes, its lock was granted, and the
removal did not fail. -/
theorem doFileCleanupLoop_step (nd : List String) (record : Record) (w : World) :
    ∃ (w' : World) (g : List ExclusiveLock → List ExclusiveLock),
      (∀ l d, doFileCleanupLoop nd (record :: l) w d = doFileCleanupLoop nd l w' (g d))
      ∧ w.now ≤ w'.now ∧ w.lockAttempts ≤ w'.lockAttempts ∧ w'.lockEnv = w.lockEnv
      ∧ w'.removeEnv = w.removeEnv ∧ (∀ p, p ∈ w.held → p ∈ w'.held)
      ∧ (record.Name ∉ nd → (timeSince w record.BumpTime).2.now ≤ w'.now)
      ∧ (record.Name ∉ nd → 5 * minute ≤ (timeSince w record.BumpTime).1 →
          w.lockAttempts < w'.lockAttempts)
      ∧ (∀ x, hasFile w.files x → ¬ hasFile w'.files x →
          record.Name = x ∧ x ∉ nd ∧ 5 * minute ≤ (timeSince w record.BumpTime).1
            ∧ lockAnswer (timeSince w record.BumpTime).2 0 (Path.ipAddress x)
                = LockAnswer.free
            ∧ w.removeEnv (Path.ipAddress x) = none) := by
  by_cases hk : record.Name ∈ nd
  · exact ⟨w, id, fun l d => doFileCleanupLoop_keep nd record l w d hk, le_refl _,
      le_refl _, rfl, rfl, fun p hp => hp, fun h => absurd hk h, fun h => absurd hk h,
      fun x h hn => absurd h hn⟩
  · have hread := timeSince_now_le w record.BumpTime
    by_cases hr : (timeSince w record.BumpTime).1 < 5 * minute
    · exact ⟨(timeSince (timeSince w record.BumpTime).2 record.BumpTime).2, id,
        fun l d => doFileCleanupLoop_recent nd record l w d hk hr,
        le_trans hread (timeSince_now_le _ _), Nat.le_refl _, rfl, rfl, fun p hp => hp,
        fun _ => timeSince_now_le _ _, fun _ h5 => absurd hr (not_lt.mpr h5),
        fun x h hn => absurd h hn⟩
    · rcases hans : lockAnswer (timeSince w record.BumpTime).2 0
        (Path.ipAddress record.Name) with _ | _ | code
      · have hF := RemovePath_frame
          (granted (timeSince w record.BumpTime).2 (Path.ipAddress record.Name))
          (Path.ipAddress record.Name)
        have hC := RemovePath_counts
          (granted (timeSince w record.BumpTime).2 (Path.ipAddress record.Name))
          (Path.ipAddress record.Name)
        have hH := RemovePath_held
          (granted (timeSince w record.BumpTime).2 (Path.ipAddress record.Name))
          (Path.ipAddress record.Name)
        refine ⟨(FSLocker.RemovePath
            (granted (timeSince w record.BumpTime).2 (Path.ipAddress record.Name))
            (Path.ipAddress record.Name)).2, fun d => ⟨Path.ipAddress record.Name⟩ :: d,
          fun l d => doFileCleanupLoop_free nd record l w d hk hr hans, ?_, ?_, ?_, ?_, ?_,
          ?_, ?_, ?_⟩
        · rw [hF.1]; exact hread
        · rw [hC.1]; exact Nat.le_succ _
        · rw [hF.2]; rfl
        · rw [hC.2]; rfl
        · intro p hp
          rw [hH]
          exact List.mem_cons_of_mem _ hp
        · intro _
          rw [hF.1]
          exact le_refl _
        · intro _ _
          rw [hC.1]
          exact Nat.lt_succ_self _
        · intro x h hn
          have hname : record.Name = x := by
            by_contra hne
            apply hn
            apply hasFile_RemovePath _ _ x (fun heq => hne heq.symm)
            show hasFile (touchFile w.files (Path.ipAddress record.Name)
              (timeSince w record.BumpTime).2.now) x
            exact hasFile_touchFile w.files _ _ x h
          refine ⟨hname, fun hmem => hk (hname ▸ hmem), not_lt.mp hr, hname ▸ hans, ?_⟩
          cases hre : w.removeEnv (Path.ipAddress x) with
          | none => rfl
          | some code =>
            exfalso
            apply hn
            have hre' : (granted (timeSince w record.BumpTime).2
                (Path.ipAddress record.Name)).removeEnv (Path.ipAddress record.Name)
                = some code := by
              rw [hname]; exact hre
            rw [RemovePath_failed _ _ code hre']
            show hasFile (touchFile w.files (Path.ipAddress record.Name)
              (timeSince w record.BumpTime).2.now) x
            exact hasFile_touchFile w.files _ _ x h
      · exact ⟨attempted (timeSince w record.BumpTime).2 (Path.ipAddress record.Name), id,
          fun l d => doFileCleanupLoop_busy nd record l w d hk hr hans, hread,
          Nat.le_succ _, rfl, rfl, fun p hp => hp, fun _ => le_refl _,
          fun _ _ => Nat.lt_succ_self _, fun x h hn => absurd h hn⟩
      · exact ⟨attempted (timeSince w record.BumpTime).2 (Path.ipAddress record.Name), id,
          fun l d => doFileCleanupLoop_fault nd record l w d code hk hr hans, hread,
          Nat.le_succ _, rfl, rfl, fun p hp => hp, fun _ => le_refl _,
          fun _ _ => Nat.lt_succ_self _, fun x h hn => absurd h hn⟩

/-- The world the loop of `doFileCleanup` reaches does not depend on the unlocks
deferred so far. -/
theorem doFileCleanupLoop_world (nd : List String) (l : List Record) (w : World)
    (d : List ExclusiveLock) :
    (doFileCleanupLoop nd l w d).1 = (doFileCleanupLoop nd l w []).1 := by
  induction l generalizing w d with
  | nil => rfl
  | cons record rest ih =>
    obtain ⟨w', g, hstep, _⟩ := doFileCleanupLoop_step nd record w
    rw [hstep rest d, hstep rest [], ih w' (g d), ih w' (g [])]

theorem examinedAt_zero (nd : List String) (records : List Record) (w : World) :
    examinedAt nd records w 0 = w := by
  simp [examinedAt, doFileCleanupLoop]

/-- The loop comes to position `i + 1` of a listing in the world in which, after the
round of the first record, it comes to position `i` of the remaining records. -/
theorem examinedAt_succ (nd : List String) (record : Record) (rest : List Record)
    (w w' : World) (i : Nat) (g : List ExclusiveLock → List ExclusiveLock)
    (hstep : ∀ l d, doFileCleanupLoop nd (record :: l) w d = doFileCleanupLoop nd l w' (g d)) :
    examinedAt nd (record :: rest) w (i + 1) = examinedAt nd rest w' i := by
  unfold examinedAt
  rw [List.take_succ_cons, hstep, doFileCleanupLoop_world]

/-- The loop of `doFileCleanup` goes on from position `i` of the listing in the world
`examinedAt` names. -/
theorem doFileCleanupLoop_from (nd : List String) (records : List Record) (w : World)
    (d : List ExclusiveLock) (i : Nat) :
    ∃ d', doFileCleanupLoop nd records w d
      = doFileCleanupLoop nd (records.drop i) (examinedAt nd records w i) d' := by
  induction i generalizing records w d with
  | zero => exact ⟨d, by rw [examinedAt_zero]; rfl⟩
  | succ i ih =>
    cases records with
    | nil => exact ⟨d, by simp [examinedAt, doFileCleanupLoop]⟩
    | cons record rest =>
      obtain ⟨w', g, hstep, _⟩ := doFileCleanupLoop_step nd record w
      obtain ⟨d', hd'⟩ := ih rest w' (g d)
      exact ⟨d', by rw [hstep rest d, examinedAt_succ nd record rest w w' i g hstep, hd']; rfl⟩

theorem doFileCleanupLoop_frame (nd : List String) (records : List Record) (w : World)
    (d : List ExclusiveLock) :
    w.now ≤ (doFileCleanupLoop nd records w d).1.now
      ∧ w.lockAttempts ≤ (doFileCleanupLoop nd records w d).1.lockAttempts
      ∧ (doFileCleanupLoop nd records w d).1.lockEnv = w.lockEnv
      ∧ (doFileCleanupLoop nd records w d).1.removeEnv = w.removeEnv
      ∧ ∀ p, p ∈ w.held → p ∈ (doFileCleanupLoop nd records w d).1.held := by
  induction records generalizing w d with
  | nil => exact ⟨le_refl _, le_refl _, rfl, rfl, fun p hp => hp⟩
  | cons record rest ih =>
    obtain ⟨w', g, hstep, hnow, hcnt, henv, hrem, hheld, _⟩ :=
      doFileCleanupLoop_step nd record w
    obtain ⟨i1, i2, i3, i4, i5⟩ := ih w' (g d)
    rw [hstep rest d]
    exact ⟨le_trans hnow i1, le_trans hcnt i2, i3.trans henv, i4.trans hrem,
      fun p hp => i5 p (hheld p hp)⟩

/-- A lease file present before the loop of `doFileCleanup` is still present after it,
or it is that of a listed record that is not protected and for which, in the world in
which the loop came to it, the measured age was at least 5 minutes, the lock attempt
was granted and the removal did not fail.  That clock reading lies between the clock
before and after the loop, and that lock attempt is one of the attempts the loop
made. -/
theorem doFileCleanupLoop_examined (nd : List String) (records : List Record) (w : World)
    (deferred : List ExclusiveLock) (x : String) (h : hasFile w.files x) :
    hasFile (doFileCleanupLoop nd records w deferred).1.files x
      ∨ ∃ i r, records[i]? = some r ∧ r.Name = x ∧ x ∉ nd
          ∧ 5 * minute ≤ (timeSince (examinedAt nd records w i) r.BumpTime).1
          ∧ lockAnswer (timeSince (examinedAt nd records w i) r.BumpTime).2 0
              (Path.ipAddress x) = LockAnswer.free
          ∧ w.removeEnv (Path.ipAddress x) = none
          ∧ w.now ≤ (timeSince (examinedAt nd records w i) r.BumpTime).2.now
          ∧ (timeSince (examinedAt nd records w i) r.BumpTime).2.now
              ≤ (doFileCleanupLoop nd records w deferred).1.now
          ∧ (examinedAt nd records w i).lockEnv = w.lockEnv
          ∧ w.lockAttempts ≤ (examinedAt nd records w i).lockAttempts
          ∧ (examinedAt nd records w i).lockAttempts
              < (doFileCleanupLoop nd records w deferred).1.lockAttempts
          ∧ ∀ p, p ∈ w.held → p ∈ (examinedAt nd records w i).held := by
  induction records generalizing w deferred with
  | nil => exact Or.inl h
  | cons record rest ih =>
    obtain ⟨w', g, hstep, hnow, hcnt, henv, hrem, hheld, hread, hlt, hfile⟩ :=
      doFileCleanupLoop_step nd record w
    rw [hstep rest deferred]
    by_cases hx : hasFile w'.files x
    · rcases ih w' (g deferred) hx with
        hkeep | ⟨i, r, hi, hn, hnd, hage, hans, hre, hn1, hn2, he, hc1, hc2, hh⟩
      · exact Or.inl hkeep
      · refine Or.inr ⟨i + 1, r, by simpa using hi, hn, hnd, ?_⟩
        rw [examinedAt_succ nd record rest w w' i g hstep]
        exact ⟨hage, hans, by rw [← hrem]; exact hre, le_trans hnow hn1, hn2,
          he.trans henv, le_trans hcnt hc1, hc2, fun p hp => hh p (hheld p hp)⟩
    · obtain ⟨hname, hnd, hage, hans, hre⟩ := hfile x h hx
      have hnd' : record.Name ∉ nd := fun hmem => hnd (hname ▸ hmem)
      obtain ⟨f1, f2, _⟩ := doFileCleanupLoop_frame nd rest w' (g deferred)
      refine Or.inr ⟨0, record, by simp, hname, hnd, ?_⟩
      rw [examinedAt_zero]
      exact ⟨hage, hans, hre, timeSince_now_le w _, le_trans (hread hnd') f1, rfl,
        le_refl _, lt_of_lt_of_le (hlt hnd' hage) f2, fun p hp => hp⟩

/-- A lease file present before `doFileCleanup` is still present afterwards, or it is
that of a listed record that passed every test of the cleanup when the cleanup came
to it. -/
theorem doFileCleanup_examined (w : World) (dl : List String) (x : String)
    (h : hasFile w.files x) :
    hasFile (doFileCleanup w dl).2.files x
      ∨ (x ∉ dl ∧ x ∉ w.ipv4 ∧ ∃ i r, w.files[i]? = some r ∧ r.Name = x
          ∧ 5 * minute ≤ measuredAge w dl i r
          ∧ cleanupLockAnswer w dl i r = LockAnswer.free
          ∧ w.removeEnv (Path.ipAddress x) = none
          ∧ (∃ t, w.now ≤ t ∧ t ≤ (doFileCleanup w dl).2.now
              ∧ measuredAge w dl i r = timeSub t r.BumpTime)
          ∧ Path.ipAddress x ∉ w.held
          ∧ ∃ k, w.lockAttempts ≤ k ∧ k < (doFileCleanup w dl).2.lockAttempts
              ∧ w.lockEnv k (Path.ipAddress x) = LockAnswer.free) := by
  unfold doFileCleanup
  cases hl : w.listEnv w.lists with
  | some code =>
    left
    simpa [FSLocker.ListFiles, hl] using h
  | none =>
    simp only [FSLocker.ListFiles, hl, unlockAll_files, unlockAll_now, unlockAll_lockAttempts]
    have key := doFileCleanupLoop_examined (recordsNotToDeleteOf dl w.ipv4) w.files
      (listed w) [] x h
    refine key.imp id ?_
    rintro ⟨i, r, hi, hn, hnd, hage, hans, hre, hn1, hn2, he, hc1, hc2, hh⟩
    rw [mem_recordsNotToDeleteOf] at hnd
    have hnot := lockAnswer_free_not_held _ 0 _ hans
    have hfree : w.lockEnv (examinedAt (recordsNotToDeleteOf dl w.ipv4) w.files (listed w)
        i).lockAttempts (Path.ipAddress x) = LockAnswer.free := by
      have he' : (examinedAt (recordsNotToDeleteOf dl w.ipv4) w.files (listed w) i).lockEnv
          = w.lockEnv := he
      have hans' := hans
      simp only [lockAnswer] at hans'
      split at hans'
      · simp at hans'
      · rw [← he']
        simpa [timeSince, timeNow] using hans'
    refine ⟨fun hm => hnd (Or.inl hm), fun hm => hnd (Or.inr hm), i, r, hi, hn, hage,
      by rw [cleanupLockAnswer, hn]; exact hans, hre, ⟨_, hn1, hn2, rfl⟩, ?_,
      ⟨_, hc1, hc2, hfree⟩⟩
    intro hmem
    exact hnot (hh _ hmem)

theorem timeSub_mono (t u b : Int) (h : t ≤ u) : timeSub t b ≤ timeSub u b := by
  unfold timeSub
  exact max_le_max (le_refl _) (min_le_min (le_refl _) (by omega))

theorem doFileCleanup_now_le (w : World) (dl : List String) :
    w.now ≤ (doFileCleanup w dl).2.now := by
  unfold doFileCleanup
  cases hl : w.listEnv w.lists with
  | some code => simp [FSLocker.ListFiles, hl]
  | none =>
    simp only [FSLocker.ListFiles, hl, unlockAll_now]
    exact (doFileCleanupLoop_frame (recordsNotToDeleteOf dl w.ipv4) w.files (listed w) []).1

/-! ### Claim C12 -/

/-- C12: a lease file that `doFileCleanup` removes is that of a listed record whose
name is neither in the deallocation list nor on the interface, whose age as the
cleanup measured it when it came to the record (`measuredAge`) was at least
5 minutes, whose non-blocking lock attempt made right after that (`cleanupLockAnswer`)
was granted, and whose removal did not fail; that clock reading lies between the
clock before and after the cleanup, the lock was not held by the caller, and that
lock attempt is one of the attempts the cleanup made.  So the cleanup leaves in
place the file of every name in the deallocation list or on the interface; of every
name whose records were all measured younger than 5 minutes, in particular when they
are younger than 5 minutes at every instant of the cleanup; of every name whose
records all had their lock attempt not granted, in particular when the caller holds
the lock or the rest of the host grants it at none of the attempts of the cleanup;
and of every name whose removal fails.  `doFileCleanup` returns an error only when
the listing fails: failing to lock or to remove a record never does. -/
theorem doFileCleanup_removes_only (w : World) (deallocationList : List String) :
    (∀ x, hasFile w.files x → ¬ hasFile (doFileCleanup w deallocationList).2.files x →
        x ∉ deallocationList ∧ x ∉ w.ipv4 ∧ ∃ i r, w.files[i]? = some r ∧ r.Name = x
          ∧ 5 * minute ≤ measuredAge w deallocationList i r
          ∧ cleanupLockAnswer w deallocationList i r = LockAnswer.free
          ∧ w.removeEnv (Path.ipAddress x) = none
          ∧ (∃ t, w.now ≤ t ∧ t ≤ (doFileCleanup w deallocationList).2.now
              ∧ measuredAge w deallocationList i r = timeSub t r.BumpTime)
          ∧ Path.ipAddress x ∉ w.held
          ∧ ∃ k, w.lockAttempts ≤ k
              ∧ k < (doFileCleanup w deallocationList).2.lockAttempts
              ∧ w.lockEnv k (Path.ipAddress x) = LockAnswer.free)
    ∧ (∀ x, hasFile w.files x → (x ∈ deallocationList ∨ x ∈ w.ipv4) →
        hasFile (doFileCleanup w deallocationList).2.files x)
    ∧ (∀ x, hasFile w.files x →
        (∀ i r, w.files[i]? = some r → r.Name = x →
          measuredAge w deallocationList i r < 5 * minute) →
        hasFile (doFileCleanup w deallocationList).2.files x)
    ∧ (∀ x, hasFile w.files x →
        (∀ r ∈ w.files, r.Name = x → ∀ t, w.now ≤ t →
          t ≤ (doFileCleanup w deallocationList).2.now → timeSub t r.BumpTime < 5 * minute) →
        hasFile (doFileCleanup w deallocationList).2.files x)
    ∧ (∀ x, hasFile w.files x →
        (∀ i r, w.files[i]? = some r → r.Name = x →
          cleanupLockAnswer w deallocationList i r ≠ LockAnswer.free) →
        hasFile (doFileCleanup w deallocationList).2.files x)
    ∧ (∀ x, hasFile w.files x →
        (Path.ipAddress x ∈ w.held
          ∨ ∀ k, w.lockAttempts ≤ k → k < (doFileCleanup w deallocationList).2.lockAttempts →
              w.lockEnv k (Path.ipAddress x) ≠ LockAnswer.free) →
        hasFile (doFileCleanup w deallocationList).2.files x)
    ∧ (∀ x, hasFile w.files x → w.removeEnv (Path.ipAddress x) ≠ none →
        hasFile (doFileCleanup w deallocationList).2.files x)
    ∧ (∀ e, (doFileCleanup w deallocationList).1 = some e
        ↔ ∃ code, w.listEnv w.lists = some code ∧ e = Err.ext code) := by
  refine ⟨fun x h hgone => ?_, fun x h hprot => ?_, fun x h hyoung => ?_,
    fun x h hyoung => ?_, fun x h hbusy => ?_, fun x h hbusy => ?_, fun x h hrem => ?_,
    doFileCleanup_error w deallocationList⟩
  · exact (doFileCleanup_examined w deallocationList x h).resolve_left hgone
  · rcases doFileCleanup_examined w deallocationList x h with hkeep | ⟨h1, h2, _⟩
    · exact hkeep
    · rcases hprot with hp | hp
      · exact absurd hp h1
      · exact absurd hp h2
  · rcases doFileCleanup_examined w deallocationList x h with
      hkeep | ⟨_, _, i, r, hi, hn, hage, _⟩
    · exact hkeep
    · exact absurd (hyoung i r hi hn) (not_lt.mpr hage)
  · rcases doFileCleanup_examined w deallocationList x h with
      hkeep | ⟨_, _, i, r, hi, hn, hage, _, _, ⟨t, ht1, ht2, ht3⟩, _⟩
    · exact hkeep
    · rw [ht3] at hage
      exact absurd (hyoung r (List.getElem?_mem hi) hn t ht1 ht2) (not_lt.mpr hage)
  · rcases doFileCleanup_examined w deallocationList x h with
      hkeep | ⟨_, _, i, r, hi, hn, _, hans, _⟩
    · exact hkeep
    · exact absurd hans (hbusy i r hi hn)
  · rcases doFileCleanup_examined w deallocationList x h with
      hkeep | ⟨_, _, i, r, _, _, _, _, _, _, hheld, k, hk1, hk2, hk3⟩
    · exact hkeep
    · rcases hbusy with hb | hb
      · exact absurd hb hheld
      · exact absurd hk3 (hb k hk1 hk2)
  · rcases doFileCleanup_examined w deallocationList x h with
      hkeep | ⟨_, _, i, r, _, _, _, _, hre, _⟩
    · exact hkeep
    · exact absurd hre hrem

/-- C12 at a host with a young, a contended and a stale lease record, none of them on
the interface.  The stale record of `10.0.0.9` is removed, having been measured at
least 5 minutes old and having had its lock granted.  The record of `10.0.0.7` was
measured younger than 5 minutes, and is younger than that at every instant of the
cleanup: it is left in place.  The lock attempt for the record of `10.0.0.8` was
contended, as it is at every attempt: it is left in place. -/
theorem doFileCleanup_removes_only_witness :
    (¬ hasFile (doFileCleanup staleWorld []).2.files "10.0.0.9"
      ∧ "10.0.0.9" ∉ ([] : List String) ∧ "10.0.0.9" ∉ staleWorld.ipv4
      ∧ ∃ i r, staleWorld.files[i]? = some r ∧ r.Name = "10.0.0.9"
        ∧ 5 * minute ≤ measuredAge staleWorld [] i r
        ∧ cleanupLockAnswer staleWorld [] i r = LockAnswer.free
        ∧ staleWorld.removeEnv (Path.ipAddress "10.0.0.9") = none
        ∧ (∃ t, staleWorld.now ≤ t ∧ t ≤ (doFileCleanup staleWorld []).2.now
            ∧ measuredAge staleWorld [] i r = timeSub t r.BumpTime)
        ∧ Path.ipAddress "10.0.0.9" ∉ staleWorld.held
        ∧ ∃ k, staleWorld.lockAttempts ≤ k
            ∧ k < (doFileCleanup staleWorld []).2.lockAttempts
            ∧ staleWorld.lockEnv k (Path.ipAddress "10.0.0.9") = LockAnswer.free)
    ∧ (measuredAge staleWorld [] 0 ⟨"10.0.0.7", 900 * second⟩ < 5 * minute
      ∧ hasFile (doFileCleanup staleWorld []).2.files "10.0.0.7")
    ∧ ((∀ t, staleWorld.now ≤ t → t ≤ (doFileCleanup staleWorld []).2.now →
          timeSub t (900 * second) < 5 * minute)
      ∧ hasFile (doFileCleanup staleWorld []).2.files "10.0.0.7")
    ∧ (cleanupLockAnswer staleWorld [] 1 ⟨"10.0.0.8", 0⟩ = LockAnswer.busy
      ∧ hasFile (doFileCleanup staleWorld []).2.files "10.0.0.8")
    ∧ ((∀ k, staleWorld.lockEnv k (Path.ipAddress "10.0.0.8") = LockAnswer.busy)
      ∧ hasFile (doFileCleanup staleWorld []).2.files "10.0.0.8") :=
  ⟨⟨by unfold hasFile; decide,
      (doFileCleanup_removes_only staleWorld []).1 "10.0.0.9"
        ⟨⟨"10.0.0.9", 0⟩, by decide, rfl⟩ (by unfold hasFile; decide)⟩,
    ⟨by decide,
      (doFileCleanup_removes_only staleWorld []).2.2.1 "10.0.0.7"
        ⟨⟨"10.0.0.7", 900 * second⟩, by decide, rfl⟩
        (by
          intro i r hi hn
          rcases i with _ | _ | _ | i
          · obtain rfl : (⟨"10.0.0.7", 900 * second⟩ : Record) = r := Option.some.inj hi
            decide
          · obtain rfl : (⟨"10.0.0.8", 0⟩ : Record) = r := Option.some.inj hi
            exact absurd hn (by decide)
          · obtain rfl : (⟨"10.0.0.9", 0⟩ : Record) = r := Option.some.inj hi
            exact absurd hn (by decide)
          · exact absurd hi (by simp [staleWorld, quietWorld]))⟩,
    ⟨fun t _ h2 =>
        lt_of_le_of_lt
          (timeSub_mono t (1000 * second) (900 * second)
            (le_of_le_of_eq h2 (by decide)))
          (by decide),
      (doFileCleanup_removes_only staleWorld []).2.2.2.1 "10.0.0.7"
        ⟨⟨"10.0.0.7", 900 * second⟩, by decide, rfl⟩
        (by
          intro r hr hn t _ h2
          have hb : r.BumpTime = 900 * second := by
            simp only [staleWorld, quietWorld, List.mem_cons, List.mem_singleton,
              List.not_mem_nil, or_false] at hr
            rcases hr with rfl | rfl | rfl
            · rfl
            · exact absurd hn (by decide)
            · exact absurd hn (by decide)
          have hnow : (doFileCleanup staleWorld []).2.now = 1000 * second := by decide
          rw [hb]
          rw [hnow] at h2
          exact lt_of_le_of_lt (timeSub_mono t (1000 * second) (900 * second) h2)
            (by decide))⟩,
    ⟨by decide,
      (doFileCleanup_removes_only staleWorld []).2.2.2.2.1 "10.0.0.8"
        ⟨⟨"10.0.0.8", 0⟩, by decide, rfl⟩
        (by
          intro i r hi hn
          rcases i with _ | _ | _ | i
          · obtain rfl : (⟨"10.0.0.7", 900 * second⟩ : Record) = r := Option.some.inj hi
            exact absurd hn (by decide)
          · obtain rfl : (⟨"10.0.0.8", 0⟩ : Record) = r := Option.some.inj hi
            decide
          · obtain rfl : (⟨"10.0.0.9", 0⟩ : Record) = r := Option.some.inj hi
            exact absurd hn (by decide)
          · exact absurd hi (by simp [staleWorld, quietWorld]))⟩,
    ⟨fun k => by simp [staleWorld],
      (doFileCleanup_removes_only staleWorld []).2.2.2.2.2.1 "10.0.0.8"
        ⟨⟨"10.0.0.8", 0⟩, by decide, rfl⟩
        (Or.inr (fun k _ _ => by simp [staleWorld]))⟩⟩

/-! ### The pass of `allocateIPv4` that hands out an address -/

theorem lockAnswer_attempted (w : World) (p q : Path) (k : Nat) :
    lockAnswer (attempted w q) k p = lockAnswer w (k + 1) p :=
  lockAnswer_step w p q k

/-- Inside a call that holds the config lock and has made `k` lock attempts, an attempt
on a lease path is answered as the caller's attempt number `k + j`. -/
theorem lockAnswer_shift (w w0 : World) (k j : Nat) (ip : String)
    (henv : w0.lockEnv = w.lockEnv) (hheld : w0.held = Path.ipConfig :: w.held)
    (hcount : w0.lockAttempts = w.lockAttempts + k) :
    lockAnswer w0 j (Path.ipAddress ip) = lockAnswer w (k + j) (Path.ipAddress ip) := by
  simp [lockAnswer, henv, hheld, hcount, Nat.add_assoc]

/-- The world a first-fit success of `doAllocate` leaves: the lease lock is held in
addition, and the attempts made are those on the addresses up to the one found. -/
theorem doAllocateLoop_first_free_world (l : List String) (w : World) (i : Nat) (ip : String)
    (hi : l[i]? = some ip)
    (hbefore : ∀ j ipj, j < i → l[j]? = some ipj →
      lockAnswer w j (Path.ipAddress ipj) = LockAnswer.busy)
    (hfree : lockAnswer w i (Path.ipAddress ip) = LockAnswer.free) :
    (doAllocateLoop l w).2.held = Path.ipAddress ip :: w.held
      ∧ (doAllocateLoop l w).2.lockAttempts = w.lockAttempts + i + 1 := by
  induction l generalizing w i with
  | nil => simp at hi
  | cons a rest ih =>
    cases i with
    | zero =>
      simp only [List.getElem?_cons_zero, Option.some.injEq] at hi
      subst hi
      rw [doAllocateLoop, tryAllocate, ExclusiveLock_free w _ _ hfree]
      simp
    | succ i =>
      have h0 := hbefore 0 a (Nat.succ_pos i) (by simp)
      rw [doAllocateLoop, tryAllocate, ExclusiveLock_busy w _ h0]
      simp only [ne_eq, not_true_eq_false, if_false]
      have key := ih (attempted w (Path.ipAddress a)) i (by simpa using hi)
        (by
          intro j ipj hj hget
          rw [lockAnswer_attempted]
          exact hbefore (j + 1) ipj (Nat.succ_lt_succ hj) (by simpa using hget))
        (by rw [lockAnswer_attempted]; exact hfree)
      refine ⟨key.1, ?_⟩
      show (doAllocateLoop rest (attempted w (Path.ipAddress a))).2.lockAttempts = _
      rw [key.2]
      simp only [attempted]
      omega

/-- A run of `doAllocate` that ends with `errNoFreeIPAddressFound` found every lease
lock contended. -/
theorem doAllocateLoop_noFree (l : List String) (w : World)
    (h : (doAllocateLoop l w).1.2.2 = some Err.errNoFreeIPAddressFound) :
    ∀ j ip, l[j]? = some ip → lockAnswer w j (Path.ipAddress ip) = LockAnswer.busy := by
  induction l generalizing w with
  | nil => intro j ip hj; simp at hj
  | cons a rest ih =>
    rcases hans : lockAnswer w 0 (Path.ipAddress a) with _ | _ | code
    · rw [doAllocateLoop, tryAllocate, ExclusiveLock_free w _ _ hans] at h
      simp at h
    · rw [doAllocateLoop, tryAllocate, ExclusiveLock_busy w _ hans] at h
      simp only [ne_eq, not_true_eq_false, if_false] at h
      intro j ip hj
      cases j with
      | zero =>
        simp only [List.getElem?_cons_zero, Option.some.injEq] at hj
        subst hj; exact hans
      | succ j =>
        have := ih _ h j ip (by simpa using hj)
        rwa [lockAnswer_step] at this
    · rw [doAllocateLoop, tryAllocate, ExclusiveLock_fault w _ _ _ hans] at h
      simp at h

theorem assignPoll_held (start timeout : Int) (orig : List String) (fuel : Nat)
    (w : World) : (assignPoll start timeout orig fuel w).2.held = w.held := by
  induction fuel generalizing w with
  | zero => rfl
  | succ n ih =>
    unfold assignPoll
    simp only
    split
    · have h := Refresh_held (timeSince w start).2
      split
      · simp_all [timeSince, timeNow]
      · split
        · simp_all [timeSince, timeNow]
        · rw [ih]; simp_all [timeSince, timeNow, timeSleep]
    · rfl

theorem assignMoreIPs_held (w : World) (b t : Int) :
    (assignMoreIPs w b t).2.held = w.held := by
  unfold assignMoreIPs
  split
  · rfl
  · cases h : w.cloudEnv w.cloudCalls with
    | some code => simp [AssignPrivateIpAddresses, h]
    | none => simp [AssignPrivateIpAddresses, h, assignPoll_held, timeNow]

/-- A successful `allocateIPv4` took the config lock, and its result is that of one
run of `doAllocate`: the first one, started after the config lock attempt, or the
one after the expansion, started after one more attempt for every address of the
first refreshed list.  That run started with the config lock held in addition to what
the caller held, and the config lock is released afterwards. -/
theorem allocateIPv4_success_pass (w : World) (b t : Int) (ip : String)
    (lock : ExclusiveLock) (h : (allocateIPv4 w b t).1 = (ip, some lock, none)) :
    Path.ipConfig ∉ w.held
      ∧ ∃ w0 k, w0.lockEnv = w.lockEnv ∧ w0.held = Path.ipConfig :: w.held
          ∧ w0.lockAttempts = w.lockAttempts + k ∧ (k = 1 ∨ k = 1 + refreshedLength w)
          ∧ (doAllocate w0).1 = (ip, some lock, none)
          ∧ (allocateIPv4 w b t).2 = Unlock (doAllocate w0).2 ⟨Path.ipConfig⟩ := by
  rw [allocateIPv4_refines] at h ⊢
  revert h
  unfold allocateIPv4Spec
  rcases hans : lockAnswer w 0 Path.ipConfig with _ | _ | code
  · have hnot := lockAnswer_free_not_held w 0 _ hans
    rw [lockConfiguration_free w hans]
    simp only
    have hE := Refresh_lockEnv (granted w Path.ipConfig)
    have hH := Refresh_held (granted w Path.ipConfig)
    have hL := Refresh_lockAttempts (granted w Path.ipConfig)
    rcases hR : Refresh (granted w Path.ipConfig) with ⟨_ | e, w2⟩
    · rw [hR] at hE hH hL
      have hE2 : w2.lockEnv = w.lockEnv := hE
      have hH2 : w2.held = Path.ipConfig :: w.held := hH
      have hL2 : w2.lockAttempts = w.lockAttempts + 1 := hL
      have hlen : w2.ipv4.length = refreshedLength w :=
        Refresh_none_length (granted w Path.ipConfig) w2 hR
      simp only
      by_cases hno : (doAllocate w2).1.2.2 = some Err.errNoFreeIPAddressFound
      · rw [if_pos hno]
        have hbusy := doAllocateLoop_noFree w2.ipv4 w2 hno
        have hw3 : doAllocate w2 = _ := doAllocateLoop_all_busy w2.ipv4 w2 hbusy
        have hE3 : (doAllocate w2).2.lockEnv = w.lockEnv := by rw [hw3]; exact hE2
        have hH3 : (doAllocate w2).2.held = Path.ipConfig :: w.held := by rw [hw3]; exact hH2
        have hL3 : (doAllocate w2).2.lockAttempts = w.lockAttempts + (1 + refreshedLength w) := by
          rw [hw3]
          show w2.lockAttempts + w2.ipv4.length = _
          omega
        have hE4 := assignMoreIPs_lockEnv (doAllocate w2).2 b t
        have hH4 := assignMoreIPs_held (doAllocate w2).2 b t
        have hL4 := assignMoreIPs_lockAttempts (doAllocate w2).2 b t
        unfold expandAndRetry
        rcases hA : assignMoreIPs (doAllocate w2).2 b t with ⟨_ | e, w4⟩
        · rw [hA] at hE4 hH4 hL4
          intro h
          exact ⟨hnot, w4, 1 + refreshedLength w, hE4.trans hE3, hH4.trans hH3,
            hL4.trans hL3, Or.inr rfl, h, rfl⟩
        · intro h; simp at h
      · rw [if_neg hno]
        intro h
        exact ⟨hnot, w2, 1, hE2, hH2, hL2, Or.inl rfl, h, rfl⟩
    · intro h; simp at h
  · rw [lockConfiguration_busy w hans]
    intro h; simp at h
  · rw [lockConfiguration_fault w code hans]
    intro h; simp at h

/-! ### The calls `allocateIPv4` logs -/

theorem tryAllocate_trace (w : World) (ip : String) :
    (tryAllocate w ip).2.trace = w.trace ++ [Event.lockAttempt (Path.ipAddress ip)] := by
  rcases hans : lockAnswer w 0 (Path.ipAddress ip) with _ | _ | code
  · rw [tryAllocate, ExclusiveLock_free w _ _ hans]
  · rw [tryAllocate, ExclusiveLock_busy w _ hans]
    simp
  · rw [tryAllocate, ExclusiveLock_fault w _ _ _ hans]
    simp

theorem doAllocateLoop_trace_grows (l : List String) (w : World) :
    w.trace <+: (doAllocateLoop l w).2.trace := by
  induction l generalizing w with
  | nil => exact List.prefix_refl _
  | cons a rest ih =>
    rcases hans : lockAnswer w 0 (Path.ipAddress a) with _ | _ | code
    · rw [doAllocateLoop, tryAllocate, ExclusiveLock_free w _ _ hans]
      simp only [Bump_trace]
      exact List.prefix_append _ _
    · rw [doAllocateLoop, tryAllocate, ExclusiveLock_busy w _ hans]
      simp only [ne_eq, not_true_eq_false, if_false]
      have h2 : (w.trace ++ [Event.lockAttempt (Path.ipAddress a)])
          <+: (doAllocateLoop rest (attempted w (Path.ipAddress a))).2.trace :=
        ih (attempted w (Path.ipAddress a))
      exact (List.prefix_append _ _).trans h2
    · rw [doAllocateLoop, tryAllocate, ExclusiveLock_fault w _ _ _ hans]
      simp only [ne_eq, reduceCtorEq, not_false_eq_true, if_true]
      exact List.prefix_append _ _

/-- The first call `doAllocate` logs on a list that starts with `primary` is the lock
attempt on the lease path of `primary`. -/
theorem doAllocateLoop_trace_first (primary : String) (rest : List String) (w : World) :
    (w.trace ++ [Event.lockAttempt (Path.ipAddress primary)])
      <+: (doAllocateLoop (primary :: rest) w).2.trace := by
  rcases hans : lockAnswer w 0 (Path.ipAddress primary) with _ | _ | code
  · rw [doAllocateLoop, tryAllocate, ExclusiveLock_free w _ _ hans]
    simp only [Bump_trace]
    exact List.prefix_refl _
  · rw [doAllocateLoop, tryAllocate, ExclusiveLock_busy w _ hans]
    simp only [ne_eq, not_true_eq_false, if_false]
    exact doAllocateLoop_trace_grows rest (attempted w (Path.ipAddress primary))
  · rw [doAllocateLoop, tryAllocate, ExclusiveLock_fault w _ _ _ hans]
    simp only [ne_eq, reduceCtorEq, not_false_eq_true, if_true]
    exact List.prefix_refl _

theorem assignMoreIPs_trace_grows (w : World) (b t : Int) :
    w.trace <+: (assignMoreIPs w b t).2.trace := by
  unfold assignMoreIPs
  split
  · exact List.prefix_refl _
  · cases h : w.cloudEnv w.cloudCalls with
    | some code =>
      simp only [AssignPrivateIpAddresses, h]
      exact List.prefix_append _ _
    | none =>
      simp only [AssignPrivateIpAddresses, h, assignPoll_trace, timeNow]
      exact List.prefix_append _ _

theorem expandAndRetry_trace_grows (w : World) (cfg : ExclusiveLock) (b t : Int) :
    w.trace <+: (expandAndRetry w cfg b t).2.trace := by
  have h1 := assignMoreIPs_trace_grows w b t
  unfold expandAndRetry
  split
  · rename_i e w1 heq
    rw [heq] at h1
    exact h1.trans (List.prefix_append _ _)
  · rename_i w1 heq
    rw [heq] at h1
    exact (h1.trans (doAllocateLoop_trace_grows w1.ipv4 w1)).trans (List.prefix_append _ _)

/-- When the config lock is granted and `Refresh` installs a list that starts with
`primary`, the first two calls `allocateIPv4` logs are the lock attempts on the config
path and on the lease path of `primary`, and when the latter is granted the result is
`primary` with its lock. -/
theorem allocateIPv4_tries_primary (w : World) (b t : Int) (primary : String)
    (rest : List String) (hcfg : lockAnswer w 0 Path.ipConfig = LockAnswer.free)
    (hm : w.metadata w.refreshes = Except.ok (primary :: rest)) :
    (w.trace ++ [Event.lockAttempt Path.ipConfig, Event.lockAttempt (Path.ipAddress primary)])
        <+: (allocateIPv4 w b t).2.trace
      ∧ (lockAnswer w 1 (Path.ipAddress primary) = LockAnswer.free →
          (allocateIPv4 w b t).1 = (primary, some ⟨Path.ipAddress primary⟩, none)
          ∧ (allocateIPv4 w b t).2.ipv4 = primary :: rest) := by
  have hR0 := Refresh_ok (granted w Path.ipConfig) (primary :: rest) hm
  have hE := Refresh_lockEnv (granted w Path.ipConfig)
  have hH := Refresh_held (granted w Path.ipConfig)
  have hL := Refresh_lockAttempts (granted w Path.ipConfig)
  have hT := Refresh_trace (granted w Path.ipConfig)
  rcases hR : Refresh (granted w Path.ipConfig) with ⟨r, w2⟩
  rw [hR] at hR0 hE hH hL hT
  have hr : r = none := (Prod.mk.inj hR0).1
  have hI : w2.ipv4 = primary :: rest := by rw [(Prod.mk.inj hR0).2]
  have hE2 : w2.lockEnv = w.lockEnv := hE
  have hH2 : w2.held = Path.ipConfig :: w.held := hH
  have hL2 : w2.lockAttempts = w.lockAttempts + 1 := hL
  have hT2 : w2.trace = w.trace ++ [Event.lockAttempt Path.ipConfig] := hT
  subst hr
  have hfirst : (w.trace ++ [Event.lockAttempt Path.ipConfig,
      Event.lockAttempt (Path.ipAddress primary)]) <+: (doAllocate w2).2.trace := by
    have := doAllocateLoop_trace_first primary rest w2
    rw [hT2, List.append_assoc] at this
    rw [doAllocate, hI]
    exact this
  rw [allocateIPv4_refines]
  unfold allocateIPv4Spec
  rw [lockConfiguration_free w hcfg]
  simp only [hR]
  constructor
  · split
    · exact hfirst.trans (expandAndRetry_trace_grows _ _ _ _)
    · exact hfirst.trans (List.prefix_append _ _)
  · intro hf
    have hf0 : lockAnswer w2 0 (Path.ipAddress primary) = LockAnswer.free := by
      rw [lockAnswer_shift w w2 1 0 primary hE2 hH2 hL2]
      exact hf
    have hd : (doAllocate w2).1 = (primary, some ⟨Path.ipAddress primary⟩, none) := by
      rw [doAllocate, hI]
      exact doAllocateLoop_first_free (primary :: rest) w2 0 primary (by simp)
        (by intro j _ hj; omega) hf0
    rw [if_neg (by rw [hd]; simp)]
    refine ⟨hd, ?_⟩
    simp only [Unlock_ipv4, doAllocate, doAllocateLoop_ipv4]
    exact hI

/-! ### Claim C2 -/

/-- C2 (amended): a successful `allocateIPv4` returns an address of the interface's
IPv4 list together with the lock of that address's lease path, and on return the
caller holds that lock in addition to what it held before.  The address is the first
of the list, position 0 (the primary) included, whose lock attempt was granted in the
run of `doAllocate` that found it: with the config lock attempt counted as attempt 0
of the call, that run made attempts `k`, `k + 1`, ... on positions 0, 1, ... of the
list, where `k` is 1 or, after an expansion, 1 plus the length of the first refreshed
list; the attempt on the returned position `i` is the last attempt of the call and
was granted, and the attempts on the positions before it were contended.  So the
returned address comes from position 0 exactly when the primary's attempt was
granted; it is the primary when that attempt was granted, and it is not the primary
when that attempt was not granted and the list holds no address twice.
`doAllocate` tries the primary first: when the config lock is granted and `Refresh`
installs a list that starts with `primary`, the first two calls of `allocateIPv4` are
the lock attempts on the config path and on the primary's lease path, and when the
latter is granted `allocateIPv4` returns the primary. -/
theorem allocateIPv4_primary (w : World) (batchSize ipRefreshTimeout : Int) :
    (∀ ip lock, (allocateIPv4 w batchSize ipRefreshTimeout).1 = (ip, some lock, none) →
      lock = ⟨Path.ipAddress ip⟩
      ∧ (allocateIPv4 w batchSize ipRefreshTimeout).2.held = Path.ipAddress ip :: w.held
      ∧ ∃ i k, (allocateIPv4 w batchSize ipRefreshTimeout).2.ipv4[i]? = some ip
          ∧ (allocateIPv4 w batchSize ipRefreshTimeout).2.lockAttempts
              = w.lockAttempts + k + i + 1
          ∧ (k = 1 ∨ k = 1 + refreshedLength w)
          ∧ lockAnswer w (k + i) (Path.ipAddress ip) = LockAnswer.free
          ∧ (∀ j a, j < i → (allocateIPv4 w batchSize ipRefreshTimeout).2.ipv4[j]? = some a →
              lockAnswer w (k + j) (Path.ipAddress a) = LockAnswer.busy)
          ∧ ∀ primary, (allocateIPv4 w batchSize ipRefreshTimeout).2.ipv4[0]? = some primary →
              (i = 0 ↔ lockAnswer w k (Path.ipAddress primary) = LockAnswer.free)
              ∧ (lockAnswer w k (Path.ipAddress primary) = LockAnswer.free → ip = primary)
              ∧ ((allocateIPv4 w batchSize ipRefreshTimeout).2.ipv4.Nodup →
                  lockAnswer w k (Path.ipAddress primary) ≠ LockAnswer.free → ip ≠ primary))
    ∧ (∀ primary rest, lockAnswer w 0 Path.ipConfig = LockAnswer.free →
        w.metadata w.refreshes = Except.ok (primary :: rest) →
        (w.trace ++ [Event.lockAttempt Path.ipConfig,
            Event.lockAttempt (Path.ipAddress primary)])
          <+: (allocateIPv4 w batchSize ipRefreshTimeout).2.trace
        ∧ (lockAnswer w 1 (Path.ipAddress primary) = LockAnswer.free →
            (allocateIPv4 w batchSize ipRefreshTimeout).1
              = (primary, some ⟨Path.ipAddress primary⟩, none)
            ∧ (allocateIPv4 w batchSize ipRefreshTimeout).2.ipv4 = primary :: rest)) := by
  refine ⟨fun ip lock h => ?_, fun primary rest hcfg hm => ?_⟩
  · obtain ⟨hnot, w0, k, henv, hheld, hcount, hk, hd, hw⟩ :=
      allocateIPv4_success_pass w batchSize ipRefreshTimeout ip lock h
    obtain ⟨i, hi, hlock, hfree, hbefore⟩ := doAllocateLoop_success w0.ipv4 w0 ip lock hd
    obtain ⟨hheld', hcount'⟩ := doAllocateLoop_first_free_world w0.ipv4 w0 i ip hi hbefore hfree
    have hipv4 : (allocateIPv4 w batchSize ipRefreshTimeout).2.ipv4 = w0.ipv4 := by
      rw [hw, Unlock_ipv4, doAllocate, doAllocateLoop_ipv4]
    have hfree' : lockAnswer w (k + i) (Path.ipAddress ip) = LockAnswer.free := by
      rw [← lockAnswer_shift w w0 k i ip henv hheld hcount]; exact hfree
    have hbefore' : ∀ j a, j < i → w0.ipv4[j]? = some a →
        lockAnswer w (k + j) (Path.ipAddress a) = LockAnswer.busy := by
      intro j a hj hget
      rw [← lockAnswer_shift w w0 k j a henv hheld hcount]
      exact hbefore j a hj hget
    refine ⟨hlock, ?_, i, k, by rw [hipv4]; exact hi, ?_, hk, hfree', ?_, ?_⟩
    · rw [hw, Unlock_held, doAllocate, hheld', hheld]
      show ((Path.ipAddress ip :: Path.ipConfig :: w.held).filter
        (fun q => decide (q ≠ Path.ipConfig))) = _
      rw [List.filter_cons_of_pos (by simp), granted_unlock_held w _ hnot]
    · rw [hw]
      show (doAllocate w0).2.lockAttempts = _
      rw [doAllocate, hcount', hcount]
    · rw [hipv4]; exact hbefore'
    · rw [hipv4]
      intro primary hp
      have hiff : i = 0 ↔ lockAnswer w k (Path.ipAddress primary) = LockAnswer.free := by
        constructor
        · intro h0
          subst h0
          rw [hp] at hi
          simp only [Option.some.injEq] at hi
          subst hi
          simpa using hfree'
        · intro hf
          by_contra hne
          have := hbefore' 0 primary (Nat.pos_of_ne_zero hne) hp
          simp only [Nat.add_zero] at this
          rw [this] at hf
          exact absurd hf (by decide)
      refine ⟨hiff, fun hf => ?_, fun hnd hnf heq => ?_⟩
      · have h0 := hiff.mpr hf
        subst h0
        rw [hp] at hi
        exact (Option.some.inj hi).symm
      · have hne : i ≠ 0 := fun h0 => hnf (hiff.mp h0)
        subst heq
        have hlt : i < w0.ipv4.length := by
          rcases List.getElem?_eq_some_iff.mp hi with ⟨hlt, _⟩
          exact hlt
        have h0lt : 0 < w0.ipv4.length := by omega
        have e1 : w0.ipv4[i] = ip := by
          rcases List.getElem?_eq_some_iff.mp hi with ⟨_, he⟩
          exact he
        have e2 : w0.ipv4[0] = ip := by
          rcases List.getElem?_eq_some_iff.mp hp with ⟨_, he⟩
          exact he
        exact hne ((List.Nodup.getElem_inj_iff hnd).mp (e1.trans e2.symm))
  · exact allocateIPv4_tries_primary w batchSize ipRefreshTimeout primary rest hcfg hm

/-- The amended C2 on two hosts.  At the host of scenario S1 the primary is contended:
the call succeeds with the first secondary and that address's lock, which the caller
holds on return.  On a host with only a primary that nobody has locked, the config
lock and the refresh succeed and the primary's lease lock is free at the first lease
attempt: the primary is handed out. -/
theorem allocateIPv4_primary_witness :
    ((allocateIPv4 leasingWorld 1 (5 * second)).1
        = ("10.0.0.2", some ⟨Path.ipAddress "10.0.0.2"⟩, none)
      ∧ (allocateIPv4 leasingWorld 1 (5 * second)).2.held
          = Path.ipAddress "10.0.0.2" :: leasingWorld.held)
    ∧ (lockAnswer roomyWorld 1 (Path.ipAddress "10.0.0.1") = LockAnswer.free
      ∧ (allocateIPv4 roomyWorld 1 (5 * second)).1
          = ("10.0.0.1", some ⟨Path.ipAddress "10.0.0.1"⟩, none)) :=
  ⟨⟨by decide,
      ((allocateIPv4_primary leasingWorld 1 (5 * second)).1 "10.0.0.2"
        ⟨Path.ipAddress "10.0.0.2"⟩ (by decide)).2.1⟩,
    ⟨by decide,
      (((allocateIPv4_primary roomyWorld 1 (5 * second)).2 "10.0.0.1" []
        (by decide) (by rfl)).2 (by decide)).1⟩⟩

/-- C2 as stated fails on a host where no lease lock is taken: `allocateIPv4`
succeeds and returns the address at position 0 of the IPv4 list, the primary. -/
theorem allocateIPv4_returns_primary :
    (allocateIPv4 idleWorld 1 (5 * second)).1
      = ("10.0.0.1", some ⟨Path.ipAddress "10.0.0.1"⟩, none)
    ∧ (allocateIPv4 idleWorld 1 (5 * second)).2.ipv4[0]? = some "10.0.0.1" := by
  decide

end Titus
